import Mathlib

/-!
# hyperclient: the request multiplexer of `src/hyperclient/client.cc`

A shallow embedding of the client: the frame codec used by `client::priv::send`
and `client::flush_one`, the three pending-operation variants and their response
handlers, the dispatcher (`add_reqrep`, `update`, `search`) and the event pump
(`flush_one`, `flush`, `outstanding`).

Conventions.
* A byte buffer (`e::buffer`) is the list of its bytes.
* Machine integers are natural numbers; fixed-width fields are reduced modulo
  their width where they are written to or read from the wire.
* Declarations of HyperDex that `client.cc` only includes (message-type and
  returncode numbers, the serialized width of an entity id, the element
  serializers of `e::buffer`) are the fields of the parameter `hyperdex`.
* Everything the operating system or the coordinator decides (whether a connect
  or a send succeeds, what `poll` and `recv` report) is an explicit argument.
-/

set_option linter.unusedVariables false

namespace hyperclient

/-! ## Buffers and fixed-width integers -/

/-- The bytes of an `e::buffer`. -/
abbrev buffer := List Nat

/-- Big-endian image of `n` in `w` bytes (`packer << uintN_t`); the value is
reduced modulo `256 ^ w`, as a `w`-byte machine integer is. -/
def pack_be : Nat → Nat → buffer
  | 0, _ => []
  | w + 1, n => pack_be w (n / 256) ++ [n % 256]

/-- Number denoted by a big-endian byte string. -/
def be_value (bs : buffer) : Nat :=
  bs.foldl (fun acc b => acc * 256 + b % 256) 0

/-- Reading a `w`-byte big-endian integer (`unpacker >> uintN_t`): `none` is the
`std::out_of_range` thrown when fewer than `w` bytes are left. -/
def unpack_be (w : Nat) (bs : buffer) : Option (Nat × buffer) :=
  if bs.length < w then none else some (be_value (bs.take w), bs.drop w)

/-- Client-visible return codes (`hyperclient::returncode`). -/
inductive returncode
  | SUCCESS | NOTFOUND | WRONGARITY | NOTASPACE | BADSEARCH | BADDIMENSION
  | COORDFAIL | CONNECTFAIL | DISCONNECT | RECONFIGURE | TIMEOUT
  | SERVERERROR | LOGICERROR
  deriving DecidableEq, Repr

/-- An entity id (`hyperdex::entityid`).
Modelled from the spec: `entity id, fixed width`; the class is declared in a
header that is not part of the sources. An entity id is represented by the
number whose `SERIALIZEDSIZE`-byte big-endian image is its wire form. -/
abbrev entityid := Nat

/-- A space id (`hyperdex::spaceid`), an opaque integer. -/
abbrev spaceid := Nat

/-- A server instance (`hyperdex::instance`; `instance` is a reserved word here).
Modelled from the spec: `an address record: inbound network endpoint and an
inbound_version integer`; the class is declared outside the sources. -/
structure hinstance where
  inbound : Nat
  inbound_version : Nat
  deriving DecidableEq, Repr

/-- A search predicate (`hyperspacehashing::search`).
Modelled from the spec: `the predicate records an equality at that index` and
`range constraints use (low, high) intervals at the matching dimension index`;
the class is declared outside the sources. -/
inductive search_term
  | unset
  | equality (value : buffer)
  | range (low high : Nat)
  deriving DecidableEq, Repr

/-- The predicate: one term per dimension. -/
abbrev search := List search_term

/-- Result of `search s(n)`: a predicate over `n` dimensions constraining nothing. -/
def search.mk (n : Nat) : search := List.replicate n search_term.unset

/-- The call `s.equality_set(idx, value)`. -/
def search.equality_set (s : search) (idx : Nat) (value : buffer) : search :=
  s.set idx (search_term.equality value)

/-- The call `s.range_set(idx, low, high)`. -/
def search.range_set (s : search) (idx low high : Nat) : search :=
  s.set idx (search_term.range low high)

/-- Declarations that `client.cc` uses and that live in headers outside the
sources: the numbers of the `network_msgtype` and `network_returncode`
enumerators, `entityid::SERIALIZEDSIZE`, the sentinels `NULLSPACE` and
`entityid(CLIENTSPACE)`, and the `e::buffer` serializers of buffers, vectors,
bitfields and search predicates. -/
structure hyperdex where
  SERIALIZEDSIZE : Nat
  NULLSPACE : spaceid
  CLIENTSPACE : entityid
  REQ_GET : Nat
  RESP_GET : Nat
  REQ_PUT : Nat
  RESP_PUT : Nat
  REQ_DEL : Nat
  RESP_DEL : Nat
  REQ_UPDATE : Nat
  RESP_UPDATE : Nat
  REQ_SEARCH_START : Nat
  REQ_SEARCH_NEXT : Nat
  RESP_SEARCH_ITEM : Nat
  RESP_SEARCH_DONE : Nat
  NET_SUCCESS : Nat
  NET_NOTFOUND : Nat
  NET_WRONGARITY : Nat
  NET_NOTUS : Nat
  NET_SERVERERROR : Nat
  pack_buffer : buffer → buffer
  pack_vector : List buffer → buffer
  pack_bitfield : List Bool → buffer
  pack_search : search → buffer
  unpack_buffer : buffer → Option (buffer × buffer)
  unpack_vector : buffer → Option (List buffer × buffer)

/-- The case labels of the `switch` over `network_returncode` are pairwise
different numbers (a C++ `switch` does not compile otherwise). -/
def hyperdex.net_distinct (hx : hyperdex) : Prop :=
  [hx.NET_SUCCESS, hx.NET_NOTFOUND, hx.NET_WRONGARITY, hx.NET_NOTUS,
    hx.NET_SERVERERROR].Nodup

instance (hx : hyperdex) : Decidable hx.net_distinct := by
  unfold hyperdex.net_distinct
  infer_instance

/-- A concrete choice of the external declarations, used to evaluate the model:
16-byte entity ids, small distinct enumerator numbers, and length-prefixed
serializers. -/
def sample_hyperdex : hyperdex where
  SERIALIZEDSIZE := 16
  NULLSPACE := 0
  CLIENTSPACE := 0
  REQ_GET := 8
  RESP_GET := 9
  REQ_PUT := 10
  RESP_PUT := 11
  REQ_DEL := 12
  RESP_DEL := 13
  REQ_UPDATE := 14
  RESP_UPDATE := 15
  REQ_SEARCH_START := 32
  REQ_SEARCH_NEXT := 33
  RESP_SEARCH_ITEM := 35
  RESP_SEARCH_DONE := 36
  NET_SUCCESS := 8320
  NET_NOTFOUND := 8321
  NET_WRONGARITY := 8322
  NET_NOTUS := 8323
  NET_SERVERERROR := 8324
  pack_buffer := fun b => b.length :: b
  pack_vector := fun v => v.length :: (v.map (fun b => b.length :: b)).flatten
  pack_bitfield := fun bits => bits.length :: bits.map (fun b => if b then 1 else 0)
  pack_search := fun s => [s.length]
  unpack_buffer := fun bs =>
    match bs with
    | [] => none
    | n :: rest => if rest.length < n then none else some (rest.take n, rest.drop n)
  unpack_vector := fun bs =>
    match bs with
    | [] => none
    | n :: rest =>
      if rest.length < n then none else some ((rest.take n).map (fun b => [b]), rest.drop n)

/-! ## Frame codec -/

/-- The header fields of a frame after the size field. -/
structure header where
  type : Nat
  fromver : Nat
  tover : Nat
  from_ : entityid
  to_ : entityid
  nonce : Nat
  deriving DecidableEq, Repr

/-- The header is made of values of its C++ field types: `uint8_t` type,
`uint16_t` versions, entity ids of `SERIALIZEDSIZE` bytes, `uint64_t` nonce. -/
def header.wf (hx : hyperdex) (h : header) : Prop :=
  h.type < 2 ^ 8 ∧ h.fromver < 2 ^ 16 ∧ h.tover < 2 ^ 16 ∧
    h.from_ < 256 ^ hx.SERIALIZEDSIZE ∧ h.to_ < 256 ^ hx.SERIALIZEDSIZE ∧ h.nonce < 2 ^ 64

/-- The `uint32_t size` computed in `client::priv::send`:
`sizeof(type) + sizeof(fromver) + sizeof(tover) + SERIALIZEDSIZE * 2 +
sizeof(nonce) + send_msg.size()`. -/
def frame_size (hx : hyperdex) (send_msg : buffer) : Nat :=
  (1 + 2 + 2 + hx.SERIALIZEDSIZE * 2 + 8 + send_msg.length) % 2 ^ 32

/-- The buffer `packed` built in `client::priv::send`:
`packed.pack() << size << type << fromver << tover << from << to << nonce;
packed += send_msg`. -/
def pack_frame (hx : hyperdex) (h : header) (send_msg : buffer) : buffer :=
  pack_be 4 (frame_size hx send_msg) ++ pack_be 1 h.type ++ pack_be 2 h.fromver ++
    pack_be 2 h.tover ++ pack_be hx.SERIALIZEDSIZE h.from_ ++
    pack_be hx.SERIALIZEDSIZE h.to_ ++ pack_be 8 h.nonce ++ send_msg

/-- The header parse of `client::flush_one`:
`up >> nop >> type_num >> fromver >> tover >> from >> to >> nonce;
up.leftovers(&msg)`. The result is the size word, the header and the payload;
`none` is the `std::out_of_range` of a short buffer. -/
def unpack_frame (hx : hyperdex) (response : buffer) : Option (Nat × header × buffer) :=
  match unpack_be 4 response with
  | none => none
  | some (nop, r1) =>
  match unpack_be 1 r1 with
  | none => none
  | some (type_num, r2) =>
  match unpack_be 2 r2 with
  | none => none
  | some (fromver, r3) =>
  match unpack_be 2 r3 with
  | none => none
  | some (tover, r4) =>
  match unpack_be hx.SERIALIZEDSIZE r4 with
  | none => none
  | some (frm, r5) =>
  match unpack_be hx.SERIALIZEDSIZE r5 with
  | none => none
  | some (dst, r6) =>
  match unpack_be 8 r6 with
  | none => none
  | some (nonce, msg) =>
    some (nop, ⟨type_num, fromver, tover, frm, dst, nonce⟩, msg)

/-! ## Pending operations and the events a run produces -/

/-- The three variants of a pending operation with their variant-specific
members; a callback is represented by the number `callback` that names it. -/
inductive pending_kind
  | get (callback : Nat)
  | mutate (expected : Nat) (callback : Nat)
  | search (searchid : Nat) (callback : Nat)
  deriving DecidableEq, Repr

/-- The class `pending`. A pointer to a channel is a natural number: `0` is the
null pointer, any other number is the address of a channel object. -/
structure pending where
  chan : Nat
  ent : entityid
  inst : hinstance
  nonce : Nat
  reconfigured : Bool
  kind : pending_kind
  deriving DecidableEq, Repr

/-- The constructor `pending::pending()` followed by the variant constructor:
null channel, default entity and instance, nonce zero, not reconfigured. -/
def pending.new (kind : pending_kind) : pending :=
  ⟨0, 0, ⟨0, 0⟩, 0, false, kind⟩

/-- What a run of the client does to the outside: callback invocations and
calls of `xsend` on a channel socket (`ok` tells whether the call returned
normally or threw `po6::error`). -/
inductive event
  | get_callback (callback : Nat) (ret : returncode) (value : List buffer)
  | mutate_callback (callback : Nat) (ret : returncode)
  | search_callback (callback : Nat) (ret : returncode) (key : buffer) (value : List buffer)
  | xsend (chan : Nat) (packed : buffer) (ok : Bool)
  deriving DecidableEq, Repr

/-- The overload `result(returncode ret)` of the three variants: the callback is
invoked with `ret` and empty results. -/
def pending.result_rc (op : pending) (ret : returncode) : event :=
  match op.kind with
  | pending_kind.get callback => event.get_callback callback ret []
  | pending_kind.mutate _ callback => event.mutate_callback callback ret
  | pending_kind.search _ callback => event.search_callback callback ret [] []

/-- The table of the spec for the handlers, `the same mapping as Get`: the
client returncode that stands for a network returncode (`NET_SUCCESS → SUCCESS`,
`NET_NOTFOUND → NOTFOUND`, `NET_WRONGARITY → WRONGARITY`, `NET_NOTUS → LOGICERROR`,
`NET_SERVERERROR or unknown → SERVERERROR`). -/
def net_to_returncode (hx : hyperdex) (response : Nat) : returncode :=
  if response = hx.NET_SUCCESS then returncode.SUCCESS
  else if response = hx.NET_NOTFOUND then returncode.NOTFOUND
  else if response = hx.NET_WRONGARITY then returncode.WRONGARITY
  else if response = hx.NET_NOTUS then returncode.LOGICERROR
  else if response = hx.NET_SERVERERROR then returncode.SERVERERROR
  else returncode.SERVERERROR

/-- The handler `pending_get::result(msg_type, msg, called_back)`: the
replacement op it returns, the flag `*called_back`, and the callback invocations.
A decoder that throws `std::out_of_range` leaves the vector `value` empty. -/
def pending_get.result (hx : hyperdex) (callback : Nat) (msg_type : Nat) (msg : buffer) :
    Option pending × Bool × List event :=
  if msg_type ≠ hx.RESP_GET then
    (none, true, [event.get_callback callback returncode.SERVERERROR []])
  else
    match unpack_be 2 msg with
    | none => (none, true, [event.get_callback callback returncode.SERVERERROR []])
    | some (response, up) =>
      if response = hx.NET_SUCCESS then
        match hx.unpack_vector up with
        | none => (none, true, [event.get_callback callback returncode.SERVERERROR []])
        | some (value, _) => (none, true, [event.get_callback callback returncode.SUCCESS value])
      else if response = hx.NET_NOTFOUND then
        (none, true, [event.get_callback callback returncode.NOTFOUND []])
      else if response = hx.NET_WRONGARITY then
        (none, true, [event.get_callback callback returncode.WRONGARITY []])
      else if response = hx.NET_NOTUS then
        (none, true, [event.get_callback callback returncode.LOGICERROR []])
      else if response = hx.NET_SERVERERROR then
        (none, true, [event.get_callback callback returncode.SERVERERROR []])
      else
        (none, true, [event.get_callback callback returncode.SERVERERROR []])

/-- The handler `pending_mutate::result(msg_type, msg, called_back)`. -/
def pending_mutate.result (hx : hyperdex) (expected callback : Nat) (msg_type : Nat)
    (msg : buffer) : Option pending × Bool × List event :=
  if msg_type ≠ expected then
    (none, true, [event.mutate_callback callback returncode.SERVERERROR])
  else
    match unpack_be 2 msg with
    | none => (none, true, [event.mutate_callback callback returncode.SERVERERROR])
    | some (response, _) =>
      if response = hx.NET_SUCCESS then
        (none, true, [event.mutate_callback callback returncode.SUCCESS])
      else if response = hx.NET_NOTFOUND then
        (none, true, [event.mutate_callback callback returncode.NOTFOUND])
      else if response = hx.NET_WRONGARITY then
        (none, true, [event.mutate_callback callback returncode.WRONGARITY])
      else if response = hx.NET_NOTUS then
        (none, true, [event.mutate_callback callback returncode.LOGICERROR])
      else if response = hx.NET_SERVERERROR then
        (none, true, [event.mutate_callback callback returncode.SERVERERROR])
      else
        (none, true, [event.mutate_callback callback returncode.SERVERERROR])

/-! ## Client state -/

/-- The class `channel`: whether the socket has been closed (`soc.get() < 0`),
the nonce counter and the learned entity id. The counter field holds the number
of increments done so far plus one; the `uint64_t` the program sees is this
number modulo `2 ^ 64`, which is what every read of the counter takes. -/
structure channel where
  soc_closed : Bool
  nonce : Nat
  id : entityid
  deriving DecidableEq, Repr

/-- The part of `hyperdex::configuration` the client calls.
Modelled from the spec: `space-name→space-id lookup, space→ordered-dimension-names,
point-leader lookup for a key, search-entities lookup for a search predicate, and
entity→instance lookup`; the class is declared outside the sources. The map
returned by `search_entities` is the list of its entries in iteration order. -/
structure configuration where
  lookup_spaceid : String → spaceid
  lookup_space_dimensions : spaceid → List String
  point_leader_entity : spaceid → buffer → Option (entityid × hinstance)
  search_entities : spaceid → search → List (entityid × hinstance)
  search_entities_subspace : spaceid → Nat → search → List (entityid × hinstance)
  instancefor : entityid → hinstance

/-- The class `client::priv` (without the coordinator link, whose answers are
arguments of the operations). `channels` is the map from instance to channel
pointer: `none` when the map has no entry, `some 0` for an entry holding the null
pointer. `chans` is the store of channel objects by address and `next_chan` the
first address not yet handed out by `new channel`. `requests` is the deque of
pending ops, `none` being a null slot. -/
structure client where
  config : configuration
  channels : hinstance → Option Nat
  chans : Nat → channel
  next_chan : Nat
  requests : List (Option pending)
  searchid : Nat

/-- The constructor `client::priv::priv`: no channel, no request, `searchid(1)`;
`config` is the default-constructed configuration. -/
def client.init (config : configuration) : client where
  config := config
  channels := fun _ => none
  chans := fun _ => ⟨true, 0, 0⟩
  next_chan := 1
  requests := []
  searchid := 1

/-- The expression `channels[inst]`: the pointer stored for `inst`; an absent
entry is first inserted holding the null pointer. -/
def client.channels_index (s : client) (inst : hinstance) : client × Nat :=
  match s.channels inst with
  | some p => (s, p)
  | none => ({ s with channels := Function.update s.channels inst (some 0) }, 0)

/-- The statement `channels[inst] = chan = new channel(inst)` when the constructor
does not throw: a fresh channel object with `nonce(1)` and
`id(CLIENTSPACE)` is stored under `inst`. -/
def client.new_channel (hx : hyperdex) (s : client) (inst : hinstance) : client × Nat :=
  ({ s with
      chans := Function.update s.chans s.next_chan ⟨false, 1, hx.CLIENTSPACE⟩
      next_chan := s.next_chan + 1
      channels := Function.update s.channels inst (some s.next_chan) },
    s.next_chan)

/-- The statements `nonce = chan->nonce; ++chan->nonce;`: the value read and the
state with the counter incremented. -/
def client.take_nonce (s : client) (chan : Nat) : client × Nat :=
  ({ s with chans :=
        Function.update s.chans chan ({ (s.chans chan) with nonce := (s.chans chan).nonce + 1 }) },
    (s.chans chan).nonce % 2 ^ 64)

/-- The call `chan->soc.close()`. -/
def client.close (s : client) (chan : Nat) : client :=
  { s with chans := Function.update s.chans chan ({ (s.chans chan) with soc_closed := true }) }

/-- The call `channels.erase(inst)`. -/
def client.erase (s : client) (inst : hinstance) : client :=
  { s with channels := Function.update s.channels inst none }

/-- The method `client::priv::send`: the frame is built and handed to `xsend`; when
`xsend` throws (`ok = false`) the channel is erased from the table, the op is told
`DISCONNECT` and the result is `false`. -/
def client.send (hx : hyperdex) (s : client) (chan : Nat) (op : pending) (ent : entityid)
    (inst : hinstance) (nonce : Nat) (send_type : Nat) (send_msg : buffer) (ok : Bool) :
    client × List event × Bool :=
  let packed := pack_frame hx ⟨send_type, 0, inst.inbound_version, (s.chans chan).id, ent, nonce⟩
    send_msg
  if ok then (s, [event.xsend chan packed true], true)
  else (s.erase inst, [event.xsend chan packed false, op.result_rc returncode.DISCONNECT], false)

/-- The method `client::priv::add_reqrep`. `connect_ok` tells whether
`new channel` succeeds when it is attempted, `send_ok` whether `xsend` does. -/
def client.add_reqrep (hx : hyperdex) (s : client) (space : String) (key : buffer)
    (send_type : Nat) (send_msg : buffer) (op : pending) (connect_ok send_ok : Bool) :
    client × List event :=
  let si := s.config.lookup_spaceid space
  if si = hx.NULLSPACE then (s, [op.result_rc returncode.NOTASPACE])
  else
    match s.config.point_leader_entity si key with
    | none => (s, [op.result_rc returncode.CONNECTFAIL])
    | some (dst_ent, dst_inst) =>
      let (s1, chan0) := s.channels_index dst_inst
      if chan0 = 0 ∧ connect_ok = false then (s1, [op.result_rc returncode.CONNECTFAIL])
      else
        let (s2, chan) := if chan0 = 0 then s1.new_channel hx dst_inst else (s1, chan0)
        let (s3, nonce) := s2.take_nonce chan
        let op1 : pending := { op with chan := chan, ent := dst_ent, inst := dst_inst, nonce := nonce }
        let s4 : client := { s3 with requests := s3.requests ++ [some op1] }
        let (s5, evs, sent) := s4.send hx chan op1 dst_ent dst_inst nonce send_type send_msg send_ok
        if sent then (s5, evs) else ({ s5 with requests := s5.requests.dropLast }, evs)

/-- The asynchronous `client::get`. -/
def client.get (hx : hyperdex) (s : client) (space : String) (key : buffer) (callback : Nat)
    (connect_ok send_ok : Bool) : client × List event :=
  s.add_reqrep hx space key hx.REQ_GET key (pending.new (pending_kind.get callback))
    connect_ok send_ok

/-- The asynchronous `client::put`; the message is `key` followed by `value`. -/
def client.put (hx : hyperdex) (s : client) (space : String) (key : buffer)
    (value : List buffer) (callback : Nat) (connect_ok send_ok : Bool) : client × List event :=
  s.add_reqrep hx space key hx.REQ_PUT (hx.pack_buffer key ++ hx.pack_vector value)
    (pending.new (pending_kind.mutate hx.RESP_PUT callback)) connect_ok send_ok

/-- The asynchronous `client::del`. -/
def client.del (hx : hyperdex) (s : client) (space : String) (key : buffer) (callback : Nat)
    (connect_ok send_ok : Bool) : client × List event :=
  s.add_reqrep hx space key hx.REQ_DEL key
    (pending.new (pending_kind.mutate hx.RESP_DEL callback)) connect_ok send_ok

/-! ## Update and search dispatch -/

/-- The locals of `client::update`: the bitfield `bits`, the vector `realvalue`
and the set `seen`. -/
structure update_vars where
  bits : List Bool
  realvalue : List buffer
  seen : List String
  deriving DecidableEq, Repr

/-- The first loop of `client::update`, `for (size_t i = 1; i <
dimension_names.size(); ++i)`: `value.find(dimension_names[i])` decides whether
bit `i - 1` is unset, or set with `realvalue[i - 1]` assigned and the name
inserted into `seen`. A `std::map` is the list of its entries; `fuel` bounds the
number of iterations. -/
def update_loop (dimension_names : List String) (value : List (String × buffer)) :
    Nat → Nat → update_vars → update_vars
  | 0, _, v => v
  | fuel + 1, i, v =>
    if i < dimension_names.length then
      match value.lookup (dimension_names.getD i "") with
      | none =>
        update_loop dimension_names value fuel (i + 1) { v with bits := v.bits.set (i - 1) false }
      | some x =>
        update_loop dimension_names value fuel (i + 1)
          { bits := v.bits.set (i - 1) true
            realvalue := v.realvalue.set (i - 1) x
            seen := dimension_names.getD i "" :: v.seen }
    else v

/-- The locals of `client::update` after the first loop, from
`bits(dimension_names.size() - 1)`, `realvalue(dimension_names.size() - 1)` and an
empty `seen`. -/
def update_encode (dimension_names : List String) (value : List (String × buffer)) :
    update_vars :=
  update_loop dimension_names value dimension_names.length 1
    ⟨List.replicate (dimension_names.length - 1) false,
     List.replicate (dimension_names.length - 1) [], []⟩

/-- The second loop of `client::update`: whether some entry of `value` has a name
that is not in `seen`. -/
def update_unseen (seen : List String) : List (String × buffer) → Bool
  | [] => false
  | (name, _) :: rest => if name ∈ seen then update_unseen seen rest else true

/-- The message of `client::update`, `msg.pack() << key << bits << realvalue`. -/
def update_msg (hx : hyperdex) (key : buffer) (v : update_vars) : buffer :=
  hx.pack_buffer key ++ hx.pack_bitfield v.bits ++ hx.pack_vector v.realvalue

/-- The asynchronous `client::update`. The result `none` is the failed
`assert(dimension_names.size() > 0)`. -/
def client.update (hx : hyperdex) (s : client) (space : String) (key : buffer)
    (value : List (String × buffer)) (callback : Nat) (connect_ok send_ok : Bool) :
    Option (client × List event) :=
  let si := s.config.lookup_spaceid space
  if si = hx.NULLSPACE then some (s, [event.mutate_callback callback returncode.NOTASPACE])
  else
    let dimension_names := s.config.lookup_space_dimensions si
    if dimension_names.length = 0 then none
    else
      let v := update_encode dimension_names value
      if update_unseen v.seen value then
        some (s, [event.mutate_callback callback returncode.BADDIMENSION])
      else
        some (s.add_reqrep hx space key hx.REQ_UPDATE (update_msg hx key v)
          (pending.new (pending_kind.mutate hx.RESP_UPDATE callback)) connect_ok send_ok)

/-- The loop of `client::search` over the `equality` map: `std::find` of the name
among the dimension names; a name found at `begin()` or not found makes the call
fail (`none`); otherwise the name joins `specified_dimensions` and the equality
is recorded at the index found. -/
def search_equality (dimension_names : List String) :
    List (String × buffer) → List String → search → Option (List String × search)
  | [], specified_dimensions, s => some (specified_dimensions, s)
  | (name, v) :: rest, specified_dimensions, s =>
    let dim := dimension_names.indexOf name
    if dim = 0 ∨ dim = dimension_names.length then none
    else
      search_equality dimension_names rest (name :: specified_dimensions) (s.equality_set dim v)

/-- The loop of `client::search` over the `range` map: a name already in
`specified_dimensions` or not found among the dimension names makes the call fail
(`none`); otherwise the range is recorded at the index found. -/
def search_range (dimension_names : List String) (specified_dimensions : List String) :
    List (String × Nat × Nat) → search → Option search
  | [], s => some s
  | (name, low, high) :: rest, s =>
    if name ∈ specified_dimensions then none
    else
      let dim := dimension_names.indexOf name
      if dim = dimension_names.length then none
      else search_range dimension_names specified_dimensions rest (s.range_set dim low high)

/-- The last loop of `client::search`, over the entries of `search_entities`: a
new `pending_search` is pushed, the channel is looked up or created, a nonce is
taken and `REQ_SEARCH_START` is sent; the op is popped again when the channel
cannot be created or the send fails. `k` counts the entries; `connect_ok k` and
`send_ok k` tell whether `new channel` and `xsend` succeed for entry `k`. -/
def client.search_loop (hx : hyperdex) (searchid callback : Nat) (req : buffer)
    (connect_ok send_ok : Nat → Bool) :
    List (entityid × hinstance) → Nat → client → client × List event
  | [], _, s => (s, [])
  | (ent, inst) :: rest, k, s =>
    let op := pending.new (pending_kind.search searchid callback)
    let (s1, chan0) := s.channels_index inst
    let s2 : client := { s1 with requests := s1.requests ++ [some op] }
    if chan0 = 0 ∧ connect_ok k = false then
      let s3 : client := { s2 with requests := s2.requests.dropLast }
      let (s', evs) := client.search_loop hx searchid callback req connect_ok send_ok rest (k + 1) s3
      (s', op.result_rc returncode.CONNECTFAIL :: evs)
    else
      let (s3, chan) := if chan0 = 0 then s2.new_channel hx inst else (s2, chan0)
      let (s4, nonce) := s3.take_nonce chan
      let op1 : pending := { op with chan := chan, ent := ent, inst := inst, nonce := nonce }
      let s5 : client := { s4 with requests := s4.requests.dropLast ++ [some op1] }
      let (s6, evs, sent) :=
        s5.send hx chan op1 ent inst nonce hx.REQ_SEARCH_START req (send_ok k)
      let s7 : client := if sent then s6 else { s6 with requests := s6.requests.dropLast }
      let (s', evs') := client.search_loop hx searchid callback req connect_ok send_ok rest (k + 1) s7
      (s', evs ++ evs')

/-- The asynchronous `client::search` with a subspace hint (`UINT16_MAX` when the
caller gives none). The result `none` is the failed
`assert(dimension_names.size() > 0)`. -/
def client.search (hx : hyperdex) (s : client) (space : String)
    (equality : List (String × buffer)) (range : List (String × Nat × Nat)) (callback : Nat)
    (subspace_hint : Nat) (connect_ok send_ok : Nat → Bool) : Option (client × List event) :=
  let si := s.config.lookup_spaceid space
  if si = hx.NULLSPACE then
    some (s, [event.search_callback callback returncode.NOTASPACE [] []])
  else
    let dimension_names := s.config.lookup_space_dimensions si
    if dimension_names.length = 0 then none
    else
      match search_equality dimension_names equality [] (search.mk dimension_names.length) with
      | none => some (s, [event.search_callback callback returncode.BADSEARCH [] []])
      | some (specified_dimensions, s0) =>
        match search_range dimension_names specified_dimensions range s0 with
        | none => some (s, [event.search_callback callback returncode.BADSEARCH [] []])
        | some srch =>
          let search_entities :=
            if subspace_hint = 65535 then s.config.search_entities si srch
            else s.config.search_entities_subspace si subspace_hint srch
          let searchid := s.searchid
          let s1 : client := { s with searchid := (s.searchid + 1) % 2 ^ 64 }
          let req := pack_be 8 searchid ++ hx.pack_search srch
          some (client.search_loop hx searchid callback req connect_ok send_ok search_entities 0 s1)

/-- The loop of `client::outstanding`: null slots are erased, the others counted. -/
def outstanding_loop : List (Option pending) → List (Option pending) × Nat
  | [] => ([], 0)
  | none :: rest => outstanding_loop rest
  | some op :: rest => (some op :: (outstanding_loop rest).1, (outstanding_loop rest).2 + 1)

/-- The method `client::outstanding`. -/
def client.outstanding (s : client) : client × Nat :=
  ({ s with requests := (outstanding_loop s.requests).1 }, (outstanding_loop s.requests).2)

/-! ## Response handlers that touch the client, and the event pump -/

/-- The handler `pending_search::result(msg_type, msg, called_back)`: the client
after the call, the replacement op it returns (`some` is `this`), the flag
`*called_back` and the events. `send_ok` tells whether the `xsend` of the
continuation succeeds. A decoder that throws leaves its target unchanged. -/
def pending_search.result (hx : hyperdex) (s : client) (op : pending)
    (searchid callback : Nat) (msg_type : Nat) (msg : buffer) (send_ok : Bool) :
    client × Option pending × Bool × List event :=
  if msg_type = hx.RESP_SEARCH_ITEM then
    match hx.unpack_buffer msg with
    | none => (s, none, true, [event.search_callback callback returncode.SERVERERROR [] []])
    | some (key, up) =>
      match hx.unpack_vector up with
      | none => (s, none, true, [event.search_callback callback returncode.SERVERERROR key []])
      | some (value, _) =>
        let (s1, nonce) := s.take_nonce op.chan
        let op1 : pending := { op with nonce := nonce }
        let req := pack_be 8 searchid
        let (s2, evs, sent) :=
          s1.send hx op.chan op1 op.ent op.inst nonce hx.REQ_SEARCH_NEXT req send_ok
        if sent then
          (s2, some op1, true, evs ++ [event.search_callback callback returncode.SUCCESS key value])
        else (s2, none, true, evs)
  else if msg_type = hx.RESP_SEARCH_DONE then (s, none, false, [])
  else (s, none, true, [event.search_callback callback returncode.SERVERERROR [] []])

/-- The virtual call `op->result(msg_type, msg, &called_back)`. -/
def pending.result (hx : hyperdex) (s : client) (op : pending) (msg_type : Nat) (msg : buffer)
    (send_ok : Bool) : client × Option pending × Bool × List event :=
  match op.kind with
  | pending_kind.get callback =>
    (s, (pending_get.result hx callback msg_type msg).1,
      (pending_get.result hx callback msg_type msg).2.1,
      (pending_get.result hx callback msg_type msg).2.2)
  | pending_kind.mutate expected callback =>
    (s, (pending_mutate.result hx expected callback msg_type msg).1,
      (pending_mutate.result hx expected callback msg_type msg).2.1,
      (pending_mutate.result hx expected callback msg_type msg).2.2)
  | pending_kind.search searchid callback =>
    pending_search.result hx s op searchid callback msg_type msg send_ok

/-- Return codes of the coordinator link (`hyperdex::coordinatorlink`). -/
inductive coordinatorlink.returncode
  | SUCCESS | CONNECTFAIL | DISCONNECT | SHUTDOWN | LOGICERROR
  deriving DecidableEq, Repr

/-- The bits of `pollfd::revents` the client tests. -/
structure pollfd where
  POLLIN : Bool
  POLLHUP : Bool
  POLLERR : Bool
  deriving DecidableEq, Repr

/-- What reading a channel socket gives: `would_block` when the peeking `recv`
does not return 4 bytes, `error` when `xread` throws `po6::error`, and `data bs`
when the socket delivers the bytes `bs` and then nothing more. -/
inductive recv_result
  | would_block
  | error
  | data (bytes : buffer)
  deriving DecidableEq, Repr

/-- The answers of the outside world during one iteration of the loop of
`client::flush_one`: `coord.connected()` and `coord.connect()` at attempt `i`, the
results of the two `poll` calls, the `revents` of request `i` and whether the
coordinator descriptor has events, the result of `coord.loop`, the configuration
announced when `coord.unacknowledged()` holds, what the socket of request `i`
delivers, and whether the `xsend` of a search continuation succeeds. -/
structure flush_env where
  coord_connected : Nat → Bool
  coord_connect : Nat → coordinatorlink.returncode
  polled : Int
  polled_again : Int
  revents : Nat → pollfd
  coord_revents : Bool
  coord_loop : coordinatorlink.returncode
  unacknowledged : Option configuration
  recv : Nat → recv_result
  send_ok : Bool

/-- The reconnect loop of `client::flush_one`,
`for (int i = 0; i < 7 && !p->coord.connected(); ++i)`: `some ret` when the
seventh attempt fails and `flush_one` returns `ret`. -/
def coord_reconnect (env : flush_env) : Nat → Nat → Option returncode
  | 0, _ => none
  | fuel + 1, i =>
    if env.coord_connected i then none
    else
      match env.coord_connect i with
      | coordinatorlink.returncode.SUCCESS => coord_reconnect env fuel (i + 1)
      | coordinatorlink.returncode.CONNECTFAIL | coordinatorlink.returncode.DISCONNECT =>
        if i = 6 then some returncode.COORDFAIL else coord_reconnect env fuel (i + 1)
      | coordinatorlink.returncode.SHUTDOWN | coordinatorlink.returncode.LOGICERROR =>
        if i = 6 then some returncode.LOGICERROR else coord_reconnect env fuel (i + 1)

/-- The loops `if (!requests.front()) { requests.pop_front(); continue; }` and
`while (!requests.empty() && !requests.front()) requests.pop_front()`. -/
def pop_null_front : List (Option pending) → List (Option pending)
  | none :: rest => pop_null_front rest
  | reqs => reqs

/-- The branch `polled == 0` of `client::flush_one`: null slots are popped from
the front, the first op is told `TIMEOUT` and popped. -/
def timeout_front : List (Option pending) → List (Option pending) × List event
  | [] => ([], [])
  | none :: rest => timeout_front rest
  | some op :: rest => (rest, [op.result_rc returncode.TIMEOUT])

/-- The loop after a new configuration is installed: every op whose entity is
now served by another instance is marked `reconfigured`. -/
def mark_reconfigured (config : configuration) (reqs : List (Option pending)) :
    List (Option pending) :=
  reqs.map (fun r => r.map (fun op =>
    if config.instancefor op.ent ≠ op.inst then { op with reconfigured := true } else op))

/-- The assignment `p->requests[i] = v`. -/
def client.set_request (s : client) (i : Nat) (v : Option pending) : client :=
  { s with requests := s.requests.set i v }

/-- The test of the matching scan of `client::flush_one` for a live op `*req`:
`chan == (*req)->chan && fromver == (*req)->inst.inbound_version && tover == 0 &&
from == (*req)->ent && to == chan->id && nonce == (*req)->nonce`. -/
def client.matches (s : client) (chan : Nat) (h : header) (op : pending) : Prop :=
  chan = op.chan ∧ h.fromver = op.inst.inbound_version ∧ h.tover = 0 ∧
    h.from_ = op.ent ∧ h.to_ = (s.chans chan).id ∧ h.nonce = op.nonce

instance (s : client) (chan : Nat) (h : header) (op : pending) :
    Decidable (s.matches chan h op) := by
  unfold client.matches
  infer_instance

/-- The matching scan of `client::flush_one` over the whole deque, from slot `j`:
an op that is live, on channel `chan`, and agrees with the header on version,
entity, channel id and nonce gets the message; its slot receives what the handler
returns; the scan stops when the handler reports that it called back. The result
is the client, the events, whether a handler called back, and the slots whose
handler was invoked. -/
def client.deliver (hx : hyperdex) (chan : Nat) (h : header) (msg : buffer) (send_ok : Bool) :
    Nat → Nat → client → client × List event × Bool × List Nat
  | 0, _, s => (s, [], false, [])
  | fuel + 1, j, s =>
    match s.requests.get? j with
    | none => (s, [], false, [])
    | some none => client.deliver hx chan h msg send_ok fuel (j + 1) s
    | some (some op) =>
      if s.matches chan h op then
        let r := pending.result hx s op h.type msg send_ok
        let s1 := r.1.set_request j r.2.1
        if r.2.2.1 then (s1, r.2.2.2, true, [j])
        else
          let t := client.deliver hx chan h msg send_ok fuel (j + 1) s1
          (t.1, r.2.2.2 ++ t.2.1, t.2.2.1, j :: t.2.2.2)
      else client.deliver hx chan h msg send_ok fuel (j + 1) s

/-- The statements of `client::flush_one` that fail request `i` with `DISCONNECT`:
optionally `soc.close()` and `channels.erase(inst)`, then `result(DISCONNECT)` and
`requests[i] = NULL`. -/
def client.disconnect (s : client) (i : Nat) (op : pending) (close_and_erase : Bool) :
    client × List event :=
  let s1 := if close_and_erase then (s.close op.chan).erase op.inst else s
  (s1.set_request i none, [op.result_rc returncode.DISCONNECT])

/-- The statement `if (chan->id == entityid(CLIENTSPACE)) chan->id = to;`. -/
def client.learn_id (hx : hyperdex) (s : client) (chan : Nat) (to_ : entityid) : client :=
  if (s.chans chan).id = hx.CLIENTSPACE then
    { s with chans := Function.update s.chans chan ({ (s.chans chan) with id := to_ }) }
  else s

/-- The loop `for (size_t i = 0; i < num_pfds; ++i)` of `client::flush_one`, from
index `i` with `fuel` iterations left. The last component is `some ret` when the
loop executes `return ret` and `none` when it runs to its end. -/
def client.flush_scan (hx : hyperdex) (env : flush_env) :
    Nat → Nat → client → client × List event × Option returncode
  | 0, _, s => (s, [], none)
  | fuel + 1, i, s =>
    match s.requests.getD i none with
    | none => client.flush_scan hx env fuel (i + 1) s
    | some op =>
      if (env.revents i).POLLHUP ∨ (env.revents i).POLLERR then
        ((s.disconnect i op true).1, (s.disconnect i op true).2, some returncode.SUCCESS)
      else if op.reconfigured then
        (s.set_request i none, [op.result_rc returncode.RECONFIGURE], some returncode.SUCCESS)
      else if (env.revents i).POLLIN = false then client.flush_scan hx env fuel (i + 1) s
      else if (s.chans op.chan).soc_closed then
        ((s.disconnect i op false).1, (s.disconnect i op false).2, some returncode.SUCCESS)
      else
        match env.recv i with
        | recv_result.would_block => client.flush_scan hx env fuel (i + 1) s
        | recv_result.error =>
          ((s.disconnect i op true).1, (s.disconnect i op true).2, some returncode.SUCCESS)
        | recv_result.data bytes =>
          if bytes.length < 4 then client.flush_scan hx env fuel (i + 1) s
          else
            let size := (be_value (bytes.take 4) + 4) % 2 ^ 32
            if bytes.length < size then
              ((s.disconnect i op true).1, (s.disconnect i op true).2, some returncode.SUCCESS)
            else
              match unpack_frame hx (bytes.take size) with
              | none =>
                ((s.disconnect i op true).1, (s.disconnect i op true).2,
                  some returncode.SUCCESS)
              | some (_, h, msg) =>
                let s1 := s.learn_id hx op.chan h.to_
                let d := client.deliver hx op.chan h msg env.send_ok s1.requests.length 0 s1
                if d.2.2.1 then (d.1, d.2.1, some returncode.SUCCESS)
                else
                  let t := client.flush_scan hx env fuel (i + 1) d.1
                  (t.1, d.2.1 ++ t.2.1, t.2.2)

/-- The `switch (p->coord.loop(1, 0))` of `client::flush_one`: `some ret` when it
returns `ret`. -/
def coord_loop_return : coordinatorlink.returncode → Option returncode
  | coordinatorlink.returncode.SUCCESS => none
  | coordinatorlink.returncode.CONNECTFAIL => some returncode.COORDFAIL
  | coordinatorlink.returncode.DISCONNECT => some returncode.COORDFAIL
  | coordinatorlink.returncode.SHUTDOWN => some returncode.LOGICERROR
  | coordinatorlink.returncode.LOGICERROR => some returncode.LOGICERROR

/-- One iteration of the outer `while` loop of `client::flush_one`, entered with a
live op at the front of the deque. The last component is `some ret` when the
iteration returns `ret` and `none` when the loop goes round again. -/
def client.flush_iteration (hx : hyperdex) (s : client) (timeout : Int) (env : flush_env) :
    client × List event × Option returncode :=
  match coord_reconnect env 7 0 with
  | some ret => (s, [], some ret)
  | none =>
    let num_pfds := s.requests.length
    if env.polled < 0 then (s, [], some returncode.LOGICERROR)
    else if env.polled = 0 then
      ({ s with requests := (timeout_front s.requests).1 }, (timeout_front s.requests).2,
        some returncode.TIMEOUT)
    else if env.polled_again < 0 then (s, [], some returncode.LOGICERROR)
    else
      match (if env.coord_revents then coord_loop_return env.coord_loop else none) with
      | some ret => (s, [], some ret)
      | none =>
        match env.unacknowledged with
        | some config =>
          ({ s with config := config, requests := mark_reconfigured config s.requests }, [], none)
        | none => client.flush_scan hx env num_pfds 0 s

/-- The method `client::flush_one`. Each iteration of its loop that reaches the
reconnect step consumes one element of `envs`; the result is `none` when `envs`
is used up before the method returns. -/
def client.flush_one (hx : hyperdex) (s : client) (timeout : Int) :
    List flush_env → Option (client × List event × returncode)
  | [] =>
    if (pop_null_front s.requests).isEmpty then
      some ({ s with requests := pop_null_front s.requests }, [], returncode.SUCCESS)
    else none
  | env :: envs =>
    if (pop_null_front s.requests).isEmpty then
      some ({ s with requests := pop_null_front s.requests }, [], returncode.SUCCESS)
    else
      let r := client.flush_iteration hx { s with requests := pop_null_front s.requests }
        timeout env
      match r.2.2 with
      | some ret => some (r.1, r.2.1, ret)
      | none =>
        match client.flush_one hx r.1 timeout envs with
        | none => none
        | some (s2, evs, ret) => some (s2, r.2.1 ++ evs, ret)

/-- The loop of `client::flush` that fails every op still in the deque with
`TIMEOUT`. -/
def timeout_all : List (Option pending) → List event
  | [] => []
  | none :: rest => timeout_all rest
  | some op :: rest => op.result_rc returncode.TIMEOUT :: timeout_all rest

/-- The loop of `client::flush`. Each iteration consumes one element of the
script: the answers for its call of `flush_one` and the value of
`stopw.peek_ms()` read after it. The result is `none` when the script is used up
before the method returns. -/
def client.flush_loop (hx : hyperdex) (original_timeout : Int) :
    List (List flush_env × Int) → Int → client → Option (client × List event × returncode)
  | [], _, s => if s.requests.isEmpty then some (s, [], returncode.SUCCESS) else none
  | (envs, peek_ms) :: script, timeout, s =>
    if s.requests.isEmpty then some (s, [], returncode.SUCCESS)
    else
      match s.flush_one hx timeout envs with
      | none => none
      | some (s1, evs, ret) =>
        if ret ≠ returncode.SUCCESS ∧ ret ≠ returncode.TIMEOUT then some (s1, evs, ret)
        else
          let timeout1 := if timeout ≥ 0 then original_timeout - peek_ms else timeout
          let ret1 := if timeout ≥ 0 ∧ timeout1 < 0 then returncode.TIMEOUT else ret
          if ret1 = returncode.TIMEOUT then
            some ({ s1 with requests := [] }, evs ++ timeout_all s1.requests, returncode.TIMEOUT)
          else
            match client.flush_loop hx original_timeout script timeout1 s1 with
            | none => none
            | some (s2, evs2, ret2) => some (s2, evs ++ evs2, ret2)

/-- The method `client::flush`. -/
def client.flush (hx : hyperdex) (s : client) (timeout : Int)
    (script : List (List flush_env × Int)) : Option (client × List event × returncode) :=
  client.flush_loop hx timeout script timeout s

/-- The answers of the coordinator link during `client::connect`: the result of
`coord.connect()` and, for each turn of the loop, the result of `coord.loop` and
the configuration announced when `coord.unacknowledged()` holds. -/
structure connect_env where
  connect : coordinatorlink.returncode
  loops : List (coordinatorlink.returncode × Option configuration)

/-- The loop of `client::connect`; `none` when the answers are used up. -/
def client.connect_loop (s : client) :
    List (coordinatorlink.returncode × Option configuration) → Option (client × returncode)
  | [] => none
  | (coordinatorlink.returncode.SUCCESS, some config) :: _ =>
    some ({ s with config := config }, returncode.SUCCESS)
  | (coordinatorlink.returncode.SUCCESS, none) :: rest => client.connect_loop s rest
  | (coordinatorlink.returncode.CONNECTFAIL, _) :: _ => some (s, returncode.COORDFAIL)
  | (coordinatorlink.returncode.DISCONNECT, _) :: _ => some (s, returncode.COORDFAIL)
  | (coordinatorlink.returncode.SHUTDOWN, _) :: _ => some (s, returncode.LOGICERROR)
  | (coordinatorlink.returncode.LOGICERROR, _) :: _ => some (s, returncode.LOGICERROR)

/-- The method `client::connect`. -/
def client.connect (s : client) (env : connect_env) : Option (client × returncode) :=
  match env.connect with
  | coordinatorlink.returncode.SUCCESS => client.connect_loop s env.loops
  | coordinatorlink.returncode.CONNECTFAIL => some (s, returncode.COORDFAIL)
  | _ => some (s, returncode.LOGICERROR)

/-- The client states that the public operations can produce from a freshly
constructed client. -/
inductive Reachable (hx : hyperdex) : client → Prop
  | init (config : configuration) : Reachable hx (client.init config)
  | connect {s s1 : client} {ret : returncode} (env : connect_env) :
      Reachable hx s → s.connect env = some (s1, ret) → Reachable hx s1
  | get {s : client} (space : String) (key : buffer) (callback : Nat)
      (connect_ok send_ok : Bool) :
      Reachable hx s → Reachable hx (s.get hx space key callback connect_ok send_ok).1
  | put {s : client} (space : String) (key : buffer) (value : List buffer) (callback : Nat)
      (connect_ok send_ok : Bool) :
      Reachable hx s → Reachable hx (s.put hx space key value callback connect_ok send_ok).1
  | del {s : client} (space : String) (key : buffer) (callback : Nat)
      (connect_ok send_ok : Bool) :
      Reachable hx s → Reachable hx (s.del hx space key callback connect_ok send_ok).1
  | update {s s1 : client} {evs : List event} (space : String) (key : buffer)
      (value : List (String × buffer)) (callback : Nat) (connect_ok send_ok : Bool) :
      Reachable hx s →
      s.update hx space key value callback connect_ok send_ok = some (s1, evs) →
      Reachable hx s1
  | search {s s1 : client} {evs : List event} (space : String)
      (equality : List (String × buffer)) (range : List (String × Nat × Nat)) (callback : Nat)
      (subspace_hint : Nat) (connect_ok send_ok : Nat → Bool) :
      Reachable hx s →
      s.search hx space equality range callback subspace_hint connect_ok send_ok =
        some (s1, evs) →
      Reachable hx s1
  | outstanding {s : client} : Reachable hx s → Reachable hx s.outstanding.1
  | flush_one {s s1 : client} {evs : List event} {ret : returncode} (timeout : Int)
      (envs : List flush_env) :
      Reachable hx s → s.flush_one hx timeout envs = some (s1, evs, ret) → Reachable hx s1
  | flush {s s1 : client} {evs : List event} {ret : returncode} (timeout : Int)
      (script : List (List flush_env × Int)) :
      Reachable hx s → s.flush hx timeout script = some (s1, evs, ret) → Reachable hx s1

/-! ## Predicates on client states and sample data -/

/-- The live ops of the deque: the contents of its non-null slots, in order. -/
def client.live (s : client) : List pending := s.requests.reduceOption

/-- No counter of an existing channel has wrapped: the number of nonces handed
out on it so far still fits the `uint64_t` counter. -/
def client.no_wrap (s : client) : Prop :=
  ∀ c, 1 ≤ c → c < s.next_chan → (s.chans c).nonce < 2 ^ 64

/-- The nonce invariant: the nonce of every live op is below the counter of its
channel, and two live ops in different slots that share a channel have different
nonces. -/
def client.nonce_inv (s : client) : Prop :=
  (∀ op ∈ s.live, op.nonce < (s.chans op.chan).nonce) ∧
    s.live.Pairwise (fun a b => a.chan = b.chan → a.nonce ≠ b.nonce)

/-- Channel pointers are sound: the pointer of every live op and every pointer in
the channel table is below the next address to hand out, and live ops do not
hold the null pointer. -/
def client.chan_inv (s : client) : Prop :=
  1 ≤ s.next_chan ∧ (∀ op ∈ s.live, 1 ≤ op.chan ∧ op.chan < s.next_chan) ∧
    ∀ inst p, s.channels inst = some p → p < s.next_chan

/-- The invariant carried along every run: channel pointers are sound, and the
nonce invariant holds as long as no counter has wrapped. -/
def client.inv (s : client) : Prop := s.chan_inv ∧ (s.no_wrap → s.nonce_inv)

/-- The states in which the request loop of `client::flush_one` stands while the
method runs from a reachable state: after the null slots are popped from the
front, after a new configuration is installed, and after any number of turns of
the loop over the requests. A frame is read and matched in such a state. -/
inductive Pumping (hx : hyperdex) : client → Prop
  | enter {s : client} :
      Reachable hx s → Pumping hx { s with requests := pop_null_front s.requests }
  | again {s : client} :
      Pumping hx s → Pumping hx { s with requests := pop_null_front s.requests }
  | reconfigured {s : client} (config : configuration) :
      Pumping hx s →
      Pumping hx { s with config := config, requests := mark_reconfigured config s.requests }
  | scanned {s : client} (env : flush_env) (fuel i : Nat) :
      Pumping hx s → Pumping hx (client.flush_scan hx env fuel i s).1

/-- A space `users` with dimensions `id`, `name`, `email`, served by entity 5 on
an instance of version 3; a search reaches entities 5 and 6. -/
def sample_config : configuration where
  lookup_spaceid := fun name => if name = "users" then 1 else 0
  lookup_space_dimensions := fun si => if si = 1 then ["id", "name", "email"] else []
  point_leader_entity := fun si _ => if si = 1 then some (5, ⟨100, 3⟩) else none
  search_entities := fun _ _ => [(5, ⟨100, 3⟩), (6, ⟨101, 3⟩)]
  search_entities_subspace := fun _ _ _ => [(5, ⟨100, 3⟩)]
  instancefor := fun ent => if ent = 5 then ⟨100, 3⟩ else ⟨101, 3⟩

/-- A client with two `get` requests in flight on the same channel. -/
def sample_client : client :=
  (((client.init sample_config).get sample_hyperdex "users" [42] 7 true true).1.get
    sample_hyperdex "users" [43] 8 true true).1

/-- The client `sample_client` as `flush_one` sees it when it starts to poll. -/
def sample_pump : client :=
  { sample_client with requests := pop_null_front sample_client.requests }

/-! ## Further notions used in the statements -/

/-- The channel that `add_reqrep` and `search` use for `inst` when `new channel`,
if it is attempted, succeeds: the pointer `channels[inst]`, or a freshly
constructed channel when that pointer is null. -/
def client.obtain (hx : hyperdex) (s : client) (inst : hinstance) : client × Nat :=
  if (s.channels_index inst).2 = 0 then (s.channels_index inst).1.new_channel hx inst
  else s.channels_index inst

/-- The calls of `flush_one` made by one run of the loop of `client::flush`:
`flush_calls hx s evs s1` says that consecutive calls lead from `s` to `s1` and
produce the events `evs`, every call but the last returning `SUCCESS` and the last
one `SUCCESS` or `TIMEOUT`. -/
inductive flush_calls (hx : hyperdex) : client → List event → client → Prop
  | last {s s1 : client} {evs : List event} {ret : returncode} (timeout : Int)
      (envs : List flush_env) :
      s.flush_one hx timeout envs = some (s1, evs, ret) →
      (ret = returncode.SUCCESS ∨ ret = returncode.TIMEOUT) → flush_calls hx s evs s1
  | next {s s1 s2 : client} {evs1 evs2 : List event} (timeout : Int) (envs : List flush_env) :
      s.flush_one hx timeout envs = some (s1, evs1, returncode.SUCCESS) →
      flush_calls hx s1 evs2 s2 → flush_calls hx s (evs1 ++ evs2) s2

/-- Answers of the outside world for one turn of `flush_one` in which the
coordinator is connected and `poll` reports no ready descriptor. -/
def sample_env_timeout : flush_env where
  coord_connected := fun _ => true
  coord_connect := fun _ => coordinatorlink.returncode.SUCCESS
  polled := 0
  polled_again := 0
  revents := fun _ => ⟨false, false, false⟩
  coord_revents := false
  coord_loop := coordinatorlink.returncode.SUCCESS
  unacknowledged := none
  recv := fun _ => recv_result.would_block
  send_ok := true

/-- A client with one search op in flight: a search restricted to a subspace, which
reaches entity 5 only. -/
def sample_search : client :=
  match (client.init sample_config).search sample_hyperdex "users" [] [] 8 0
      (fun _ => true) (fun _ => true) with
  | some r => r.1
  | none => client.init sample_config

/-- A `RESP_SEARCH_ITEM` frame (type 35) that answers the search op of
`sample_search`: nonce 1, from entity 5, with the key `[42]` and the value
`[[10], [11]]`. -/
def sample_item_frame : buffer :=
  pack_frame sample_hyperdex ⟨35, 3, 0, 5, 99, 1⟩ [1, 42, 2, 10, 11]

/-- Answers of the outside world for one turn of `flush_one` in which the socket of
request 0 delivers `sample_item_frame` and the `xsend` of the continuation is as
`send_ok` says. -/
def sample_env_item (send_ok : Bool) : flush_env where
  coord_connected := fun _ => true
  coord_connect := fun _ => coordinatorlink.returncode.SUCCESS
  polled := 1
  polled_again := 1
  revents := fun i => ⟨i = 0, false, false⟩
  coord_revents := false
  coord_loop := coordinatorlink.returncode.SUCCESS
  unacknowledged := none
  recv := fun _ => recv_result.data sample_item_frame
  send_ok := send_ok

/-- The client `sample_search` as `flush_one` sees it when it starts to poll. -/
def sample_search_pump : client :=
  { sample_search with requests := pop_null_front sample_search.requests }

/-- A client with one `get` request in flight, to entity 5 on instance
`⟨100, 3⟩`. -/
def sample_one : client :=
  ((client.init sample_config).get sample_hyperdex "users" [42] 7 true true).1

/-- Answers of the outside world for one turn of `flush_one`: `poll` reports one
ready descriptor, the coordinator announces `unacknowledged`, and request 0 has
the `revents` given. -/
def sample_env_ready (unacknowledged : Option configuration) (revents0 : pollfd) :
    flush_env where
  coord_connected := fun _ => true
  coord_connect := fun _ => coordinatorlink.returncode.SUCCESS
  polled := 1
  polled_again := 1
  revents := fun i => if i = 0 then revents0 else ⟨false, false, false⟩
  coord_revents := false
  coord_loop := coordinatorlink.returncode.SUCCESS
  unacknowledged := unacknowledged
  recv := fun _ => recv_result.would_block
  send_ok := true

/-- The request that `sample_one` has in flight. -/
def sample_one_op : pending := ⟨1, 5, ⟨100, 3⟩, 1, false, pending_kind.get 7⟩

/-- The channel `chan` is absent from the channel table: no entry of the table
holds it. -/
def client.absent (s : client) (chan : Nat) : Prop := ∀ inst, s.channels inst ≠ some chan

/-- The table invariant: an entry of the channel table that holds the channel of
a live op is the entry of the instance of that op; a channel held by the table has
an open socket; and no channel is held by two entries. -/
def client.table_inv (s : client) : Prop :=
  (∀ op ∈ s.live, ∀ inst, s.channels inst = some op.chan → inst = op.inst) ∧
  (∀ inst c, s.channels inst = some c → c ≠ 0 → (s.chans c).soc_closed = false) ∧
  (∀ i1 i2 c, s.channels i1 = some c → s.channels i2 = some c → c ≠ 0 → i1 = i2)

/-- No evicted channel comes back: from `s` to `s1` the allocator does not go
down, and a channel that exists in `s` and is absent from its table is absent
from the table of `s1`. -/
def client.stays_absent (s s1 : client) : Prop :=
  s.next_chan ≤ s1.next_chan ∧ ∀ c, 1 ≤ c → c < s.next_chan → s.absent c → s1.absent c

/-- The client `sample_one` after a second `get` to the same instance whose
`xsend` fails. -/
def sample_evicted : client :=
  (sample_one.get sample_hyperdex "users" [43] 8 true false).1

/-- The callback a get or mutate op holds, named by its variant (`true` for the
callback of a `get`) and its number; `none` for a search op. -/
def pending.callback_key (op : pending) : Option (Bool × Nat) :=
  match op.kind with
  | pending_kind.get callback => some (true, callback)
  | pending_kind.mutate _ callback => some (false, callback)
  | pending_kind.search _ _ => none

/-- The get or mutate callback that an event invokes; `none` for the invocation of
a search callback and for a call of `xsend`. -/
def event.callback_key : event → Option (Bool × Nat)
  | event.get_callback callback _ _ => some (true, callback)
  | event.mutate_callback callback _ => some (false, callback)
  | event.search_callback _ _ _ _ => none
  | event.xsend _ _ _ => none

/-- The number of invocations of the get or mutate callback `k` in a list of
events. -/
def calls (k : Bool × Nat) (evs : List event) : Nat :=
  evs.countP (fun e => decide (e.callback_key = some k))

/-- The number of live get or mutate ops in a deque that hold the callback `k`. -/
def waiting (k : Bool × Nat) (reqs : List (Option pending)) : Nat :=
  reqs.countP (fun r => decide (r.bind pending.callback_key = some k))

/-- The number of get or mutate ops dispatched with the callback `k`, in the list
of the callbacks dispatched. -/
def dispatched (k : Bool × Nat) (ds : List (Bool × Nat)) : Nat :=
  ds.countP (fun d => decide (d = k))

/-- The runs of the public operations from a freshly constructed client: the
state reached, the events produced so far, and the callbacks of the get and
mutate ops dispatched so far, in order of dispatch. -/
inductive Trace (hx : hyperdex) : client → List event → List (Bool × Nat) → Prop
  | init (config : configuration) : Trace hx (client.init config) [] []
  | connect {s s1 : client} {evs : List event} {ds : List (Bool × Nat)} {ret : returncode}
      (env : connect_env) :
      Trace hx s evs ds → s.connect env = some (s1, ret) → Trace hx s1 evs ds
  | get {s : client} {evs : List event} {ds : List (Bool × Nat)} (space : String)
      (key : buffer) (callback : Nat) (connect_ok send_ok : Bool) :
      Trace hx s evs ds →
      Trace hx (s.get hx space key callback connect_ok send_ok).1
        (evs ++ (s.get hx space key callback connect_ok send_ok).2) (ds ++ [(true, callback)])
  | put {s : client} {evs : List event} {ds : List (Bool × Nat)} (space : String)
      (key : buffer) (value : List buffer) (callback : Nat) (connect_ok send_ok : Bool) :
      Trace hx s evs ds →
      Trace hx (s.put hx space key value callback connect_ok send_ok).1
        (evs ++ (s.put hx space key value callback connect_ok send_ok).2)
        (ds ++ [(false, callback)])
  | del {s : client} {evs : List event} {ds : List (Bool × Nat)} (space : String)
      (key : buffer) (callback : Nat) (connect_ok send_ok : Bool) :
      Trace hx s evs ds →
      Trace hx (s.del hx space key callback connect_ok send_ok).1
        (evs ++ (s.del hx space key callback connect_ok send_ok).2) (ds ++ [(false, callback)])
  | update {s s1 : client} {evs evs1 : List event} {ds : List (Bool × Nat)} (space : String)
      (key : buffer) (value : List (String × buffer)) (callback : Nat)
      (connect_ok send_ok : Bool) :
      Trace hx s evs ds →
      s.update hx space key value callback connect_ok send_ok = some (s1, evs1) →
      Trace hx s1 (evs ++ evs1) (ds ++ [(false, callback)])
  | search {s s1 : client} {evs evs1 : List event} {ds : List (Bool × Nat)} (space : String)
      (equality : List (String × buffer)) (range : List (String × Nat × Nat)) (callback : Nat)
      (subspace_hint : Nat) (connect_ok send_ok : Nat → Bool) :
      Trace hx s evs ds →
      s.search hx space equality range callback subspace_hint connect_ok send_ok =
        some (s1, evs1) →
      Trace hx s1 (evs ++ evs1) ds
  | outstanding {s : client} {evs : List event} {ds : List (Bool × Nat)} :
      Trace hx s evs ds → Trace hx s.outstanding.1 evs ds
  | flush_one {s s1 : client} {evs evs1 : List event} {ds : List (Bool × Nat)}
      {ret : returncode} (timeout : Int) (envs : List flush_env) :
      Trace hx s evs ds → s.flush_one hx timeout envs = some (s1, evs1, ret) →
      Trace hx s1 (evs ++ evs1) ds
  | flush {s s1 : client} {evs evs1 : List event} {ds : List (Bool × Nat)}
      {ret : returncode} (timeout : Int) (script : List (List flush_env × Int)) :
      Trace hx s evs ds → s.flush hx timeout script = some (s1, evs1, ret) →
      Trace hx s1 (evs ++ evs1) ds

/-- The client `sample_client` after a call of `flush_one` whose poll timed out:
the first `get` has been told `TIMEOUT` and popped. -/
def sample_timed_out : client :=
  { sample_client with requests := [some ⟨1, 5, ⟨100, 3⟩, 2, false, pending_kind.get 8⟩] }

/-- The events of the run that leads to `sample_timed_out`: two `get` requests are
sent, then the first is told `TIMEOUT`. -/
def sample_run_events : List event :=
  ([] ++ ((client.init sample_config).get sample_hyperdex "users" [42] 7 true true).2 ++
    (sample_one.get sample_hyperdex "users" [43] 8 true true).2) ++
    [event.get_callback 7 returncode.TIMEOUT []]

/-- The conditions under which the loop over the requests of `client::flush_one`,
standing at the live request `op` in slot `i`, fails it with `DISCONNECT`: the
descriptor reports `POLLHUP` or `POLLERR`; or the op is not marked reconfigured,
the descriptor reports `POLLIN`, and the socket of the channel is closed, or
reading it throws, or it delivers the 4 bytes of a size but fewer bytes than the
size announces, or the frame read cannot be parsed. -/
def client.disconnects (hx : hyperdex) (env : flush_env) (s : client) (i : Nat)
    (op : pending) : Bool :=
  (env.revents i).POLLHUP || (env.revents i).POLLERR ||
    (!op.reconfigured && (env.revents i).POLLIN &&
      ((s.chans op.chan).soc_closed ||
        match env.recv i with
        | recv_result.would_block => false
        | recv_result.error => true
        | recv_result.data bytes =>
          decide (4 ≤ bytes.length) &&
            (decide (bytes.length < (be_value (bytes.take 4) + 4) % 2 ^ 32) ||
              (unpack_frame hx (bytes.take ((be_value (bytes.take 4) + 4) % 2 ^ 32))).isNone)))

/-- Every live op of `s1` stands for a live op of `s` with the same channel and the
same variant members: from `s` to `s1` ops were only removed from the deque or
given a new nonce or the mark `reconfigured`. -/
def client.live_from (s s1 : client) : Prop :=
  ∀ op1 ∈ s1.live, ∃ op ∈ s.live, op.chan = op1.chan ∧ op.kind = op1.kind

/-! ## The frame codec: lemmas -/

theorem pack_be_length (w n : Nat) : (pack_be w n).length = w := by
  induction w generalizing n with
  | zero => rfl
  | succ w ih => simp [pack_be, ih]

theorem be_value_snoc (bs : buffer) (b : Nat) :
    be_value (bs ++ [b]) = be_value bs * 256 + b % 256 := by
  simp [be_value, List.foldl_append]

theorem be_value_pack_be (w n : Nat) : be_value (pack_be w n) = n % 256 ^ w := by
  induction w generalizing n with
  | zero => simp [pack_be, be_value, Nat.mod_one]
  | succ w ih =>
    rw [pack_be, be_value_snoc, ih, pow_succ, Nat.mul_comm (256 ^ w) 256, Nat.mod_mul]
    omega

theorem unpack_be_pack_be (w n : Nat) (rest : buffer) :
    unpack_be w (pack_be w n ++ rest) = some (n % 256 ^ w, rest) := by
  have hl := pack_be_length w n
  unfold unpack_be
  rw [if_neg (by simp [hl])]
  have h1 : (pack_be w n ++ rest).take w = pack_be w n := by
    exact List.take_left' hl
  have h2 : (pack_be w n ++ rest).drop w = rest := by
    exact List.drop_left' hl
  rw [h1, h2, be_value_pack_be]

theorem unpack_be_pack_be_lt (w n : Nat) (rest : buffer) (h : n < 256 ^ w) :
    unpack_be w (pack_be w n ++ rest) = some (n, rest) := by
  rw [unpack_be_pack_be, Nat.mod_eq_of_lt h]

theorem pack_frame_length (hx : hyperdex) (h : header) (send_msg : buffer) :
    (pack_frame hx h send_msg).length =
      4 + (1 + 2 + 2 + hx.SERIALIZEDSIZE * 2 + 8 + send_msg.length) := by
  simp [pack_frame, pack_be_length]
  omega

/-- Claim C7. Frame round trip: for every header made of values of its field
types and every payload, the header parse of `flush_one` applied to the frame
built by `send` gives back the size word, the same header and the same payload. -/
theorem frame_round_trip (hx : hyperdex) (h : header) (p : buffer) (hwf : h.wf hx) :
    unpack_frame hx (pack_frame hx h p) = some (frame_size hx p, h, p) := by
  obtain ⟨h1, h2, h3, h4, h5, h6⟩ := hwf
  have hs : frame_size hx p < 256 ^ 4 := by
    unfold frame_size
    exact Nat.mod_lt _ (by norm_num)
  unfold unpack_frame pack_frame
  simp only [List.append_assoc]
  rw [unpack_be_pack_be_lt 4 _ _ hs]
  simp only
  rw [unpack_be_pack_be_lt 1 _ _ (by simpa using h1)]
  simp only
  rw [unpack_be_pack_be_lt 2 _ _ (by simpa using h2)]
  simp only
  rw [unpack_be_pack_be_lt 2 _ _ (by simpa using h3)]
  simp only
  rw [unpack_be_pack_be_lt _ _ _ h4]
  simp only
  rw [unpack_be_pack_be_lt _ _ _ h5]
  simp only
  rw [unpack_be_pack_be_lt 8 _ _ (by simpa using h6)]

/-- Witness for C7: a `REQ_GET` frame with nonce 1 and a two-byte payload. -/
theorem frame_round_trip_witness :
    header.wf sample_hyperdex ⟨8, 0, 3, 0, 77, 1⟩ ∧
      unpack_frame sample_hyperdex (pack_frame sample_hyperdex ⟨8, 0, 3, 0, 77, 1⟩ [5, 6]) =
        some (frame_size sample_hyperdex [5, 6], ⟨8, 0, 3, 0, 77, 1⟩, [5, 6]) :=
  ⟨by simp [header.wf, sample_hyperdex],
   frame_round_trip sample_hyperdex ⟨8, 0, 3, 0, 77, 1⟩ [5, 6]
     (by simp [header.wf, sample_hyperdex])⟩

/-- Counterexample for C8: the frame of a request with an empty payload is 49
bytes long with 16-byte entity ids, and its size field holds 45, not 49. -/
theorem size_field_not_total_size :
    be_value ((pack_frame sample_hyperdex ⟨8, 0, 0, 0, 0, 1⟩ []).take 4) = 45 ∧
      (pack_frame sample_hyperdex ⟨8, 0, 0, 0, 0, 1⟩ []).length = 49 ∧
      be_value ((pack_frame sample_hyperdex ⟨8, 0, 0, 0, 0, 1⟩ []).take 4) ≠
        (pack_frame sample_hyperdex ⟨8, 0, 0, 0, 0, 1⟩ []).length := by
  decide

/-- Claim C8, amended. For every request frame built by `send`, the leading
big-endian size field holds the number of bytes that follow it, that is the
total size of the frame minus the four bytes of the size field itself, reduced
modulo `2 ^ 32`. -/
theorem size_field_excludes_itself (hx : hyperdex) (h : header) (send_msg : buffer) :
    be_value ((pack_frame hx h send_msg).take 4) =
      ((pack_frame hx h send_msg).length - 4) % 2 ^ 32 := by
  rw [pack_frame_length]
  have ht : (pack_frame hx h send_msg).take 4 = pack_be 4 (frame_size hx send_msg) := by
    unfold pack_frame
    simp only [List.append_assoc]
    exact List.take_left' (pack_be_length 4 _)
  rw [ht, be_value_pack_be]
  unfold frame_size
  have e : (256 : Nat) ^ 4 = 2 ^ 32 := by norm_num
  rw [e, Nat.mod_mod, Nat.add_sub_cancel_left]

/-! ## Response handlers of get and mutate ops -/

theorem net_distinct_ne (hx : hyperdex) (hd : hx.net_distinct) :
    hx.NET_SUCCESS ≠ hx.NET_NOTFOUND ∧ hx.NET_SUCCESS ≠ hx.NET_WRONGARITY ∧
    hx.NET_SUCCESS ≠ hx.NET_NOTUS ∧ hx.NET_SUCCESS ≠ hx.NET_SERVERERROR ∧
    hx.NET_NOTFOUND ≠ hx.NET_WRONGARITY ∧ hx.NET_NOTFOUND ≠ hx.NET_NOTUS ∧
    hx.NET_NOTFOUND ≠ hx.NET_SERVERERROR ∧ hx.NET_WRONGARITY ≠ hx.NET_NOTUS ∧
    hx.NET_WRONGARITY ≠ hx.NET_SERVERERROR ∧ hx.NET_NOTUS ≠ hx.NET_SERVERERROR := by
  unfold hyperdex.net_distinct at hd
  simp only [List.nodup_cons, List.mem_cons, List.mem_singleton, not_or, List.not_mem_nil,
    not_false_eq_true, List.nodup_nil, and_true] at hd
  obtain ⟨⟨a1, a2, a3, a4⟩, ⟨b1, b2, b3⟩, ⟨c1, c2⟩, d1⟩ := hd
  exact ⟨a1, a2, a3, a4, b1, b2, b3, c1, c2, d1⟩

/-- Claim C1. Whatever message type and payload the handler of a get op receives,
the client is unchanged, no replacement op is returned, the handler reports that
it called back, and exactly one callback invocation results. Its arguments are
`(SERVERERROR, [])` for a type other than `RESP_GET` or a payload too short for
the 16-bit returncode; otherwise they follow the returncode: `NET_SUCCESS` gives
`(SUCCESS, value)` for the decoded vector (`(SERVERERROR, [])` if the vector does
not decode), `NET_NOTFOUND` gives `(NOTFOUND, [])`, `NET_WRONGARITY` gives
`(WRONGARITY, [])`, `NET_NOTUS` gives `(LOGICERROR, [])`, and `NET_SERVERERROR` or
any other number gives `(SERVERERROR, [])`. -/
theorem get_result_contract (hx : hyperdex) (hd : hx.net_distinct) (s : client) (op : pending)
    (callback : Nat) (hk : op.kind = pending_kind.get callback) (msg_type : Nat)
    (msg : buffer) (send_ok : Bool) :
    (pending.result hx s op msg_type msg send_ok).1 = s ∧
    (pending.result hx s op msg_type msg send_ok).2.1 = none ∧
    (pending.result hx s op msg_type msg send_ok).2.2.1 = true ∧
    (∃ ret value, (pending.result hx s op msg_type msg send_ok).2.2.2 =
        [event.get_callback callback ret value]) ∧
    (msg_type ≠ hx.RESP_GET →
      (pending.result hx s op msg_type msg send_ok).2.2.2 =
        [event.get_callback callback returncode.SERVERERROR []]) ∧
    (msg_type = hx.RESP_GET → unpack_be 2 msg = none →
      (pending.result hx s op msg_type msg send_ok).2.2.2 =
        [event.get_callback callback returncode.SERVERERROR []]) ∧
    (∀ response up, msg_type = hx.RESP_GET → unpack_be 2 msg = some (response, up) →
      (response = hx.NET_SUCCESS →
        (∀ value rest, hx.unpack_vector up = some (value, rest) →
          (pending.result hx s op msg_type msg send_ok).2.2.2 =
            [event.get_callback callback returncode.SUCCESS value]) ∧
        (hx.unpack_vector up = none →
          (pending.result hx s op msg_type msg send_ok).2.2.2 =
            [event.get_callback callback returncode.SERVERERROR []])) ∧
      (response = hx.NET_NOTFOUND →
        (pending.result hx s op msg_type msg send_ok).2.2.2 =
          [event.get_callback callback returncode.NOTFOUND []]) ∧
      (response = hx.NET_WRONGARITY →
        (pending.result hx s op msg_type msg send_ok).2.2.2 =
          [event.get_callback callback returncode.WRONGARITY []]) ∧
      (response = hx.NET_NOTUS →
        (pending.result hx s op msg_type msg send_ok).2.2.2 =
          [event.get_callback callback returncode.LOGICERROR []]) ∧
      (response = hx.NET_SERVERERROR →
        (pending.result hx s op msg_type msg send_ok).2.2.2 =
          [event.get_callback callback returncode.SERVERERROR []]) ∧
      (response ≠ hx.NET_SUCCESS → response ≠ hx.NET_NOTFOUND →
        response ≠ hx.NET_WRONGARITY → response ≠ hx.NET_NOTUS →
        response ≠ hx.NET_SERVERERROR →
        (pending.result hx s op msg_type msg send_ok).2.2.2 =
          [event.get_callback callback returncode.SERVERERROR []])) := by
  obtain ⟨a1, a2, a3, a4, b1, b2, b3, c1, c2, d1⟩ := net_distinct_ne hx hd
  have hr : pending.result hx s op msg_type msg send_ok =
      (s, (pending_get.result hx callback msg_type msg).1,
        (pending_get.result hx callback msg_type msg).2.1,
        (pending_get.result hx callback msg_type msg).2.2) := by
    unfold pending.result
    rw [hk]
  rw [hr]
  refine ⟨rfl, ?_, ?_, ?_, ?_, ?_, ?_⟩
  · unfold pending_get.result
    repeat' split
    all_goals rfl
  · unfold pending_get.result
    repeat' split
    all_goals rfl
  · unfold pending_get.result
    repeat' split
    all_goals exact ⟨_, _, rfl⟩
  · intro hne
    simp [pending_get.result, hne]
  · intro he hu
    simp [pending_get.result, he, hu]
  · intro response up he hu
    refine ⟨?_, ?_, ?_, ?_, ?_, ?_⟩
    · intro hr1
      subst hr1
      refine ⟨?_, ?_⟩
      · intro value rest hv
        simp [pending_get.result, he, hu, hv]
      · intro hv
        simp [pending_get.result, he, hu, hv]
    · intro hr1
      subst hr1
      simp [pending_get.result, he, hu, Ne.symm a1]
    · intro hr1
      subst hr1
      simp [pending_get.result, he, hu, Ne.symm a2, Ne.symm b1]
    · intro hr1
      subst hr1
      simp [pending_get.result, he, hu, Ne.symm a3, Ne.symm b2, Ne.symm c1]
    · intro hr1
      subst hr1
      simp [pending_get.result, he, hu, Ne.symm a4, Ne.symm b3, Ne.symm c2, Ne.symm d1]
    · intro n1 n2 n3 n4 n5
      simp [pending_get.result, he, hu, n1, n2, n3, n4, n5]

/-- Witness for C1: a `RESP_GET` whose payload is `NET_SUCCESS` (8320 = 32 * 256 +
128) followed by a vector of two one-byte values. -/
theorem get_result_contract_witness :
    sample_hyperdex.net_distinct ∧
      (pending.result sample_hyperdex (client.init ⟨fun _ => 0, fun _ => [], fun _ _ => none,
          fun _ _ => [], fun _ _ _ => [], fun _ => ⟨0, 0⟩⟩)
        (pending.new (pending_kind.get 7)) 9 [32, 128, 2, 10, 11] true).2.2.2 =
        [event.get_callback 7 returncode.SUCCESS [[10], [11]]] :=
  ⟨by decide,
   ((get_result_contract sample_hyperdex (by decide) _ (pending.new (pending_kind.get 7)) 7 rfl
      9 [32, 128, 2, 10, 11] true).2.2.2.2.2.2 8320 [2, 10, 11] rfl rfl).1 rfl |>.1
        [[10], [11]] [] rfl⟩

/-- Claim C2. `put`, `del` and `update` dispatch a mutate op constructed with
`RESP_PUT`, `RESP_DEL` and `RESP_UPDATE`. Whatever message type and payload the
handler of a mutate op receives, the client is unchanged, no replacement op is
returned, the handler reports that it called back, and exactly one callback
invocation results: with `SERVERERROR` when the type differs from the expected
one or the payload is too short for the returncode, and otherwise with the code
of the table `NET_SUCCESS → SUCCESS`, `NET_NOTFOUND → NOTFOUND`,
`NET_WRONGARITY → WRONGARITY`, `NET_NOTUS → LOGICERROR`, `NET_SERVERERROR` or any
other number `→ SERVERERROR`. -/
theorem mutate_result_contract (hx : hyperdex) (hd : hx.net_distinct) (s : client)
    (op : pending) (expected callback : Nat)
    (hk : op.kind = pending_kind.mutate expected callback) (msg_type : Nat) (msg : buffer)
    (send_ok : Bool) :
    (∀ (c : client) space key value cb c1 c2,
      c.put hx space key value cb c1 c2 =
        c.add_reqrep hx space key hx.REQ_PUT (hx.pack_buffer key ++ hx.pack_vector value)
          (pending.new (pending_kind.mutate hx.RESP_PUT cb)) c1 c2) ∧
    (∀ (c : client) space key cb c1 c2,
      c.del hx space key cb c1 c2 =
        c.add_reqrep hx space key hx.REQ_DEL key
          (pending.new (pending_kind.mutate hx.RESP_DEL cb)) c1 c2) ∧
    (∀ (c : client) space key value cb c1 c2 r,
      c.update hx space key value cb c1 c2 = some r →
        r = (c, [event.mutate_callback cb returncode.NOTASPACE]) ∨
        r = (c, [event.mutate_callback cb returncode.BADDIMENSION]) ∨
        r = c.add_reqrep hx space key hx.REQ_UPDATE
          (update_msg hx key (update_encode
            (c.config.lookup_space_dimensions (c.config.lookup_spaceid space)) value))
          (pending.new (pending_kind.mutate hx.RESP_UPDATE cb)) c1 c2) ∧
    (pending.result hx s op msg_type msg send_ok).1 = s ∧
    (pending.result hx s op msg_type msg send_ok).2.1 = none ∧
    (pending.result hx s op msg_type msg send_ok).2.2.1 = true ∧
    (∃ ret, (pending.result hx s op msg_type msg send_ok).2.2.2 =
        [event.mutate_callback callback ret]) ∧
    (msg_type ≠ expected →
      (pending.result hx s op msg_type msg send_ok).2.2.2 =
        [event.mutate_callback callback returncode.SERVERERROR]) ∧
    (msg_type = expected → unpack_be 2 msg = none →
      (pending.result hx s op msg_type msg send_ok).2.2.2 =
        [event.mutate_callback callback returncode.SERVERERROR]) ∧
    (∀ response up, msg_type = expected → unpack_be 2 msg = some (response, up) →
      (pending.result hx s op msg_type msg send_ok).2.2.2 =
          [event.mutate_callback callback (net_to_returncode hx response)] ∧
      (response = hx.NET_SUCCESS → net_to_returncode hx response = returncode.SUCCESS) ∧
      (response = hx.NET_NOTFOUND → net_to_returncode hx response = returncode.NOTFOUND) ∧
      (response = hx.NET_WRONGARITY →
        net_to_returncode hx response = returncode.WRONGARITY) ∧
      (response = hx.NET_NOTUS → net_to_returncode hx response = returncode.LOGICERROR) ∧
      (response = hx.NET_SERVERERROR →
        net_to_returncode hx response = returncode.SERVERERROR) ∧
      (response ≠ hx.NET_SUCCESS → response ≠ hx.NET_NOTFOUND →
        response ≠ hx.NET_WRONGARITY → response ≠ hx.NET_NOTUS →
        response ≠ hx.NET_SERVERERROR →
        net_to_returncode hx response = returncode.SERVERERROR)) := by
  obtain ⟨a1, a2, a3, a4, b1, b2, b3, c1, c2, d1⟩ := net_distinct_ne hx hd
  have hr : pending.result hx s op msg_type msg send_ok =
      (s, (pending_mutate.result hx expected callback msg_type msg).1,
        (pending_mutate.result hx expected callback msg_type msg).2.1,
        (pending_mutate.result hx expected callback msg_type msg).2.2) := by
    unfold pending.result
    rw [hk]
  rw [hr]
  refine ⟨fun _ _ _ _ _ _ _ => rfl, fun _ _ _ _ _ _ => rfl, ?_, rfl, ?_, ?_, ?_, ?_, ?_, ?_⟩
  · intro c space key value cb k1 k2 r hu
    unfold client.update at hu
    simp only at hu
    split at hu
    · left
      exact (Option.some.inj hu).symm
    · split at hu
      · exact absurd hu (by simp)
      · split at hu
        · right; left
          exact (Option.some.inj hu).symm
        · right; right
          exact (Option.some.inj hu).symm
  · unfold pending_mutate.result
    repeat' split
    all_goals rfl
  · unfold pending_mutate.result
    repeat' split
    all_goals rfl
  · unfold pending_mutate.result
    repeat' split
    all_goals exact ⟨_, rfl⟩
  · intro hne
    simp [pending_mutate.result, hne]
  · intro he hu
    simp [pending_mutate.result, he, hu]
  · intro response up he hu
    refine ⟨?_, ?_, ?_, ?_, ?_, ?_, ?_⟩
    · simp only [pending_mutate.result, he, hu, net_to_returncode, ne_eq, not_true_eq_false,
        if_false]
      repeat' split
      all_goals rfl
    · intro hr1
      simp [net_to_returncode, hr1]
    · intro hr1
      subst hr1
      simp [net_to_returncode, Ne.symm a1]
    · intro hr1
      subst hr1
      simp [net_to_returncode, Ne.symm a2, Ne.symm b1]
    · intro hr1
      subst hr1
      simp [net_to_returncode, Ne.symm a3, Ne.symm b2, Ne.symm c1]
    · intro hr1
      subst hr1
      simp [net_to_returncode, Ne.symm a4, Ne.symm b3, Ne.symm c2, Ne.symm d1]
    · intro n1 n2 n3 n4 n5
      simp [net_to_returncode, n1, n2, n3, n4, n5]

/-- Witness for C2: the op of a `put` (expected type `RESP_PUT` = 11) receives a
`RESP_PUT` whose payload is `NET_NOTFOUND` (8321 = 32 * 256 + 129). -/
theorem mutate_result_contract_witness :
    sample_hyperdex.net_distinct ∧
      (pending.result sample_hyperdex (client.init ⟨fun _ => 0, fun _ => [], fun _ _ => none,
          fun _ _ => [], fun _ _ _ => [], fun _ => ⟨0, 0⟩⟩)
        (pending.new (pending_kind.mutate 11 7)) 11 [32, 129] true).2.2.2 =
        [event.mutate_callback 7 returncode.NOTFOUND] :=
  ⟨by decide,
   ((mutate_result_contract sample_hyperdex (by decide) _
      (pending.new (pending_kind.mutate 11 7)) 11 7 rfl 11 [32, 129]
      true).2.2.2.2.2.2.2.2.2 8321 [] rfl rfl).1⟩

/-! ## Configuration errors detected at dispatch -/

/-- Claim C6. When the cached configuration does not know the space name
(`lookup_spaceid` gives `NULLSPACE`), each of `get`, `put`, `del`, `update` and
`search` leaves the client exactly as it was (same deque, same channel table, same
channel objects and counters, same search id) and produces exactly one event: the
callback invoked with `NOTASPACE` and empty results; in particular nothing is
sent. -/
theorem notaspace_contract (hx : hyperdex) (s : client) (space : String)
    (h : s.config.lookup_spaceid space = hx.NULLSPACE) :
    (∀ key callback c1 c2, s.get hx space key callback c1 c2 =
      (s, [event.get_callback callback returncode.NOTASPACE []])) ∧
    (∀ key value callback c1 c2, s.put hx space key value callback c1 c2 =
      (s, [event.mutate_callback callback returncode.NOTASPACE])) ∧
    (∀ key callback c1 c2, s.del hx space key callback c1 c2 =
      (s, [event.mutate_callback callback returncode.NOTASPACE])) ∧
    (∀ key value callback c1 c2, s.update hx space key value callback c1 c2 =
      some (s, [event.mutate_callback callback returncode.NOTASPACE])) ∧
    (∀ equality range callback hint c1 c2,
      s.search hx space equality range callback hint c1 c2 =
        some (s, [event.search_callback callback returncode.NOTASPACE [] []])) := by
  refine ⟨?_, ?_, ?_, ?_, ?_⟩
  · intro key callback c1 c2
    simp [client.get, client.add_reqrep, h, pending.result_rc, pending.new]
  · intro key value callback c1 c2
    simp [client.put, client.add_reqrep, h, pending.result_rc, pending.new]
  · intro key callback c1 c2
    simp [client.del, client.add_reqrep, h, pending.result_rc, pending.new]
  · intro key value callback c1 c2
    simp [client.update, h]
  · intro equality range callback hint c1 c2
    simp [client.search, h]

/-- Witness for C6: `get("bogus", k)` on a fresh client whose configuration only
knows the space `users`. -/
theorem notaspace_contract_witness :
    (client.init sample_config).config.lookup_spaceid "bogus" = sample_hyperdex.NULLSPACE ∧
      (client.init sample_config).get sample_hyperdex "bogus" [107] 7 true true =
        (client.init sample_config, [event.get_callback 7 returncode.NOTASPACE []]) :=
  ⟨by decide,
   (notaspace_contract sample_hyperdex (client.init sample_config) "bogus" (by decide)).1
     [107] 7 true true⟩

/-! ## Update: the bitfield, the value sequence and `BADDIMENSION` -/

theorem update_loop_spec (dims : List String) (value : List (String × buffer)) :
    ∀ (fuel i : Nat) (v : update_vars), 1 ≤ i → dims.length ≤ i + fuel →
      v.bits.length = dims.length - 1 → v.realvalue.length = dims.length - 1 →
      (update_loop dims value fuel i v).bits.length = dims.length - 1 ∧
      (update_loop dims value fuel i v).realvalue.length = dims.length - 1 ∧
      (∀ j, j < dims.length - 1 →
        (update_loop dims value fuel i v).bits[j]? =
          if j + 1 < i then v.bits[j]? else some (value.lookup (dims.getD (j + 1) "")).isSome) ∧
      (∀ j, j < dims.length - 1 →
        (update_loop dims value fuel i v).realvalue[j]? =
          if j + 1 < i then v.realvalue[j]?
          else match value.lookup (dims.getD (j + 1) "") with
            | some x => some x
            | none => v.realvalue[j]?) ∧
      (∀ name, name ∈ (update_loop dims value fuel i v).seen ↔
        name ∈ v.seen ∨
          ∃ j, i ≤ j ∧ j < dims.length ∧ dims.getD j "" = name ∧
            (value.lookup name).isSome = true) := by
  intro fuel
  induction fuel with
  | zero =>
    intro i v hi hfuel hb hr
    simp only [update_loop]
    refine ⟨hb, hr, ?_, ?_, ?_⟩
    · intro j hj
      rw [if_pos (by omega)]
    · intro j hj
      rw [if_pos (by omega)]
    · intro name
      constructor
      · intro h; exact Or.inl h
      · rintro (h | ⟨j, h1, h2, _⟩)
        · exact h
        · omega
  | succ fuel ih =>
    intro i v hi hfuel hb hr
    rw [update_loop]
    by_cases hlt : i < dims.length
    · rw [if_pos hlt]
      cases hlk : value.lookup (dims.getD i "") with
      | none =>
        simp only
        obtain ⟨r1, r2, r3, r4, r5⟩ := ih (i + 1) { v with bits := v.bits.set (i - 1) false }
          (by omega) (by omega) (by simp [hb]) hr
        refine ⟨r1, r2, ?_, ?_, ?_⟩
        · intro j hj
          rw [r3 j hj]
          by_cases h1 : j + 1 < i
          · rw [if_pos (by omega), if_pos h1]
            simp only
            rw [List.getElem?_set_ne (by omega)]
          · by_cases h2 : j + 1 = i
            · rw [if_pos (by omega), if_neg h1]
              subst h2
              simp only [Nat.add_sub_cancel]
              rw [List.getElem?_set_self (by omega), hlk]
              rfl
            · rw [if_neg (by omega), if_neg h1]
        · intro j hj
          rw [r4 j hj]
          by_cases h1 : j + 1 < i
          · rw [if_pos (by omega), if_pos h1]
          · by_cases h2 : j + 1 = i
            · rw [if_pos (by omega), if_neg h1]
              subst h2
              rw [hlk]
            · rw [if_neg (by omega), if_neg h1]
        · intro name
          rw [r5 name]
          constructor
          · rintro (h | ⟨j, h1, h2, h3, h4⟩)
            · exact Or.inl h
            · exact Or.inr ⟨j, by omega, h2, h3, h4⟩
          · rintro (h | ⟨j, h1, h2, h3, h4⟩)
            · exact Or.inl h
            · by_cases hji : j = i
              · subst hji
                rw [← h3, hlk] at h4
                simp at h4
              · exact Or.inr ⟨j, by omega, h2, h3, h4⟩
      | some x =>
        simp only
        obtain ⟨r1, r2, r3, r4, r5⟩ := ih (i + 1)
          { bits := v.bits.set (i - 1) true
            realvalue := v.realvalue.set (i - 1) x
            seen := dims.getD i "" :: v.seen }
          (by omega) (by omega) (by simp [hb]) (by simp [hr])
        refine ⟨r1, r2, ?_, ?_, ?_⟩
        · intro j hj
          rw [r3 j hj]
          by_cases h1 : j + 1 < i
          · rw [if_pos (by omega), if_pos h1]
            simp only
            rw [List.getElem?_set_ne (by omega)]
          · by_cases h2 : j + 1 = i
            · rw [if_pos (by omega), if_neg h1]
              subst h2
              simp only [Nat.add_sub_cancel]
              rw [List.getElem?_set_self (by omega), hlk]
              rfl
            · rw [if_neg (by omega), if_neg h1]
        · intro j hj
          rw [r4 j hj]
          by_cases h1 : j + 1 < i
          · rw [if_pos (by omega), if_pos h1]
            simp only
            rw [List.getElem?_set_ne (by omega)]
          · by_cases h2 : j + 1 = i
            · rw [if_pos (by omega), if_neg h1]
              subst h2
              simp only [Nat.add_sub_cancel]
              rw [List.getElem?_set_self (by omega), hlk]
            · rw [if_neg (by omega), if_neg h1]
              cases value.lookup (dims.getD (j + 1) "") with
              | none =>
                simp only
                rw [List.getElem?_set_ne (by omega)]
              | some y => rfl
        · intro name
          rw [r5 name]
          constructor
          · rintro (h | ⟨j, h1, h2, h3, h4⟩)
            · rcases List.mem_cons.mp h with h | h
              · exact Or.inr ⟨i, le_refl _, hlt, h.symm, by rw [h, hlk]; rfl⟩
              · exact Or.inl h
            · exact Or.inr ⟨j, by omega, h2, h3, h4⟩
          · rintro (h | ⟨j, h1, h2, h3, h4⟩)
            · exact Or.inl (List.mem_cons_of_mem _ h)
            · by_cases hji : j = i
              · subst hji
                exact Or.inl (by rw [h3]; exact List.mem_cons_self _ _)
              · exact Or.inr ⟨j, by omega, h2, h3, h4⟩
    · rw [if_neg hlt]
      refine ⟨hb, hr, ?_, ?_, ?_⟩
      · intro j hj
        rw [if_pos (by omega)]
      · intro j hj
        rw [if_pos (by omega)]
      · intro name
        constructor
        · intro h; exact Or.inl h
        · rintro (h | ⟨j, h1, h2, _⟩)
          · exact h
          · omega

theorem lookup_isSome_iff (value : List (String × buffer)) (name : String) :
    (value.lookup name).isSome = true ↔ ∃ x, (name, x) ∈ value := by
  induction value with
  | nil => simp [List.lookup]
  | cons kv rest ih =>
    obtain ⟨k, x⟩ := kv
    by_cases h : name = k
    · subst h
      simp [List.lookup]
    · have hb : (name == k) = false := by simpa using h
      rw [List.lookup, hb]
      simp only [List.mem_cons, Prod.mk.injEq]
      rw [ih]
      constructor
      · rintro ⟨y, hy⟩; exact ⟨y, Or.inr hy⟩
      · rintro ⟨y, hy | hy⟩
        · exact absurd hy.1 h
        · exact ⟨y, hy⟩

theorem mem_tail_iff_getD (dims : List String) (name : String) :
    (∃ j, 1 ≤ j ∧ j < dims.length ∧ dims.getD j "" = name) ↔ name ∈ dims.tail := by
  cases dims with
  | nil => simp
  | cons d t =>
    simp only [List.tail_cons, List.length_cons]
    constructor
    · rintro ⟨j, h1, h2, h3⟩
      obtain ⟨k, rfl⟩ : ∃ k, j = k + 1 := ⟨j - 1, by omega⟩
      have hk : k < t.length := by omega
      rw [List.getD_cons_succ, List.getD_eq_getElem _ _ hk] at h3
      rw [← h3]
      exact List.getElem_mem hk
    · intro h
      obtain ⟨k, hk, he⟩ := List.getElem_of_mem h
      refine ⟨k + 1, by omega, by omega, ?_⟩
      rw [List.getD_cons_succ, List.getD_eq_getElem _ _ hk, he]

theorem update_encode_spec (dims : List String) (value : List (String × buffer))
    (hn : 1 ≤ dims.length) :
    (update_encode dims value).bits.length = dims.length - 1 ∧
    (update_encode dims value).realvalue.length = dims.length - 1 ∧
    (∀ i, 1 ≤ i → i < dims.length →
      (update_encode dims value).bits[i - 1]? =
        some (value.lookup (dims.getD i "")).isSome ∧
      (update_encode dims value).realvalue[i - 1]? =
        some ((value.lookup (dims.getD i "")).getD [])) ∧
    (∀ name, name ∈ (update_encode dims value).seen ↔
      name ∈ dims.tail ∧ (value.lookup name).isSome = true) := by
  obtain ⟨r1, r2, r3, r4, r5⟩ := update_loop_spec dims value dims.length 1
    ⟨List.replicate (dims.length - 1) false, List.replicate (dims.length - 1) [], []⟩
    (le_refl _) (by omega) (by simp) (by simp)
  refine ⟨r1, r2, ?_, ?_⟩
  · intro i h1 h2
    have hj : i - 1 < dims.length - 1 := by omega
    have e : i - 1 + 1 = i := by omega
    refine ⟨?_, ?_⟩
    · have := r3 (i - 1) hj
      rw [if_neg (by omega), e] at this
      exact this
    · have := r4 (i - 1) hj
      rw [if_neg (by omega), e] at this
      unfold update_encode
      rw [this]
      cases value.lookup (dims.getD i "") with
      | none =>
        simp only [Option.getD_none]
        rw [List.getElem?_replicate, if_pos hj]
      | some x => rfl
  · intro name
    unfold update_encode
    rw [r5 name]
    simp only [List.not_mem_nil, false_or]
    rw [← mem_tail_iff_getD]
    constructor
    · rintro ⟨j, h1, h2, h3, h4⟩
      exact ⟨⟨j, h1, h2, h3⟩, h4⟩
    · rintro ⟨⟨j, h1, h2, h3⟩, h4⟩
      exact ⟨j, h1, h2, h3, h4⟩

theorem update_unseen_iff (seen : List String) (value : List (String × buffer)) :
    update_unseen seen value = true ↔ ∃ kv ∈ value, kv.1 ∉ seen := by
  induction value with
  | nil => simp [update_unseen]
  | cons kv rest ih =>
    obtain ⟨k, x⟩ := kv
    unfold update_unseen
    by_cases h : k ∈ seen
    · rw [if_pos h, ih]
      simp [h]
    · rw [if_neg h]
      simp [h]

theorem update_baddimension_iff (dims : List String) (value : List (String × buffer))
    (hn : 1 ≤ dims.length) :
    update_unseen (update_encode dims value).seen value = true ↔
      ∃ kv ∈ value, kv.1 ∉ dims.tail := by
  rw [update_unseen_iff]
  have hs := (update_encode_spec dims value hn).2.2.2
  constructor
  · rintro ⟨kv, hm, hk⟩
    refine ⟨kv, hm, fun ht => hk ?_⟩
    rw [hs]
    exact ⟨ht, (lookup_isSome_iff value kv.1).mpr ⟨kv.2, hm⟩⟩
  · rintro ⟨kv, hm, hk⟩
    refine ⟨kv, hm, fun ht => hk ?_⟩
    exact ((hs kv.1).mp ht).1

/-- Claim C3. For an existing space with dimension list `d_0 .. d_{n-1}`, `n ≥ 1`,
and an update map whose names are all value dimensions, `update` dispatches
`REQ_UPDATE` with the payload made of the key, the bitfield and the value
sequence, where both have length `n - 1`, bit `i - 1` says whether `d_i` is a key
of the map, and slot `i - 1` is the value the map gives for `d_i` when there is
one and the empty buffer otherwise. -/
theorem update_payload_contract (hx : hyperdex) (s : client) (space : String) (key : buffer)
    (value : List (String × buffer)) (callback : Nat) (connect_ok send_ok : Bool)
    (hs : s.config.lookup_spaceid space ≠ hx.NULLSPACE)
    (hn : 1 ≤ (s.config.lookup_space_dimensions (s.config.lookup_spaceid space)).length)
    (hv : ∀ kv ∈ value,
      kv.1 ∈ (s.config.lookup_space_dimensions (s.config.lookup_spaceid space)).tail) :
    s.update hx space key value callback connect_ok send_ok =
      some (s.add_reqrep hx space key hx.REQ_UPDATE
        (hx.pack_buffer key ++
          hx.pack_bitfield (update_encode
            (s.config.lookup_space_dimensions (s.config.lookup_spaceid space)) value).bits ++
          hx.pack_vector (update_encode
            (s.config.lookup_space_dimensions (s.config.lookup_spaceid space)) value).realvalue)
        (pending.new (pending_kind.mutate hx.RESP_UPDATE callback)) connect_ok send_ok) ∧
    (update_encode (s.config.lookup_space_dimensions (s.config.lookup_spaceid space))
      value).bits.length =
      (s.config.lookup_space_dimensions (s.config.lookup_spaceid space)).length - 1 ∧
    (update_encode (s.config.lookup_space_dimensions (s.config.lookup_spaceid space))
      value).realvalue.length =
      (s.config.lookup_space_dimensions (s.config.lookup_spaceid space)).length - 1 ∧
    (∀ i, 1 ≤ i →
      i < (s.config.lookup_space_dimensions (s.config.lookup_spaceid space)).length →
      ((update_encode (s.config.lookup_space_dimensions (s.config.lookup_spaceid space))
          value).bits[i - 1]? = some true ↔
        ∃ x, ((s.config.lookup_space_dimensions (s.config.lookup_spaceid space)).getD i "", x)
          ∈ value) ∧
      ((update_encode (s.config.lookup_space_dimensions (s.config.lookup_spaceid space))
          value).bits[i - 1]? = some false ↔
        ¬ ∃ x, ((s.config.lookup_space_dimensions (s.config.lookup_spaceid space)).getD i "", x)
          ∈ value) ∧
      (update_encode (s.config.lookup_space_dimensions (s.config.lookup_spaceid space))
          value).realvalue[i - 1]? =
        some ((value.lookup
          ((s.config.lookup_space_dimensions (s.config.lookup_spaceid space)).getD i "")).getD
            [])) := by
  obtain ⟨r1, r2, r3, _⟩ := update_encode_spec
    (s.config.lookup_space_dimensions (s.config.lookup_spaceid space)) value hn
  have hnb : update_unseen (update_encode
      (s.config.lookup_space_dimensions (s.config.lookup_spaceid space)) value).seen value
        = false := by
    cases hb : update_unseen (update_encode
      (s.config.lookup_space_dimensions (s.config.lookup_spaceid space)) value).seen value with
    | false => rfl
    | true =>
      obtain ⟨kv, hm, hk⟩ := (update_baddimension_iff _ value hn).mp hb
      exact absurd (hv kv hm) hk
  refine ⟨?_, r1, r2, ?_⟩
  · unfold client.update
    simp only
    rw [if_neg hs, if_neg (by omega), hnb]
    rfl
  · intro i h1 h2
    obtain ⟨b1, b2⟩ := r3 i h1 h2
    refine ⟨?_, ?_, b2⟩
    · rw [b1, ← lookup_isSome_iff]
      simp
    · rw [b1, ← lookup_isSome_iff]
      cases (List.lookup ((s.config.lookup_space_dimensions
        (s.config.lookup_spaceid space)).getD i "") value).isSome <;> simp

/-- Witness for C3: the space `users` with dimensions `id`, `name`, `email` and the
map `{email: [2]}`; the bit of `email` is bit 1. -/
theorem update_payload_contract_witness :
    (client.init sample_config).config.lookup_spaceid "users" ≠ sample_hyperdex.NULLSPACE ∧
      ((update_encode ((client.init sample_config).config.lookup_space_dimensions
          ((client.init sample_config).config.lookup_spaceid "users"))
          [("email", [2])]).bits[2 - 1]? = some true ↔
        ∃ x, (((client.init sample_config).config.lookup_space_dimensions
          ((client.init sample_config).config.lookup_spaceid "users")).getD 2 "", x)
            ∈ [("email", [2])]) :=
  ⟨by decide,
   ((update_payload_contract sample_hyperdex (client.init sample_config) "users" [42]
      [("email", [2])] 7 true true (by decide) (by decide) (by decide)).2.2.2
        2 (by decide) (by decide)).1⟩

/-- The example of the spec for the update bitfield: dimensions `[k, a, b, c]` and the map
`{a: X, c: Z}` give the bitfield `101` and a value sequence with slots 0 and 2
set. -/
theorem update_encode_example :
    update_encode ["k", "a", "b", "c"] [("a", [88]), ("c", [90])] =
      ⟨[true, false, true], [[88], [], [90]], ["c", "a"]⟩ := by
  decide

/-- Claim C5. For an existing space, when some name of the update map matches no
dimension name of the space, `update` leaves the client unchanged (no pending op
is enqueued) and produces exactly one event, the callback invoked with
`BADDIMENSION`; in particular no frame is sent. -/
theorem update_unknown_dimension (hx : hyperdex) (s : client) (space : String) (key : buffer)
    (value : List (String × buffer)) (callback : Nat) (connect_ok send_ok : Bool)
    (hs : s.config.lookup_spaceid space ≠ hx.NULLSPACE)
    (hn : 1 ≤ (s.config.lookup_space_dimensions (s.config.lookup_spaceid space)).length)
    (hv : ∃ kv ∈ value,
      kv.1 ∉ s.config.lookup_space_dimensions (s.config.lookup_spaceid space)) :
    s.update hx space key value callback connect_ok send_ok =
      some (s, [event.mutate_callback callback returncode.BADDIMENSION]) := by
  have hb : update_unseen (update_encode
      (s.config.lookup_space_dimensions (s.config.lookup_spaceid space)) value).seen value
        = true := by
    rw [update_baddimension_iff _ value hn]
    obtain ⟨kv, hm, hk⟩ := hv
    exact ⟨kv, hm, fun ht => hk (List.mem_of_mem_tail ht)⟩
  unfold client.update
  simp only
  rw [if_neg hs, if_neg (by omega), hb]
  rfl

/-- Witness for C5: the space `users` has no dimension `age`. -/
theorem update_unknown_dimension_witness :
    (∃ kv ∈ [("name", [1]), ("age", [2])],
      kv.1 ∉ (client.init sample_config).config.lookup_space_dimensions
        ((client.init sample_config).config.lookup_spaceid "users")) ∧
      (client.init sample_config).update sample_hyperdex "users" [42]
        [("name", [1]), ("age", [2])] 7 true true =
        some (client.init sample_config,
          [event.mutate_callback 7 returncode.BADDIMENSION]) :=
  ⟨⟨("age", [2]), by decide, by decide⟩,
   update_unknown_dimension sample_hyperdex (client.init sample_config) "users" [42]
     [("name", [1]), ("age", [2])] 7 true true (by decide) (by decide)
     ⟨("age", [2]), by decide, by decide⟩⟩

/-! ## Search: `BADSEARCH` -/

theorem search_equality_none_iff (dims : List String) (equality : List (String × buffer)) :
    ∀ (specified : List String) (s : search),
      search_equality dims equality specified s = none ↔
        ∃ kv ∈ equality, dims.indexOf kv.1 = 0 ∨ dims.indexOf kv.1 = dims.length := by
  induction equality with
  | nil => intro specified s; simp [search_equality]
  | cons kv rest ih =>
    intro specified s
    obtain ⟨name, v⟩ := kv
    unfold search_equality
    simp only
    by_cases h : dims.indexOf name = 0 ∨ dims.indexOf name = dims.length
    · rw [if_pos h]
      simp only [true_iff]
      exact ⟨(name, v), List.mem_cons_self _ _, h⟩
    · rw [if_neg h, ih]
      constructor
      · rintro ⟨kv, hm, hk⟩
        exact ⟨kv, List.mem_cons_of_mem _ hm, hk⟩
      · rintro ⟨kv, hm, hk⟩
        rcases List.mem_cons.mp hm with e | hm
        · subst e
          exact absurd hk h
        · exact ⟨kv, hm, hk⟩

theorem search_equality_specified (dims : List String) (equality : List (String × buffer)) :
    ∀ (specified : List String) (s : search) (r : List String × search),
      search_equality dims equality specified s = some r →
        ∀ kv ∈ equality, kv.1 ∈ r.1 := by
  have mono : ∀ (eq : List (String × buffer)) (specified : List String) (s : search)
      (r : List String × search), search_equality dims eq specified s = some r →
        ∀ name ∈ specified, name ∈ r.1 := by
    intro eq
    induction eq with
    | nil =>
      intro specified s r h name hm
      simp only [search_equality, Option.some.injEq] at h
      rw [← h]; exact hm
    | cons kv rest ih =>
      intro specified s r h name hm
      obtain ⟨k, v⟩ := kv
      unfold search_equality at h
      simp only at h
      split at h
      · exact absurd h (by simp)
      · exact ih _ _ r h name (List.mem_cons_of_mem _ hm)
  induction equality with
  | nil => intro specified s r _ kv hm; simp at hm
  | cons kv rest ih =>
    intro specified s r h kv1 hm
    obtain ⟨k, v⟩ := kv
    unfold search_equality at h
    simp only at h
    split at h
    · exact absurd h (by simp)
    · rcases List.mem_cons.mp hm with e | hm
      · subst e
        exact mono rest _ _ r h _ (List.mem_cons_self _ _)
      · exact ih _ _ r h kv1 hm

theorem search_range_none_iff (dims specified : List String)
    (range : List (String × Nat × Nat)) :
    ∀ (s : search),
      search_range dims specified range s = none ↔
        ∃ r ∈ range, r.1 ∈ specified ∨ dims.indexOf r.1 = dims.length := by
  induction range with
  | nil => intro s; simp [search_range]
  | cons r rest ih =>
    intro s
    obtain ⟨name, low, high⟩ := r
    unfold search_range
    by_cases h1 : name ∈ specified
    · rw [if_pos h1]
      simp only [true_iff]
      exact ⟨(name, low, high), List.mem_cons_self _ _, Or.inl h1⟩
    · rw [if_neg h1]
      simp only
      by_cases h2 : dims.indexOf name = dims.length
      · rw [if_pos h2]
        simp only [true_iff]
        exact ⟨(name, low, high), List.mem_cons_self _ _, Or.inr h2⟩
      · rw [if_neg h2, ih]
        constructor
        · rintro ⟨r, hm, hk⟩
          exact ⟨r, List.mem_cons_of_mem _ hm, hk⟩
        · rintro ⟨r, hm, hk⟩
          rcases List.mem_cons.mp hm with e | hm
          · subst e
            rcases hk with hk | hk
            · exact absurd hk h1
            · exact absurd hk h2
          · exact ⟨r, hm, hk⟩

/-- Claim C4. For an existing space and any equality and range maps: when some
name occurs in both maps, or some name of either map is not a dimension name of
the space, or some equality name is the name of dimension 0, `search` leaves the
client unchanged (nothing is enqueued, the search id is not consumed) and produces
exactly one event, the callback invoked with `BADSEARCH`, an empty key and an
empty value; in particular nothing is sent. -/
theorem search_badsearch (hx : hyperdex) (s : client) (space : String)
    (equality : List (String × buffer)) (range : List (String × Nat × Nat)) (callback : Nat)
    (subspace_hint : Nat) (connect_ok send_ok : Nat → Bool)
    (hs : s.config.lookup_spaceid space ≠ hx.NULLSPACE)
    (hn : 1 ≤ (s.config.lookup_space_dimensions (s.config.lookup_spaceid space)).length)
    (hbad :
      (∃ name, (∃ v, (name, v) ∈ equality) ∧ (∃ r, (name, r) ∈ range)) ∨
      (∃ name, ((∃ v, (name, v) ∈ equality) ∨ (∃ r, (name, r) ∈ range)) ∧
        name ∉ s.config.lookup_space_dimensions (s.config.lookup_spaceid space)) ∨
      (∃ name, (∃ v, (name, v) ∈ equality) ∧
        (s.config.lookup_space_dimensions (s.config.lookup_spaceid space)).head? =
          some name)) :
    s.search hx space equality range callback subspace_hint connect_ok send_ok =
      some (s, [event.search_callback callback returncode.BADSEARCH [] []]) := by
  unfold client.search
  simp only
  rw [if_neg hs, if_neg (by omega)]
  cases he : search_equality (s.config.lookup_space_dimensions (s.config.lookup_spaceid space))
      equality [] (search.mk (s.config.lookup_space_dimensions
        (s.config.lookup_spaceid space)).length) with
  | none => rfl
  | some r =>
    obtain ⟨specified, s0⟩ := r
    simp only
    cases hr : search_range (s.config.lookup_space_dimensions (s.config.lookup_spaceid space))
        specified range s0 with
    | none => rfl
    | some srch =>
      exfalso
      have hne : ¬ ∃ kv ∈ equality,
          (s.config.lookup_space_dimensions (s.config.lookup_spaceid space)).indexOf kv.1 = 0 ∨
          (s.config.lookup_space_dimensions (s.config.lookup_spaceid space)).indexOf kv.1 =
            (s.config.lookup_space_dimensions (s.config.lookup_spaceid space)).length := by
        rw [← search_equality_none_iff _ equality [] (search.mk _), he]
        simp
      have hnr : ¬ ∃ r ∈ range, r.1 ∈ specified ∨
          (s.config.lookup_space_dimensions (s.config.lookup_spaceid space)).indexOf r.1 =
            (s.config.lookup_space_dimensions (s.config.lookup_spaceid space)).length := by
        rw [← search_range_none_iff _ specified range s0, hr]
        simp
      have hsp := search_equality_specified _ equality [] (search.mk _) _ he
      rcases hbad with ⟨name, ⟨v, hv⟩, ⟨r, hrm⟩⟩ | ⟨name, hmem, hnot⟩ | ⟨name, ⟨v, hv⟩, hhead⟩
      · exact hnr ⟨(name, r), hrm, Or.inl (hsp (name, v) hv)⟩
      · rcases hmem with ⟨v, hv⟩ | ⟨r, hrm⟩
        · exact hne ⟨(name, v), hv, Or.inr (List.indexOf_eq_length.mpr hnot)⟩
        · exact hnr ⟨(name, r), hrm, Or.inr (List.indexOf_eq_length.mpr hnot)⟩
      · refine hne ⟨(name, v), hv, Or.inl ?_⟩
        cases hd : s.config.lookup_space_dimensions (s.config.lookup_spaceid space) with
        | nil => rfl
        | cons d t =>
          rw [hd] at hhead
          simp only [List.head?_cons, Option.some.injEq] at hhead
          subst hhead
          exact List.indexOf_cons_self _ _

/-- Witness for C4: an equality on `id`, the key dimension of the space `users`. -/
theorem search_badsearch_witness :
    (∃ name, (∃ v, (name, v) ∈ [("id", [1])]) ∧
        ((client.init sample_config).config.lookup_space_dimensions
          ((client.init sample_config).config.lookup_spaceid "users")).head? = some name) ∧
      (client.init sample_config).search sample_hyperdex "users" [("id", [1])] [] 7 65535
        (fun _ => true) (fun _ => true) =
        some (client.init sample_config,
          [event.search_callback 7 returncode.BADSEARCH [] []]) :=
  ⟨⟨"id", ⟨[1], by decide⟩, by decide⟩,
   search_badsearch sample_hyperdex (client.init sample_config) "users" [("id", [1])] [] 7
     65535 (fun _ => true) (fun _ => true) (by decide) (by decide)
     (Or.inr (Or.inr ⟨"id", ⟨[1], by decide⟩, by decide⟩))⟩

/-! ## The nonce invariant -/

theorem reduceOption_set_none_sublist (l : List (Option pending)) :
    ∀ i, (l.set i none).reduceOption.Sublist l.reduceOption := by
  induction l with
  | nil => intro i; simp
  | cons x rest ih =>
    intro i
    cases i with
    | zero =>
      cases x with
      | none => simp
      | some op =>
        simp only [List.set_cons_zero, List.reduceOption_cons_of_none,
          List.reduceOption_cons_of_some]
        exact List.sublist_cons_self _ _
    | succ i =>
      cases x with
      | none =>
        simp only [List.set_cons_succ, List.reduceOption_cons_of_none]
        exact ih i
      | some op =>
        simp only [List.set_cons_succ, List.reduceOption_cons_of_some]
        exact (ih i).cons₂ _

theorem mem_live_iff (s : client) (op : pending) :
    op ∈ s.live ↔ some op ∈ s.requests := by
  unfold client.live
  exact List.reduceOption_mem_iff

theorem inv_of_sublist (s s1 : client) (hP : s.inv) (hn : s1.next_chan = s.next_chan)
    (hc : ∀ c, (s.chans c).nonce ≤ (s1.chans c).nonce)
    (ht : ∀ inst p, s1.channels inst = some p → p < s.next_chan)
    (hl : s1.live.Sublist s.live) : s1.inv := by
  obtain ⟨⟨c1, c2, c3⟩, hN⟩ := hP
  refine ⟨⟨by omega, ?_, ?_⟩, ?_⟩
  · intro op hm
    rw [hn]
    exact c2 op (hl.subset hm)
  · intro inst p hp
    rw [hn]
    exact ht inst p hp
  · intro hw
    have hw0 : s.no_wrap := by
      intro c h1 h2
      exact lt_of_le_of_lt (hc c) (hw c h1 (by omega))
    obtain ⟨n1, n2⟩ := hN hw0
    refine ⟨?_, n2.sublist hl⟩
    intro op hm
    exact lt_of_lt_of_le (n1 op (hl.subset hm)) (hc op.chan)

theorem inv_requests (s : client) (reqs : List (Option pending)) (hP : s.inv)
    (hl : reqs.reduceOption.Sublist s.live) : ({ s with requests := reqs } : client).inv :=
  inv_of_sublist s _ hP rfl (fun _ => le_refl _) hP.1.2.2 hl

theorem inv_set_none (s : client) (i : Nat) (hP : s.inv) : (s.set_request i none).inv :=
  inv_of_sublist s _ hP rfl (fun _ => le_refl _) hP.1.2.2
    (reduceOption_set_none_sublist s.requests i)

theorem inv_erase (s : client) (inst : hinstance) (hP : s.inv) : (s.erase inst).inv := by
  refine inv_of_sublist s _ hP rfl (fun _ => le_refl _) ?_ (List.Sublist.refl _)
  intro i p hp
  simp only [client.erase, Function.update_apply] at hp
  split at hp
  · exact absurd hp (by simp)
  · exact hP.1.2.2 i p hp

theorem inv_close (s : client) (chan : Nat) (hP : s.inv) : (s.close chan).inv := by
  refine inv_of_sublist s _ hP rfl ?_ hP.1.2.2 (List.Sublist.refl _)
  intro c
  simp only [client.close, Function.update_apply]
  split
  · subst_vars; exact le_refl _
  · exact le_refl _

theorem inv_learn_id (hx : hyperdex) (s : client) (chan : Nat) (to_ : entityid)
    (hP : s.inv) : (s.learn_id hx chan to_).inv := by
  refine inv_of_sublist s _ hP ?_ ?_ ?_ ?_
  · unfold client.learn_id; split <;> rfl
  · intro c
    unfold client.learn_id
    split
    · simp only [Function.update_apply]
      split
      · subst_vars; exact le_refl _
      · exact le_refl _
    · exact le_refl _
  · intro i p hp
    have : (s.learn_id hx chan to_).channels = s.channels := by
      unfold client.learn_id; split <;> rfl
    rw [this] at hp
    exact hP.1.2.2 i p hp
  · have : (s.learn_id hx chan to_).live = s.live := by
      unfold client.learn_id client.live; split <;> rfl
    rw [this]

theorem inv_take_nonce (s : client) (chan : Nat) (hP : s.inv) : (s.take_nonce chan).1.inv := by
  refine inv_of_sublist s _ hP rfl ?_ hP.1.2.2 (List.Sublist.refl _)
  intro c
  simp only [client.take_nonce, Function.update_apply]
  split
  · subst_vars; exact Nat.le_succ _
  · exact le_refl _

theorem inv_channels_index (s : client) (inst : hinstance) (hP : s.inv) :
    (s.channels_index inst).1.inv ∧ (s.channels_index inst).2 < s.next_chan ∧
    (s.channels_index inst).1.next_chan = s.next_chan ∧
    (s.channels_index inst).1.requests = s.requests := by
  unfold client.channels_index
  cases h : s.channels inst with
  | some p => exact ⟨hP, hP.1.2.2 inst p h, rfl, rfl⟩
  | none =>
    refine ⟨?_, hP.1.1, rfl, rfl⟩
    refine inv_of_sublist s _ hP rfl (fun _ => le_refl _) ?_ (List.Sublist.refl _)
    intro i p hp
    simp only [Function.update_apply] at hp
    split at hp
    · have : p = 0 := by simpa using hp.symm
      rw [this]; exact hP.1.1
    · exact hP.1.2.2 i p hp

theorem inv_new_channel (hx : hyperdex) (s : client) (inst : hinstance) (hP : s.inv) :
    (s.new_channel hx inst).1.inv := by
  obtain ⟨⟨c1, c2, c3⟩, hN⟩ := hP
  refine ⟨⟨?_, ?_, ?_⟩, ?_⟩
  · simp only [client.new_channel]; omega
  · intro op hm
    have := c2 op hm
    simp only [client.new_channel]
    omega
  · intro i p hp
    simp only [client.new_channel, Function.update_apply] at hp ⊢
    split at hp
    · have : p = s.next_chan := by simpa using hp.symm
      omega
    · have := c3 i p hp
      omega
  · intro hw
    have hw0 : s.no_wrap := by
      intro c h1 h2
      have := hw c h1 (by simp only [client.new_channel]; omega)
      simp only [client.new_channel, Function.update_apply] at this
      rw [if_neg (by omega)] at this
      exact this
    obtain ⟨n1, n2⟩ := hN hw0
    refine ⟨?_, n2⟩
    intro op hm
    have h1 := n1 op hm
    have h2 := c2 op hm
    simp only [client.new_channel, Function.update_apply]
    rw [if_neg (by omega)]
    exact h1

theorem inv_enqueue (s : client) (chan : Nat) (op1 : pending) (hP : s.inv) (h1 : 1 ≤ chan)
    (h2 : chan < s.next_chan) (hc : op1.chan = chan)
    (hnonce : op1.nonce = (s.take_nonce chan).2) :
    ({ (s.take_nonce chan).1 with requests := (s.take_nonce chan).1.requests ++ [some op1] }
      : client).inv := by
  obtain ⟨⟨c1, c2, c3⟩, hN⟩ := hP
  have hlive : ({ (s.take_nonce chan).1 with
      requests := (s.take_nonce chan).1.requests ++ [some op1] } : client).live =
      s.live ++ [op1] := by
    simp [client.live, client.take_nonce, List.reduceOption_append]
  refine ⟨⟨c1, ?_, c3⟩, ?_⟩
  · intro op hm
    rw [hlive] at hm
    rcases List.mem_append.mp hm with hm | hm
    · exact c2 op hm
    · have : op = op1 := by simpa using hm
      subst this
      rw [hc]
      exact ⟨h1, h2⟩
  · intro hw
    have hcnt : (s.chans chan).nonce + 1 < 2 ^ 64 := by
      have := hw chan h1 h2
      simpa [client.take_nonce] using this
    have hw0 : s.no_wrap := by
      intro c k1 k2
      have := hw c k1 k2
      simp only [client.take_nonce, Function.update_apply] at this
      split at this
      · subst_vars; omega
      · exact this
    obtain ⟨n1, n2⟩ := hN hw0
    have hn1 : op1.nonce = (s.chans chan).nonce := by
      rw [hnonce]
      simp only [client.take_nonce]
      exact Nat.mod_eq_of_lt (by omega)
    refine ⟨?_, ?_⟩
    · intro op hm
      rw [hlive] at hm
      simp only [client.take_nonce, Function.update_apply]
      rcases List.mem_append.mp hm with hm | hm
      · have := n1 op hm
        by_cases he : op.chan = chan
        · rw [if_pos he]
          rw [he] at this
          simp only
          omega
        · rw [if_neg he]
          exact this
      · have : op = op1 := by simpa using hm
        subst this
        rw [if_pos hc, hn1]
        simp
    · rw [hlive, List.pairwise_append]
      refine ⟨n2, List.pairwise_singleton _ _, ?_⟩
      intro a ha b hb hab
      have : b = op1 := by simpa using hb
      subst this
      have := n1 a ha
      rw [hab, hc] at this
      omega

theorem set_decompose (l : List (Option pending)) :
    ∀ (j : Nat) (x y : Option pending), l[j]? = some x →
      ∃ l1 l2, l = l1 ++ x :: l2 ∧ l.set j y = l1 ++ y :: l2 ∧ l1.length = j := by
  induction l with
  | nil => intro j x y h; simp at h
  | cons a rest ih =>
    intro j x y h
    cases j with
    | zero =>
      simp only [List.getElem?_cons_zero, Option.some.injEq] at h
      subst h
      exact ⟨[], rest, rfl, rfl, rfl⟩
    | succ j =>
      simp only [List.getElem?_cons_succ] at h
      obtain ⟨l1, l2, e1, e2, e3⟩ := ih j x y h
      refine ⟨a :: l1, l2, ?_, ?_, ?_⟩
      · rw [e1]; rfl
      · rw [List.set_cons_succ, e2]; rfl
      · simp [e3]

theorem inv_replace (s : client) (j : Nat) (op : pending) (hP : s.inv)
    (hj : s.requests[j]? = some (some op)) :
    ((s.take_nonce op.chan).1.set_request j
      (some { op with nonce := (s.take_nonce op.chan).2 })).inv := by
  obtain ⟨⟨c1, c2, c3⟩, hN⟩ := hP
  obtain ⟨l1, l2, e1, e2, _⟩ := set_decompose s.requests j (some op)
    (some { op with nonce := (s.take_nonce op.chan).2 }) hj
  have hlive0 : s.live = l1.reduceOption ++ op :: l2.reduceOption := by
    unfold client.live
    rw [e1, List.reduceOption_append, List.reduceOption_cons_of_some]
  have hlive : ((s.take_nonce op.chan).1.set_request j
      (some { op with nonce := (s.take_nonce op.chan).2 })).live =
      l1.reduceOption ++ { op with nonce := (s.take_nonce op.chan).2 } :: l2.reduceOption := by
    show (s.requests.set j (some { op with nonce := (s.take_nonce op.chan).2 })).reduceOption = _
    rw [e2, List.reduceOption_append, List.reduceOption_cons_of_some]
  have hop : op ∈ s.live := by rw [hlive0]; simp
  have hsub : ∀ a, a ∈ l1.reduceOption ∨ a ∈ l2.reduceOption → a ∈ s.live := by
    intro a ha
    rw [hlive0]
    rcases ha with ha | ha
    · exact List.mem_append_left _ ha
    · exact List.mem_append_right _ (List.mem_cons_of_mem _ ha)
  refine ⟨⟨c1, ?_, c3⟩, ?_⟩
  · intro a hm
    rw [hlive] at hm
    rcases List.mem_append.mp hm with hm | hm
    · exact c2 a (hsub a (Or.inl hm))
    · rcases List.mem_cons.mp hm with hm | hm
      · subst hm
        exact c2 op hop
      · exact c2 a (hsub a (Or.inr hm))
  · intro hw
    have hcv := c2 op hop
    have hcnt : (s.chans op.chan).nonce + 1 < 2 ^ 64 := by
      have := hw op.chan hcv.1 hcv.2
      simpa [client.take_nonce, client.set_request] using this
    have hw0 : s.no_wrap := by
      intro c k1 k2
      have := hw c k1 k2
      simp only [client.take_nonce, client.set_request, Function.update_apply] at this
      split at this
      · subst_vars; omega
      · exact this
    obtain ⟨n1, n2⟩ := hN hw0
    have hn1 : (s.take_nonce op.chan).2 = (s.chans op.chan).nonce := by
      simp only [client.take_nonce]
      exact Nat.mod_eq_of_lt (by omega)
    have hcount : ∀ c, (((s.take_nonce op.chan).1.set_request j
        (some { op with nonce := (s.take_nonce op.chan).2 })).chans c).nonce =
        if c = op.chan then (s.chans op.chan).nonce + 1 else (s.chans c).nonce := by
      intro c
      simp only [client.take_nonce, client.set_request, Function.update_apply]
      split
      · subst_vars; rfl
      · rfl
    have hold : ∀ a ∈ s.live, a.chan = op.chan → a.nonce < (s.chans op.chan).nonce := by
      intro a ha hc
      have := n1 a ha
      rw [hc] at this
      exact this
    rw [hlive0, List.pairwise_append, List.pairwise_cons] at n2
    obtain ⟨p1, ⟨_, p3⟩, p4⟩ := n2
    refine ⟨?_, ?_⟩
    · intro a hm
      rw [hlive] at hm
      rw [hcount]
      have hbound : ∀ b ∈ s.live, b.nonce <
          if b.chan = op.chan then (s.chans op.chan).nonce + 1 else (s.chans b.chan).nonce := by
        intro b hb
        have := n1 b hb
        by_cases he : b.chan = op.chan
        · rw [if_pos he]
          rw [he] at this
          omega
        · rw [if_neg he]
          exact this
      rcases List.mem_append.mp hm with hm | hm
      · exact hbound a (hsub a (Or.inl hm))
      · rcases List.mem_cons.mp hm with hm | hm
        · subst hm
          simp only [if_true]
          omega
        · exact hbound a (hsub a (Or.inr hm))
    · rw [hlive, List.pairwise_append, List.pairwise_cons]
      refine ⟨p1, ⟨?_, p3⟩, ?_⟩
      · intro b hb hc
        simp only at hc ⊢
        have := hold b (hsub b (Or.inr hb)) hc.symm
        omega
      · intro a ha b hb
        rcases List.mem_cons.mp hb with hb | hb
        · subst hb
          intro hc
          simp only at hc ⊢
          have := hold a (hsub a (Or.inl ha)) hc
          omega
        · exact p4 a ha b (List.mem_cons_of_mem _ hb)

theorem send_cases (hx : hyperdex) (s : client) (chan : Nat) (op : pending) (ent : entityid)
    (inst : hinstance) (nonce send_type : Nat) (send_msg : buffer) (ok : Bool) :
    ((s.send hx chan op ent inst nonce send_type send_msg ok).2.2 = true ∧
      (s.send hx chan op ent inst nonce send_type send_msg ok).1 = s) ∨
    ((s.send hx chan op ent inst nonce send_type send_msg ok).2.2 = false ∧
      (s.send hx chan op ent inst nonce send_type send_msg ok).1 = s.erase inst) := by
  unfold client.send
  cases ok
  · right; exact ⟨rfl, rfl⟩
  · left; exact ⟨rfl, rfl⟩

theorem result_not_called_back (hx : hyperdex) (s : client) (op : pending) (msg_type : Nat)
    (msg : buffer) (send_ok : Bool)
    (h : (pending.result hx s op msg_type msg send_ok).2.2.1 = false) :
    pending.result hx s op msg_type msg send_ok = (s, none, false, []) := by
  unfold pending.result at h ⊢
  cases hk : op.kind with
  | get callback =>
    rw [hk] at h
    simp only at h ⊢
    exfalso
    revert h
    unfold pending_get.result
    repeat' split
    all_goals simp
  | mutate expected callback =>
    rw [hk] at h
    simp only at h ⊢
    exfalso
    revert h
    unfold pending_mutate.result
    repeat' split
    all_goals simp
  | search searchid callback =>
    rw [hk] at h
    simp only at h ⊢
    revert h
    unfold pending_search.result
    simp only
    repeat' split
    all_goals simp

theorem inv_result (hx : hyperdex) (s : client) (op : pending) (j : Nat) (msg_type : Nat)
    (msg : buffer) (send_ok : Bool) (hP : s.inv) (hj : s.requests[j]? = some (some op)) :
    ((pending.result hx s op msg_type msg send_ok).1.set_request j
      (pending.result hx s op msg_type msg send_ok).2.1).inv := by
  unfold pending.result
  cases hk : op.kind with
  | get callback =>
    simp only
    have : (pending_get.result hx callback msg_type msg).1 = none := by
      unfold pending_get.result
      repeat' split
      all_goals rfl
    rw [this]
    exact inv_set_none s j hP
  | mutate expected callback =>
    simp only
    have : (pending_mutate.result hx expected callback msg_type msg).1 = none := by
      unfold pending_mutate.result
      repeat' split
      all_goals rfl
    rw [this]
    exact inv_set_none s j hP
  | search searchid callback =>
    simp only
    unfold pending_search.result
    by_cases h1 : msg_type = hx.RESP_SEARCH_ITEM
    · rw [if_pos h1]
      cases hx.unpack_buffer msg with
      | none => exact inv_set_none s j hP
      | some r =>
        obtain ⟨key, up⟩ := r
        simp only
        cases hx.unpack_vector up with
        | none => exact inv_set_none s j hP
        | some r2 =>
          obtain ⟨value, rest⟩ := r2
          simp only
          rcases send_cases hx (s.take_nonce op.chan).1 op.chan
            { op with nonce := (s.take_nonce op.chan).2 } op.ent op.inst
            (s.take_nonce op.chan).2 hx.REQ_SEARCH_NEXT (pack_be 8 searchid) send_ok
            with ⟨e1, e2⟩ | ⟨e1, e2⟩
          · rw [e1, e2]
            simp only [if_true]
            exact inv_replace s j op hP hj
          · rw [e1, e2]
            simp only [Bool.false_eq_true, if_false]
            exact inv_set_none _ j (inv_erase _ _ (inv_take_nonce s op.chan hP))
    · rw [if_neg h1]
      split
      · exact inv_set_none s j hP
      · exact inv_set_none s j hP

theorem deliver_inv (hx : hyperdex) (chan : Nat) (h : header) (msg : buffer) (send_ok : Bool) :
    ∀ (fuel j : Nat) (s : client), s.inv →
      (client.deliver hx chan h msg send_ok fuel j s).1.inv := by
  intro fuel
  induction fuel with
  | zero => intro j s hP; exact hP
  | succ fuel ih =>
    intro j s hP
    unfold client.deliver
    cases hj : s.requests.get? j with
    | none => exact hP
    | some r =>
      cases r with
      | none => exact ih (j + 1) s hP
      | some op =>
        simp only
        have hj1 : s.requests[j]? = some (some op) := by simpa using hj
        have hr := inv_result hx s op j h.type msg send_ok hP hj1
        split
        · split
          · exact hr
          · exact ih (j + 1) _ hr
        · exact ih (j + 1) s hP

theorem inv_disconnect (s : client) (i : Nat) (op : pending) (b : Bool) (hP : s.inv) :
    (s.disconnect i op b).1.inv := by
  unfold client.disconnect
  cases b
  · exact inv_set_none s i hP
  · exact inv_set_none _ i (inv_erase _ _ (inv_close s op.chan hP))

theorem flush_scan_inv (hx : hyperdex) (env : flush_env) :
    ∀ (fuel i : Nat) (s : client), s.inv → (client.flush_scan hx env fuel i s).1.inv := by
  intro fuel
  induction fuel with
  | zero => intro i s hP; exact hP
  | succ fuel ih =>
    intro i s hP
    unfold client.flush_scan
    cases hi : s.requests.getD i none with
    | none => exact ih (i + 1) s hP
    | some op =>
      simp only
      split
      · exact inv_disconnect s i op true hP
      · split
        · exact inv_set_none s i hP
        · split
          · exact ih (i + 1) s hP
          · split
            · exact inv_disconnect s i op false hP
            · split
              · exact ih (i + 1) s hP
              · exact inv_disconnect s i op true hP
              · split
                · exact ih (i + 1) s hP
                · split
                  · exact inv_disconnect s i op true hP
                  · split
                    · exact inv_disconnect s i op true hP
                    · rename_i hdr msg heq
                      have hd := deliver_inv hx op.chan hdr msg env.send_ok
                        (s.learn_id hx op.chan hdr.to_).requests.length 0 _
                        (inv_learn_id hx s op.chan hdr.to_ hP)
                      split
                      · exact hd
                      · exact ih (i + 1) _ hd

theorem pop_null_front_live (reqs : List (Option pending)) :
    (pop_null_front reqs).reduceOption = reqs.reduceOption := by
  induction reqs with
  | nil => rfl
  | cons x rest ih =>
    cases x with
    | none =>
      rw [pop_null_front, List.reduceOption_cons_of_none]
      exact ih
    | some op => rfl

theorem timeout_front_sublist (reqs : List (Option pending)) :
    (timeout_front reqs).1.reduceOption.Sublist reqs.reduceOption := by
  induction reqs with
  | nil => exact List.Sublist.refl _
  | cons x rest ih =>
    cases x with
    | none =>
      rw [timeout_front, List.reduceOption_cons_of_none]
      exact ih
    | some op =>
      rw [timeout_front, List.reduceOption_cons_of_some]
      exact List.sublist_cons_self _ _

theorem inv_pop_null_front (s : client) (hP : s.inv) :
    ({ s with requests := pop_null_front s.requests } : client).inv := by
  refine inv_requests s _ hP ?_
  rw [pop_null_front_live]
  exact List.Sublist.refl _

theorem mark_reconfigured_live (config : configuration) (reqs : List (Option pending)) :
    (mark_reconfigured config reqs).reduceOption =
      reqs.reduceOption.map (fun op =>
        if config.instancefor op.ent ≠ op.inst then { op with reconfigured := true } else op) := by
  induction reqs with
  | nil => rfl
  | cons x rest ih =>
    cases x with
    | none =>
      simp only [mark_reconfigured, List.map_cons, Option.map_none',
        List.reduceOption_cons_of_none] at ih ⊢
      exact ih
    | some op =>
      simp only [mark_reconfigured, List.map_cons, Option.map_some',
        List.reduceOption_cons_of_some] at ih ⊢
      rw [ih]

theorem inv_mark_reconfigured (s : client) (config : configuration) (hP : s.inv) :
    ({ s with config := config, requests := mark_reconfigured config s.requests } : client).inv := by
  obtain ⟨⟨c1, c2, c3⟩, hN⟩ := hP
  have hlive :
      ({ s with config := config, requests := mark_reconfigured config s.requests } : client).live =
      s.live.map (fun op =>
        if config.instancefor op.ent ≠ op.inst then { op with reconfigured := true } else op) :=
    mark_reconfigured_live config s.requests
  have hf : ∀ op : pending,
      (if config.instancefor op.ent ≠ op.inst then { op with reconfigured := true } else op).chan
        = op.chan ∧
      (if config.instancefor op.ent ≠ op.inst then { op with reconfigured := true } else op).nonce
        = op.nonce := by
    intro op
    split <;> exact ⟨rfl, rfl⟩
  refine ⟨⟨c1, ?_, c3⟩, ?_⟩
  · intro op hm
    rw [hlive] at hm
    obtain ⟨a, ha, rfl⟩ := List.mem_map.mp hm
    rw [(hf a).1]
    exact c2 a ha
  · intro hw
    obtain ⟨n1, n2⟩ := hN hw
    refine ⟨?_, ?_⟩
    · intro op hm
      rw [hlive] at hm
      obtain ⟨a, ha, rfl⟩ := List.mem_map.mp hm
      rw [(hf a).1, (hf a).2]
      exact n1 a ha
    · rw [hlive, List.pairwise_map]
      refine n2.imp ?_
      intro a b hab
      rw [(hf a).1, (hf a).2, (hf b).1, (hf b).2]
      exact hab

theorem flush_iteration_inv (hx : hyperdex) (s : client) (timeout : Int) (env : flush_env)
    (hP : s.inv) : (s.flush_iteration hx timeout env).1.inv := by
  unfold client.flush_iteration
  split
  · exact hP
  · simp only
    split
    · exact hP
    · split
      · exact inv_requests s _ hP (timeout_front_sublist s.requests)
      · split
        · exact hP
        · split
          · exact hP
          · split
            · exact inv_mark_reconfigured s _ hP
            · exact flush_scan_inv hx env _ 0 s hP

theorem flush_one_inv (hx : hyperdex) (timeout : Int) :
    ∀ (envs : List flush_env) (s s1 : client) (evs : List event) (ret : returncode),
      s.inv → s.flush_one hx timeout envs = some (s1, evs, ret) → s1.inv := by
  intro envs
  induction envs with
  | nil =>
    intro s s1 evs ret hP h
    unfold client.flush_one at h
    split at h
    · simp only [Option.some.injEq, Prod.mk.injEq] at h
      rw [← h.1]
      exact inv_pop_null_front s hP
    · exact absurd h (by simp)
  | cons env envs ih =>
    intro s s1 evs ret hP h
    unfold client.flush_one at h
    split at h
    · simp only [Option.some.injEq, Prod.mk.injEq] at h
      rw [← h.1]
      exact inv_pop_null_front s hP
    · have hi := flush_iteration_inv hx _ timeout env (inv_pop_null_front s hP)
      simp only at h
      split at h
      · simp only [Option.some.injEq, Prod.mk.injEq] at h
        rw [← h.1]
        exact hi
      · split at h
        · exact absurd h (by simp)
        · rename_i s2 evs2 ret2 h2
          simp only [Option.some.injEq, Prod.mk.injEq] at h
          rw [← h.1]
          exact ih _ s2 evs2 ret2 hi h2

theorem flush_loop_inv (hx : hyperdex) (original_timeout : Int) :
    ∀ (script : List (List flush_env × Int)) (timeout : Int) (s s1 : client)
      (evs : List event) (ret : returncode),
      s.inv → client.flush_loop hx original_timeout script timeout s = some (s1, evs, ret) →
      s1.inv := by
  intro script
  induction script with
  | nil =>
    intro timeout s s1 evs ret hP h
    unfold client.flush_loop at h
    split at h
    · simp only [Option.some.injEq, Prod.mk.injEq] at h
      rw [← h.1]
      exact hP
    · exact absurd h (by simp)
  | cons x script ih =>
    intro timeout s s1 evs ret hP h
    obtain ⟨envs, peek_ms⟩ := x
    unfold client.flush_loop at h
    split at h
    · simp only [Option.some.injEq, Prod.mk.injEq] at h
      rw [← h.1]
      exact hP
    · split at h
      · exact absurd h (by simp)
      · rename_i s2 evs2 ret2 h2
        have hP2 := flush_one_inv hx timeout envs s s2 evs2 ret2 hP h2
        by_cases hc : ret2 ≠ returncode.SUCCESS ∧ ret2 ≠ returncode.TIMEOUT
        · rw [if_pos hc] at h
          simp only [Option.some.injEq, Prod.mk.injEq] at h
          rw [← h.1]
          exact hP2
        · rw [if_neg hc] at h
          simp only at h
          by_cases hr : (if timeout ≥ 0 ∧
              (if timeout ≥ 0 then original_timeout - peek_ms else timeout) < 0
              then returncode.TIMEOUT else ret2) = returncode.TIMEOUT
          · rw [if_pos hr] at h
            simp only [Option.some.injEq, Prod.mk.injEq] at h
            rw [← h.1]
            exact inv_requests s2 [] hP2 (by simp)
          · rw [if_neg hr] at h
            split at h
            · exact absurd h (by simp)
            · rename_i s3 evs3 ret3 h3
              simp only [Option.some.injEq, Prod.mk.injEq] at h
              rw [← h.1]
              exact ih _ s2 s3 evs3 ret3 hP2 h3

theorem add_reqrep_inv (hx : hyperdex) (s : client) (space : String) (key : buffer)
    (send_type : Nat) (send_msg : buffer) (op : pending) (connect_ok send_ok : Bool)
    (hP : s.inv) :
    (s.add_reqrep hx space key send_type send_msg op connect_ok send_ok).1.inv := by
  unfold client.add_reqrep
  simp only
  split
  · exact hP
  · split
    · exact hP
    · rename_i dst_ent dst_inst hpl
      obtain ⟨i1, i2, i3, i4⟩ := inv_channels_index s dst_inst hP
      rcases hci : s.channels_index dst_inst with ⟨s1, chan0⟩
      rw [hci] at i1 i2 i3 i4
      simp only at i1 i2 i3 i4 ⊢
      split
      · exact i1
      · have hX : (if chan0 = 0 then client.new_channel hx s1 dst_inst else (s1, chan0)).1.inv ∧
            1 ≤ (if chan0 = 0 then client.new_channel hx s1 dst_inst else (s1, chan0)).2 ∧
            (if chan0 = 0 then client.new_channel hx s1 dst_inst else (s1, chan0)).2 <
              (if chan0 = 0 then client.new_channel hx s1 dst_inst else (s1, chan0)).1.next_chan := by
          by_cases h0 : chan0 = 0
          · rw [if_pos h0]
            refine ⟨inv_new_channel hx s1 dst_inst i1, ?_, ?_⟩
            · exact i1.1.1
            · simp [client.new_channel]
          · rw [if_neg h0]
            exact ⟨i1, by omega, by simp only; omega⟩
        generalize (if chan0 = 0 then client.new_channel hx s1 dst_inst else (s1, chan0)) = X
          at hX ⊢
        obtain ⟨s2, chan⟩ := X
        simp only at hX ⊢
        obtain ⟨j1, j2, j3⟩ := hX
        have henq := inv_enqueue s2 chan
          { op with chan := chan, ent := dst_ent, inst := dst_inst,
                    nonce := (s2.take_nonce chan).2 } j1 j2 j3 rfl rfl
        cases send_ok
        · simp only [client.send, Bool.false_eq_true, if_false]
          refine inv_of_sublist s2 _ j1 rfl ?_ ?_ ?_
          · intro c
            simp only [client.erase, client.take_nonce, Function.update_apply]
            split
            · subst_vars; exact Nat.le_succ _
            · exact le_refl _
          · intro i p hp
            simp only [client.erase, client.take_nonce, Function.update_apply] at hp
            split at hp
            · exact absurd hp (by simp)
            · exact j1.1.2.2 i p hp
          · simp only [client.live, client.erase, client.take_nonce, List.dropLast_concat]
            exact List.Sublist.refl _
        · simp only [client.send, if_true]
          exact henq

theorem search_loop_inv (hx : hyperdex) (searchid callback : Nat) (req : buffer)
    (connect_ok send_ok : Nat → Bool) :
    ∀ (ents : List (entityid × hinstance)) (k : Nat) (s : client), s.inv →
      (client.search_loop hx searchid callback req connect_ok send_ok ents k s).1.inv := by
  intro ents
  induction ents with
  | nil => intro k s hP; exact hP
  | cons e rest ih =>
    intro k s hP
    obtain ⟨ent, inst⟩ := e
    unfold client.search_loop
    obtain ⟨i1, i2, i3, i4⟩ := inv_channels_index s inst hP
    rcases hci : s.channels_index inst with ⟨s1, chan0⟩
    rw [hci] at i1 i2 i3 i4
    simp only at i1 i2 i3 i4 ⊢
    split
    · apply ih
      refine inv_requests s1 _ i1 ?_
      rw [List.dropLast_concat]
      exact List.Sublist.refl _
    · apply ih
      have hX : ∃ (s2 : client) (chan : Nat), s2.inv ∧ 1 ≤ chan ∧ chan < s2.next_chan ∧
          (if chan0 = 0 then
            client.new_channel hx { s1 with requests := s1.requests ++
              [some (pending.new (pending_kind.search searchid callback))] } inst
          else ({ s1 with requests := s1.requests ++
              [some (pending.new (pending_kind.search searchid callback))] }, chan0)) =
            ({ s2 with requests := s2.requests ++
              [some (pending.new (pending_kind.search searchid callback))] }, chan) := by
        by_cases h0 : chan0 = 0
        · rw [if_pos h0]
          exact ⟨(s1.new_channel hx inst).1, s1.next_chan, inv_new_channel hx s1 inst i1,
            i1.1.1, by simp [client.new_channel], rfl⟩
        · rw [if_neg h0]
          exact ⟨s1, chan0, i1, by omega, by omega, rfl⟩
      obtain ⟨s2, chan, j1, j2, j3, e⟩ := hX
      rw [e]
      simp only
      have henq := inv_enqueue s2 chan
        { pending.new (pending_kind.search searchid callback) with
            chan := chan, ent := ent, inst := inst, nonce := (s2.take_nonce chan).2 }
        j1 j2 j3 rfl rfl
      cases send_ok k
      · simp only [client.send, Bool.false_eq_true, if_false]
        refine inv_of_sublist s2 _ j1 rfl ?_ ?_ ?_
        · intro c
          simp only [client.erase, client.take_nonce, Function.update_apply]
          split
          · subst_vars; exact Nat.le_succ _
          · exact le_refl _
        · intro i p hp
          simp only [client.erase, client.take_nonce, Function.update_apply] at hp
          split at hp
          · exact absurd hp (by simp)
          · exact j1.1.2.2 i p hp
        · simp only [client.live, client.erase, client.take_nonce, List.dropLast_concat]
          exact List.Sublist.refl _
      · simp only [client.send, if_true]
        simp only [client.take_nonce, List.dropLast_concat] at henq ⊢
        exact henq

theorem outstanding_loop_live (reqs : List (Option pending)) :
    (outstanding_loop reqs).1.reduceOption = reqs.reduceOption := by
  induction reqs with
  | nil => rfl
  | cons x rest ih =>
    cases x with
    | none =>
      rw [outstanding_loop, List.reduceOption_cons_of_none]
      exact ih
    | some op =>
      rw [outstanding_loop]
      simp only [List.reduceOption_cons_of_some]
      rw [ih]

theorem connect_loop_inv (s : client) :
    ∀ (loops : List (coordinatorlink.returncode × Option configuration)) (s1 : client)
      (ret : returncode), s.inv → client.connect_loop s loops = some (s1, ret) → s1.inv := by
  intro loops
  induction loops with
  | nil => intro s1 ret _ h; simp [client.connect_loop] at h
  | cons x rest ih =>
    intro s1 ret hP h
    obtain ⟨rc, cfg⟩ := x
    cases rc <;> cases cfg <;> simp only [client.connect_loop, Option.some.injEq,
      Prod.mk.injEq] at h
    all_goals first
      | exact ih s1 ret hP h
      | (rw [← h.1]; exact hP)

theorem update_inv (hx : hyperdex) (s s1 : client) (evs : List event) (space : String)
    (key : buffer) (value : List (String × buffer)) (callback : Nat) (c1 c2 : Bool)
    (hP : s.inv) (h : s.update hx space key value callback c1 c2 = some (s1, evs)) :
    s1.inv := by
  unfold client.update at h
  simp only at h
  split at h
  · simp only [Option.some.injEq, Prod.mk.injEq] at h
    rw [← h.1]; exact hP
  · split at h
    · exact absurd h (by simp)
    · split at h
      · simp only [Option.some.injEq, Prod.mk.injEq] at h
        rw [← h.1]; exact hP
      · simp only [Option.some.injEq] at h
        have := add_reqrep_inv hx s space key hx.REQ_UPDATE
          (update_msg hx key (update_encode
            (s.config.lookup_space_dimensions (s.config.lookup_spaceid space)) value))
          (pending.new (pending_kind.mutate hx.RESP_UPDATE callback)) c1 c2 hP
        rw [h] at this
        exact this

theorem search_inv (hx : hyperdex) (s s1 : client) (evs : List event) (space : String)
    (equality : List (String × buffer)) (range : List (String × Nat × Nat)) (callback : Nat)
    (hint : Nat) (c1 c2 : Nat → Bool) (hP : s.inv)
    (h : s.search hx space equality range callback hint c1 c2 = some (s1, evs)) :
    s1.inv := by
  unfold client.search at h
  simp only at h
  split at h
  · simp only [Option.some.injEq, Prod.mk.injEq] at h
    rw [← h.1]; exact hP
  · split at h
    · exact absurd h (by simp)
    · split at h
      · simp only [Option.some.injEq, Prod.mk.injEq] at h
        rw [← h.1]; exact hP
      · split at h
        · simp only [Option.some.injEq, Prod.mk.injEq] at h
          rw [← h.1]; exact hP
        · simp only [Option.some.injEq] at h
          rename_i srch _
          have := search_loop_inv hx s.searchid callback
            (pack_be 8 s.searchid ++ hx.pack_search srch) c1 c2
            (if hint = 65535 then s.config.search_entities (s.config.lookup_spaceid space) srch
             else s.config.search_entities_subspace (s.config.lookup_spaceid space) hint srch)
            0 { s with searchid := (s.searchid + 1) % 2 ^ 64 }
            (inv_of_sublist s _ hP rfl (fun _ => le_refl _) hP.1.2.2 (List.Sublist.refl _))
          rw [h] at this
          exact this

theorem reachable_inv (hx : hyperdex) (s : client) (hr : Reachable hx s) : s.inv := by
  induction hr with
  | init config =>
    refine ⟨⟨le_refl _, ?_, ?_⟩, ?_⟩
    · intro op hm; simp [client.live, client.init] at hm
    · intro i p hp; simp [client.init] at hp
    · intro _
      refine ⟨?_, ?_⟩
      · intro op hm; simp [client.live, client.init] at hm
      · simp [client.live, client.init]
  | connect env _ h ih =>
    unfold client.connect at h
    split at h
    · exact connect_loop_inv _ _ _ _ ih h
    · simp only [Option.some.injEq, Prod.mk.injEq] at h
      rw [← h.1]; exact ih
    · simp only [Option.some.injEq, Prod.mk.injEq] at h
      rw [← h.1]; exact ih
  | get space key callback c1 c2 _ ih => exact add_reqrep_inv hx _ _ _ _ _ _ _ _ ih
  | put space key value callback c1 c2 _ ih => exact add_reqrep_inv hx _ _ _ _ _ _ _ _ ih
  | del space key callback c1 c2 _ ih => exact add_reqrep_inv hx _ _ _ _ _ _ _ _ ih
  | update space key value callback c1 c2 _ h ih =>
    exact update_inv hx _ _ _ space key value callback c1 c2 ih h
  | search space equality range callback hint c1 c2 _ h ih =>
    exact search_inv hx _ _ _ space equality range callback hint c1 c2 ih h
  | outstanding _ ih =>
    refine inv_requests _ _ ih ?_
    rw [outstanding_loop_live]
    exact List.Sublist.refl _
  | flush_one timeout envs _ h ih => exact flush_one_inv hx timeout envs _ _ _ _ ih h
  | flush timeout script _ h ih => exact flush_loop_inv hx timeout script timeout _ _ _ _ ih h

theorem pumping_inv (hx : hyperdex) (s : client) (hp : Pumping hx s) : s.inv := by
  induction hp with
  | enter hr => exact inv_pop_null_front _ (reachable_inv hx _ hr)
  | again _ ih => exact inv_pop_null_front _ ih
  | reconfigured config _ ih => exact inv_mark_reconfigured _ config ih
  | scanned env fuel i _ ih => exact flush_scan_inv hx env fuel i _ ih

theorem pairwise_reduceOption_index (R : pending → pending → Prop)
    (l : List (Option pending)) (hp : l.reduceOption.Pairwise R) :
    ∀ (i j : Nat) (a b : pending), i < j → l[i]? = some (some a) → l[j]? = some (some b) →
      R a b := by
  induction l with
  | nil => intro i j a b _ h; simp at h
  | cons x rest ih =>
    intro i j a b hij hi hj
    obtain ⟨j1, rfl⟩ : ∃ j1, j = j1 + 1 := ⟨j - 1, by omega⟩
    simp only [List.getElem?_cons_succ] at hj
    have hrest : rest.reduceOption.Pairwise R := by
      cases x with
      | none => simpa using hp
      | some op =>
        rw [List.reduceOption_cons_of_some, List.pairwise_cons] at hp
        exact hp.2
    cases i with
    | zero =>
      simp only [List.getElem?_cons_zero, Option.some.injEq] at hi
      subst hi
      rw [List.reduceOption_cons_of_some, List.pairwise_cons] at hp
      refine hp.1 b ?_
      rw [List.reduceOption_mem_iff]
      exact List.getElem?_mem hj
    | succ i1 =>
      simp only [List.getElem?_cons_succ] at hi
      exact ih hrest i1 j1 a b (by omega) hi hj

theorem nonce_inv_index (s : client) (hn : s.nonce_inv) :
    (∀ (i : Nat) (op : pending), s.requests[i]? = some (some op) →
      op.nonce < (s.chans op.chan).nonce) ∧
    (∀ (i j : Nat) (op1 op2 : pending), i ≠ j → s.requests[i]? = some (some op1) →
      s.requests[j]? = some (some op2) → op1.chan = op2.chan → op1.nonce ≠ op2.nonce) := by
  obtain ⟨n1, n2⟩ := hn
  refine ⟨?_, ?_⟩
  · intro i op hi
    refine n1 op ?_
    rw [mem_live_iff]
    exact List.getElem?_mem hi
  · intro i j op1 op2 hij hi hj hc
    rcases Nat.lt_or_gt_of_ne hij with hlt | hgt
    · exact pairwise_reduceOption_index _ s.requests n2 i j op1 op2 hlt hi hj hc
    · exact fun e =>
        pairwise_reduceOption_index _ s.requests n2 j i op2 op1 hgt hj hi hc.symm e.symm

/-- Claim C9. In every client state reachable through the public operations in
which no channel counter has wrapped, every live op's nonce is strictly below the
counter of its channel and two live ops in different slots of the pending queue
that share a channel have different nonces. A new channel starts with counter 1,
and taking a nonce on an existing channel yields the counter and increments it. -/
theorem nonce_uniqueness (hx : hyperdex) (s : client) (hr : Reachable hx s)
    (hw : s.no_wrap) :
    (∀ (i : Nat) (op : pending), s.requests[i]? = some (some op) →
      op.nonce < (s.chans op.chan).nonce) ∧
    (∀ (i j : Nat) (op1 op2 : pending), i ≠ j → s.requests[i]? = some (some op1) →
      s.requests[j]? = some (some op2) → op1.chan = op2.chan → op1.nonce ≠ op2.nonce) ∧
    (∀ inst, ((s.new_channel hx inst).1.chans (s.new_channel hx inst).2).nonce = 1) ∧
    (∀ chan, 1 ≤ chan → chan < s.next_chan →
      (s.take_nonce chan).2 = (s.chans chan).nonce ∧
      ((s.take_nonce chan).1.chans chan).nonce = (s.chans chan).nonce + 1) := by
  obtain ⟨a, b⟩ := nonce_inv_index s ((reachable_inv hx s hr).2 hw)
  refine ⟨a, b, ?_, ?_⟩
  · intro inst
    simp [client.new_channel]
  · intro chan h1 h2
    refine ⟨?_, ?_⟩
    · simp only [client.take_nonce]
      exact Nat.mod_eq_of_lt (hw chan h1 h2)
    · simp [client.take_nonce]

theorem deliver_no_match (hx : hyperdex) (chan : Nat) (h : header) (msg : buffer)
    (send_ok : Bool) :
    ∀ (fuel j : Nat) (s : client),
      (∀ (k : Nat) (op : pending), j ≤ k → s.requests[k]? = some (some op) →
        ¬ s.matches chan h op) →
      client.deliver hx chan h msg send_ok fuel j s = (s, [], false, []) := by
  intro fuel
  induction fuel with
  | zero => intro j s _; rfl
  | succ fuel ih =>
    intro j s hno
    unfold client.deliver
    cases hj : s.requests.get? j with
    | none => rfl
    | some r =>
      have hnext : ∀ (k : Nat) (op : pending), j + 1 ≤ k → s.requests[k]? = some (some op) →
          ¬ s.matches chan h op := fun k op hk => hno k op (by omega)
      cases r with
      | none => exact ih (j + 1) s hnext
      | some op =>
        simp only
        have hj1 : s.requests[j]? = some (some op) := by simpa using hj
        rw [if_neg (hno j op (le_refl _) hj1)]
        exact ih (j + 1) s hnext

theorem deliver_at_most_one (hx : hyperdex) (chan : Nat) (h : header) (msg : buffer)
    (send_ok : Bool) (s : client)
    (hu : ∀ (i j : Nat) (op1 op2 : pending), i ≠ j → s.requests[i]? = some (some op1) →
      s.requests[j]? = some (some op2) → op1.chan = op2.chan → op1.nonce ≠ op2.nonce) :
    ∀ (fuel j : Nat), (client.deliver hx chan h msg send_ok fuel j s).2.2.2.length ≤ 1 := by
  intro fuel
  induction fuel with
  | zero => intro j; simp [client.deliver]
  | succ fuel ih =>
    intro j
    unfold client.deliver
    cases hj : s.requests.get? j with
    | none => simp
    | some r =>
      cases r with
      | none => exact ih (j + 1)
      | some op =>
        simp only
        have hj1 : s.requests[j]? = some (some op) := by simpa using hj
        by_cases hm : s.matches chan h op
        · rw [if_pos hm]
          cases hc : (pending.result hx s op h.type msg send_ok).2.2.1 with
          | true => simp
          | false =>
            have hr := result_not_called_back hx s op h.type msg send_ok hc
            rw [hr]
            simp only [Bool.false_eq_true, if_false, List.length_cons]
            have hnone := deliver_no_match hx chan h msg send_ok fuel (j + 1)
              (s.set_request j none) (by
                intro k op2 hk hk2 hm2
                have hk3 : s.requests[k]? = some (some op2) := by
                  simp only [client.set_request] at hk2
                  rw [List.getElem?_set_ne (by omega)] at hk2
                  exact hk2
                have hm3 : s.matches chan h op2 := hm2
                have e1 : op.chan = op2.chan := hm.1.symm.trans hm3.1
                have e2 : op.nonce = op2.nonce :=
                  hm.2.2.2.2.2.symm.trans hm3.2.2.2.2.2
                exact hu j k op op2 (by omega) hj1 hk3 e1 e2)
            rw [hnone]
            simp
        · rw [if_neg hm]
          exact ih (j + 1)

theorem no_wrap_learn_id (hx : hyperdex) (s : client) (chan : Nat) (to_ : entityid)
    (hw : s.no_wrap) : (s.learn_id hx chan to_).no_wrap := by
  intro c h1 h2
  unfold client.learn_id at h2 ⊢
  split
  · rename_i hc
    rw [if_pos hc] at h2
    simp only [Function.update_apply]
    split
    · subst_vars; exact hw _ h1 h2
    · exact hw c h1 h2
  · rename_i hc
    rw [if_neg hc] at h2
    exact hw c h1 h2

/-- Claim C10. While `flush_one` runs from a reachable state in which no channel
counter has wrapped, the matching scan hands a frame it has read on a channel to
the response handler of at most one pending op; and when no live op on that
channel agrees with the frame on version, entity, channel id and nonce, the scan
returns the state it was given with no event, no handler having called back and no
slot touched: the frame is dropped silently. -/
theorem response_matching (hx : hyperdex) (s : client) (hp : Pumping hx s)
    (hw : s.no_wrap) (chan : Nat) (h : header) (msg : buffer) (send_ok : Bool) :
    (client.deliver hx chan h msg send_ok (s.learn_id hx chan h.to_).requests.length 0
        (s.learn_id hx chan h.to_)).2.2.2.length ≤ 1 ∧
    ((∀ op ∈ (s.learn_id hx chan h.to_).live,
        ¬ (s.learn_id hx chan h.to_).matches chan h op) →
      client.deliver hx chan h msg send_ok (s.learn_id hx chan h.to_).requests.length 0
        (s.learn_id hx chan h.to_) = (s.learn_id hx chan h.to_, [], false, [])) := by
  have hinv := inv_learn_id hx s chan h.to_ (pumping_inv hx s hp)
  have hn := hinv.2 (no_wrap_learn_id hx s chan h.to_ hw)
  refine ⟨?_, ?_⟩
  · exact deliver_at_most_one hx chan h msg send_ok _ (nonce_inv_index _ hn).2 _ 0
  · intro hno
    refine deliver_no_match hx chan h msg send_ok _ 0 _ ?_
    intro k op _ hk
    refine hno op ?_
    rw [mem_live_iff]
    exact List.getElem?_mem hk

/-- Witness for C9: after two `get` requests to the same instance the two live ops
share channel 1 and hold nonces 1 and 2. -/
theorem nonce_uniqueness_witness :
    Reachable sample_hyperdex sample_client ∧ sample_client.no_wrap ∧
      (∀ (i j : Nat) (op1 op2 : pending), i ≠ j →
        sample_client.requests[i]? = some (some op1) →
        sample_client.requests[j]? = some (some op2) → op1.chan = op2.chan →
        op1.nonce ≠ op2.nonce) :=
  have hr : Reachable sample_hyperdex sample_client :=
    Reachable.get "users" [43] 8 true true
      (Reachable.get "users" [42] 7 true true (Reachable.init sample_config))
  have hw : sample_client.no_wrap := by
    intro c h1 h2
    have hn : sample_client.next_chan = 2 := by decide
    rw [hn] at h2
    have hc : c = 1 := by omega
    subst hc
    decide
  ⟨hr, hw, (nonce_uniqueness sample_hyperdex sample_client hr hw).2.1⟩

/-- Witness for C10: a `RESP_GET` frame carrying nonce 2 arrives on channel 1 while
the two `get` requests of `sample_client` are pending. -/
theorem response_matching_witness :
    Pumping sample_hyperdex sample_pump ∧ sample_pump.no_wrap ∧
      (client.deliver sample_hyperdex 1 ⟨9, 3, 0, 5, 99, 2⟩ [32, 129] true
        (sample_pump.learn_id sample_hyperdex 1 99).requests.length 0
        (sample_pump.learn_id sample_hyperdex 1 99)).2.2.2.length ≤ 1 :=
  have hp : Pumping sample_hyperdex sample_pump :=
    Pumping.enter (Reachable.get "users" [43] 8 true true
      (Reachable.get "users" [42] 7 true true (Reachable.init sample_config)))
  have hw : sample_pump.no_wrap := by
    intro c h1 h2
    have hn : sample_pump.next_chan = 2 := by decide
    rw [hn] at h2
    have hc : c = 1 := by omega
    subst hc
    decide
  ⟨hp, hw, (response_matching sample_hyperdex sample_pump hp hw 1 ⟨9, 3, 0, 5, 99, 2⟩
    [32, 129] true).1⟩

/-! ## Dispatch: the outcomes of `add_reqrep` -/

theorem add_reqrep_cases (hx : hyperdex) (s : client) (space : String) (key : buffer)
    (send_type : Nat) (send_msg : buffer) (op : pending) (connect_ok send_ok : Bool) :
    s.add_reqrep hx space key send_type send_msg op connect_ok send_ok =
        (s, [op.result_rc returncode.NOTASPACE]) ∨
    s.add_reqrep hx space key send_type send_msg op connect_ok send_ok =
        (s, [op.result_rc returncode.CONNECTFAIL]) ∨
    ∃ dst_ent dst_inst,
      s.add_reqrep hx space key send_type send_msg op connect_ok send_ok =
          ((s.channels_index dst_inst).1, [op.result_rc returncode.CONNECTFAIL]) ∨
      (∃ packed, s.add_reqrep hx space key send_type send_msg op connect_ok send_ok =
        ({ ((s.obtain hx dst_inst).1.take_nonce (s.obtain hx dst_inst).2).1 with
            requests := (s.obtain hx dst_inst).1.requests ++
              [some { op with chan := (s.obtain hx dst_inst).2, ent := dst_ent, inst := dst_inst,
                              nonce := ((s.obtain hx dst_inst).1.take_nonce
                                (s.obtain hx dst_inst).2).2 }] },
          [event.xsend (s.obtain hx dst_inst).2 packed true])) ∨
      (∃ packed, s.add_reqrep hx space key send_type send_msg op connect_ok send_ok =
        (((s.obtain hx dst_inst).1.take_nonce (s.obtain hx dst_inst).2).1.erase dst_inst,
          [event.xsend (s.obtain hx dst_inst).2 packed false,
            op.result_rc returncode.DISCONNECT])) := by
  unfold client.add_reqrep
  simp only
  split
  · left; rfl
  · split
    · right; left; rfl
    · rename_i dst_ent dst_inst hpl
      right; right
      refine ⟨dst_ent, dst_inst, ?_⟩
      have hob : s.obtain hx dst_inst =
          (if (s.channels_index dst_inst).2 = 0 then
            (s.channels_index dst_inst).1.new_channel hx dst_inst
          else ((s.channels_index dst_inst).1, (s.channels_index dst_inst).2)) := rfl
      rcases hci : s.channels_index dst_inst with ⟨s1, chan0⟩
      rw [hci] at hob
      simp only at hob ⊢
      split
      · left; rfl
      · right
        rw [← hob]
        generalize s.obtain hx dst_inst = X
        obtain ⟨s2, chan⟩ := X
        cases send_ok
        · right
          simp only [client.send, Bool.false_eq_true, if_false, client.erase,
            List.dropLast_concat]
          exact ⟨_, rfl⟩
        · left
          simp only [client.send, if_true]
          exact ⟨_, rfl⟩

theorem add_reqrep_no_baddimension (hx : hyperdex) (s : client) (space : String)
    (key : buffer) (send_type : Nat) (send_msg : buffer) (expected callback : Nat)
    (connect_ok send_ok : Bool) :
    event.mutate_callback callback returncode.BADDIMENSION ∉
      (s.add_reqrep hx space key send_type send_msg
        (pending.new (pending_kind.mutate expected callback)) connect_ok send_ok).2 := by
  rcases add_reqrep_cases hx s space key send_type send_msg
    (pending.new (pending_kind.mutate expected callback)) connect_ok send_ok with
    h | h | ⟨e, i, h | ⟨p, h⟩ | ⟨p, h⟩⟩
  all_goals
    rw [h]
    simp [pending.result_rc, pending.new]

/-- Claim C20. For an existing space whose dimension names are pairwise distinct,
`update` invokes the callback with `BADDIMENSION` exactly when some name of the
supplied map is not the name of a value dimension (a dimension of index at least
1); in particular a map that names the key dimension (dimension 0) is rejected
with `BADDIMENSION`, the client staying as it was, although that name is a
dimension of the space. -/
theorem update_baddimension_exact (hx : hyperdex) (s : client) (space : String)
    (key : buffer) (value : List (String × buffer)) (callback : Nat)
    (connect_ok send_ok : Bool)
    (hs : s.config.lookup_spaceid space ≠ hx.NULLSPACE)
    (hn : 1 ≤ (s.config.lookup_space_dimensions (s.config.lookup_spaceid space)).length)
    (hd : (s.config.lookup_space_dimensions (s.config.lookup_spaceid space)).Nodup) :
    ∃ s1 evs, s.update hx space key value callback connect_ok send_ok = some (s1, evs) ∧
      (event.mutate_callback callback returncode.BADDIMENSION ∈ evs ↔
        ∃ kv ∈ value, ¬ ∃ i, 1 ≤ i ∧
          i < (s.config.lookup_space_dimensions (s.config.lookup_spaceid space)).length ∧
          (s.config.lookup_space_dimensions (s.config.lookup_spaceid space)).getD i "" =
            kv.1) ∧
      ((∃ kv ∈ value,
          (s.config.lookup_space_dimensions (s.config.lookup_spaceid space)).head? =
            some kv.1) →
        s1 = s ∧ evs = [event.mutate_callback callback returncode.BADDIMENSION]) := by
  have hiff := update_baddimension_iff
    (s.config.lookup_space_dimensions (s.config.lookup_spaceid space)) value hn
  have hrew : (∃ kv ∈ value, ¬ ∃ i, 1 ≤ i ∧
      i < (s.config.lookup_space_dimensions (s.config.lookup_spaceid space)).length ∧
      (s.config.lookup_space_dimensions (s.config.lookup_spaceid space)).getD i "" = kv.1) ↔
      ∃ kv ∈ value,
        kv.1 ∉ (s.config.lookup_space_dimensions (s.config.lookup_spaceid space)).tail := by
    constructor
    · rintro ⟨kv, hm, hk⟩
      exact ⟨kv, hm, fun ht => hk ((mem_tail_iff_getD _ _).mpr ht)⟩
    · rintro ⟨kv, hm, hk⟩
      exact ⟨kv, hm, fun ht => hk ((mem_tail_iff_getD _ _).mp ht)⟩
  rw [hrew, ← hiff]
  cases hb : update_unseen (update_encode
      (s.config.lookup_space_dimensions (s.config.lookup_spaceid space)) value).seen value with
  | true =>
    refine ⟨s, [event.mutate_callback callback returncode.BADDIMENSION], ?_, ?_, ?_⟩
    · unfold client.update
      simp only
      rw [if_neg hs, if_neg (by omega), hb]
      rfl
    · simp
    · intro _
      exact ⟨rfl, rfl⟩
  | false =>
    refine ⟨(s.add_reqrep hx space key hx.REQ_UPDATE (update_msg hx key (update_encode
        (s.config.lookup_space_dimensions (s.config.lookup_spaceid space)) value))
        (pending.new (pending_kind.mutate hx.RESP_UPDATE callback)) connect_ok send_ok).1,
      (s.add_reqrep hx space key hx.REQ_UPDATE (update_msg hx key (update_encode
        (s.config.lookup_space_dimensions (s.config.lookup_spaceid space)) value))
        (pending.new (pending_kind.mutate hx.RESP_UPDATE callback)) connect_ok send_ok).2,
      ?_, ?_, ?_⟩
    · unfold client.update
      simp only
      rw [if_neg hs, if_neg (by omega), hb]
      rfl
    · simp only [Bool.false_eq_true, iff_false]
      exact add_reqrep_no_baddimension hx s space key hx.REQ_UPDATE _ hx.RESP_UPDATE callback
        connect_ok send_ok
    · rintro ⟨kv, hm, hh⟩
      exfalso
      have hbt : update_unseen (update_encode
          (s.config.lookup_space_dimensions (s.config.lookup_spaceid space)) value).seen value
            = true := by
        rw [hiff]
        refine ⟨kv, hm, ?_⟩
        cases hdims : s.config.lookup_space_dimensions (s.config.lookup_spaceid space) with
        | nil => simp
        | cons d t =>
          rw [hdims] at hh hd
          simp only [List.head?_cons, Option.some.injEq] at hh
          simp only [List.tail_cons]
          rw [← hh]
          exact (List.nodup_cons.mp hd).1
      rw [hb] at hbt
      exact absurd hbt (by simp)

/-- Witness for C20: the update map names `id`, the key dimension of `users`. -/
theorem update_baddimension_exact_witness :
    ((client.init sample_config).config.lookup_space_dimensions
        ((client.init sample_config).config.lookup_spaceid "users")).Nodup ∧
      ∃ s1 evs, (client.init sample_config).update sample_hyperdex "users" [42]
          [("id", [1])] 7 true true = some (s1, evs) ∧
        (event.mutate_callback 7 returncode.BADDIMENSION ∈ evs ↔
          ∃ kv ∈ [("id", [1])], ¬ ∃ i, 1 ≤ i ∧
            i < ((client.init sample_config).config.lookup_space_dimensions
              ((client.init sample_config).config.lookup_spaceid "users")).length ∧
            ((client.init sample_config).config.lookup_space_dimensions
              ((client.init sample_config).config.lookup_spaceid "users")).getD i "" = kv.1) ∧
        ((∃ kv ∈ [("id", [1])],
            ((client.init sample_config).config.lookup_space_dimensions
              ((client.init sample_config).config.lookup_spaceid "users")).head? =
              some kv.1) →
          s1 = client.init sample_config ∧
            evs = [event.mutate_callback 7 returncode.BADDIMENSION]) :=
  ⟨by decide,
   update_baddimension_exact sample_hyperdex (client.init sample_config) "users" [42]
     [("id", [1])] 7 true true (by decide) (by decide) (by decide)⟩


/-! ## Timeouts -/

theorem pop_null_front_append (pre rest : List (Option pending)) (op : pending)
    (hpre : ∀ x ∈ pre, x = none) :
    pop_null_front (pre ++ some op :: rest) = some op :: rest := by
  induction pre with
  | nil => rfl
  | cons x pre ih =>
    have hx : x = none := hpre x (List.mem_cons_self _ _)
    subst hx
    simp only [List.cons_append, pop_null_front]
    exact ih (fun y hy => hpre y (List.mem_cons_of_mem _ hy))

theorem timeout_front_append (pre rest : List (Option pending)) (op : pending)
    (hpre : ∀ x ∈ pre, x = none) :
    timeout_front (pre ++ some op :: rest) = (rest, [op.result_rc returncode.TIMEOUT]) := by
  induction pre with
  | nil => rfl
  | cons x pre ih =>
    have hx : x = none := hpre x (List.mem_cons_self _ _)
    subst hx
    simp only [List.cons_append, timeout_front]
    exact ih (fun y hy => hpre y (List.mem_cons_of_mem _ hy))

theorem flush_one_poll_timeout (hx : hyperdex) (s : client) (timeout : Int) (env : flush_env)
    (envs : List flush_env) (pre rest : List (Option pending)) (op : pending)
    (hq : s.requests = pre ++ some op :: rest) (hpre : ∀ x ∈ pre, x = none)
    (hc : coord_reconnect env 7 0 = none) (hp : env.polled = 0) :
    s.flush_one hx timeout (env :: envs) =
      some ({ s with requests := rest }, [op.result_rc returncode.TIMEOUT],
        returncode.TIMEOUT) := by
  unfold client.flush_one
  rw [hq, pop_null_front_append pre rest op hpre]
  simp only [List.isEmpty_cons, Bool.false_eq_true, if_false]
  unfold client.flush_iteration
  rw [hc]
  simp only [hp, lt_self_iff_false, if_false, if_true]
  rfl

/-- Claim C19. When the poll of `flush_one` reports 0 ready descriptors and the
queue holds a live op, preceded only by null slots: `flush_one` returns `TIMEOUT`,
the only event is the callback of that first live op invoked with `TIMEOUT`, the
op and the null slots before it are removed, and the queue that remains is
exactly the list of the later entries, unchanged and in the same order; nothing
else in the client changes. The same holds for the poll of any later turn of the
loop of `flush_one`. -/
theorem poll_timeout (hx : hyperdex) (s : client) (timeout : Int) (env : flush_env)
    (envs : List flush_env) (pre rest : List (Option pending)) (op : pending)
    (hq : s.requests = pre ++ some op :: rest) (hpre : ∀ x ∈ pre, x = none)
    (hc : coord_reconnect env 7 0 = none) (hp : env.polled = 0) :
    s.flush_one hx timeout (env :: envs) =
      some ({ s with requests := rest }, [op.result_rc returncode.TIMEOUT],
        returncode.TIMEOUT) ∧
    s.flush_iteration hx timeout env =
      ({ s with requests := rest }, [op.result_rc returncode.TIMEOUT],
        some returncode.TIMEOUT) := by
  refine ⟨flush_one_poll_timeout hx s timeout env envs pre rest op hq hpre hc hp, ?_⟩
  unfold client.flush_iteration
  rw [hc]
  simp only [hp, lt_self_iff_false, if_false, if_true]
  rw [hq, timeout_front_append pre rest op hpre]

/-- Witness for C19: `sample_client` holds two `get` ops; the first is timed out
and the second stays. -/
theorem poll_timeout_witness :
    sample_client.requests =
        [] ++ some ⟨1, 5, ⟨100, 3⟩, 1, false, pending_kind.get 7⟩ ::
          [some ⟨1, 5, ⟨100, 3⟩, 2, false, pending_kind.get 8⟩] ∧
      coord_reconnect sample_env_timeout 7 0 = none ∧ sample_env_timeout.polled = 0 ∧
      sample_client.flush_one sample_hyperdex 100 [sample_env_timeout] =
        some ({ sample_client with
                requests := [some ⟨1, 5, ⟨100, 3⟩, 2, false, pending_kind.get 8⟩] },
          [event.get_callback 7 returncode.TIMEOUT []], returncode.TIMEOUT) :=
  ⟨by decide, by decide, by decide,
   (poll_timeout sample_hyperdex sample_client 100 sample_env_timeout [] []
      [some ⟨1, 5, ⟨100, 3⟩, 2, false, pending_kind.get 8⟩]
      ⟨1, 5, ⟨100, 3⟩, 1, false, pending_kind.get 7⟩ (by decide) (by simp) (by decide)
      (by decide)).1⟩

theorem timeout_all_eq (reqs : List (Option pending)) :
    timeout_all reqs = reqs.reduceOption.map (fun op => op.result_rc returncode.TIMEOUT) := by
  induction reqs with
  | nil => rfl
  | cons x rest ih =>
    cases x with
    | none =>
      rw [timeout_all, List.reduceOption_cons_of_none]
      exact ih
    | some op =>
      rw [timeout_all, List.reduceOption_cons_of_some, List.map_cons, ih]

theorem flush_loop_timeout (hx : hyperdex) (original_timeout : Int) :
    ∀ (script : List (List flush_env × Int)) (timeout : Int) (s : client),
      (client.flush_loop hx original_timeout script timeout s).map (fun r => r.2.2) =
        some returncode.TIMEOUT →
      ∃ s1 evs0, flush_calls hx s evs0 s1 ∧
        client.flush_loop hx original_timeout script timeout s =
          some ({ s1 with requests := [] },
            evs0 ++ s1.live.map (fun op => op.result_rc returncode.TIMEOUT),
            returncode.TIMEOUT) := by
  intro script
  induction script with
  | nil =>
    intro timeout s h
    unfold client.flush_loop at h
    split at h <;> simp at h
  | cons x script ih =>
    intro timeout s h
    obtain ⟨envs, peek_ms⟩ := x
    unfold client.flush_loop at h ⊢
    by_cases he : s.requests.isEmpty = true
    · rw [if_pos he] at h
      simp at h
    · rw [if_neg he] at h ⊢
      cases hf : s.flush_one hx timeout envs with
      | none => rw [hf] at h; simp at h
      | some r =>
        obtain ⟨s1, evs, ret⟩ := r
        rw [hf] at h
        simp only at h ⊢
        by_cases hc : ret ≠ returncode.SUCCESS ∧ ret ≠ returncode.TIMEOUT
        · rw [if_pos hc] at h
          simp only [Option.map_some', Option.some.injEq] at h
          exact absurd h hc.2
        · rw [if_neg hc] at h ⊢
          by_cases hr : (if timeout ≥ 0 ∧
              (if timeout ≥ 0 then original_timeout - peek_ms else timeout) < 0
              then returncode.TIMEOUT else ret) = returncode.TIMEOUT
          · rw [if_pos hr]
            refine ⟨s1, evs, flush_calls.last timeout envs hf ?_, ?_⟩
            · by_cases h1 : ret = returncode.SUCCESS
              · exact Or.inl h1
              · by_cases h2 : ret = returncode.TIMEOUT
                · exact Or.inr h2
                · exact absurd ⟨h1, h2⟩ hc
            · rw [timeout_all_eq]
              rfl
          · rw [if_neg hr] at h ⊢
            have hret : ret = returncode.SUCCESS := by
              by_cases h1 : ret = returncode.SUCCESS
              · exact h1
              · by_cases h2 : ret = returncode.TIMEOUT
                · exfalso
                  apply hr
                  rw [h2]
                  exact ite_self _
                · exact absurd ⟨h1, h2⟩ hc
            subst hret
            cases hl : client.flush_loop hx original_timeout script
                (if timeout ≥ 0 then original_timeout - peek_ms else timeout) s1 with
            | none => rw [hl] at h; simp at h
            | some r2 =>
              have hm : (client.flush_loop hx original_timeout script
                  (if timeout ≥ 0 then original_timeout - peek_ms else timeout) s1).map
                  (fun r => r.2.2) = some returncode.TIMEOUT := by
                rw [hl] at h ⊢
                obtain ⟨a, b, c⟩ := r2
                simpa using h
              obtain ⟨s2, evs2, hcalls, hres⟩ := ih _ s1 hm
              rw [hl] at hres
              refine ⟨s2, evs ++ evs2, flush_calls.next timeout envs hf hcalls, ?_⟩
              rw [hres]
              simp only [List.append_assoc]

/-- Claim C12. Whenever `flush` returns `TIMEOUT`, the pending queue is empty and
nothing else in the client differs from the state `s1` left by the last call of
`flush_one`; the events are those of the calls of `flush_one` followed by exactly
one `TIMEOUT` callback for each op that was live in `s1`, in queue order. In
particular, when the first call of `flush_one` times out on its poll, the op it
failed has been removed from the queue before and gets one `TIMEOUT` in all, as
does every op behind it. -/
theorem flush_timeout (hx : hyperdex) (s : client) (timeout : Int)
    (script : List (List flush_env × Int))
    (h : (s.flush hx timeout script).map (fun r => r.2.2) = some returncode.TIMEOUT) :
    (∃ sf evs, s.flush hx timeout script = some (sf, evs, returncode.TIMEOUT) ∧
      sf.requests = [] ∧
      ∃ s1 evs0, flush_calls hx s evs0 s1 ∧ sf = { s1 with requests := [] } ∧
        evs = evs0 ++ s1.live.map (fun op => op.result_rc returncode.TIMEOUT)) ∧
    (∀ (env : flush_env) (envs : List flush_env) (peek_ms : Int)
        (rest_script : List (List flush_env × Int)) (pre rest : List (Option pending))
        (op : pending),
      script = (env :: envs, peek_ms) :: rest_script →
      s.requests = pre ++ some op :: rest → (∀ x ∈ pre, x = none) →
      coord_reconnect env 7 0 = none → env.polled = 0 →
      s.flush hx timeout script =
        some ({ s with requests := [] },
          op.result_rc returncode.TIMEOUT ::
            rest.reduceOption.map (fun o => o.result_rc returncode.TIMEOUT),
          returncode.TIMEOUT)) := by
  refine ⟨?_, ?_⟩
  · obtain ⟨s1, evs0, hcalls, hres⟩ := flush_loop_timeout hx timeout script timeout s h
    exact ⟨_, _, hres, rfl, s1, evs0, hcalls, rfl, rfl⟩
  · intro env envs peek_ms rest_script pre rest op hsc hq hpre hc hp
    subst hsc
    have hf := flush_one_poll_timeout hx s timeout env envs pre rest op hq hpre hc hp
    unfold client.flush client.flush_loop
    have hne : s.requests.isEmpty = false := by rw [hq]; cases pre <;> rfl
    rw [hne, hf]
    simp only [Bool.false_eq_true, if_false, ne_eq, not_true_eq_false, and_false,
      reduceCtorEq, not_false_eq_true, and_true]
    have hr1 : (if timeout ≥ 0 ∧
        (if timeout ≥ 0 then timeout - peek_ms else timeout) < 0
        then returncode.TIMEOUT else returncode.TIMEOUT) = returncode.TIMEOUT :=
      ite_self _
    rw [if_pos hr1, timeout_all_eq]
    rfl

/-- Witness for C12: `flush(100)` on `sample_client` when the poll of the first
`flush_one` reports nothing. -/
theorem flush_timeout_witness :
    (sample_client.flush sample_hyperdex 100 [([sample_env_timeout], 150)]).map
        (fun r => r.2.2) = some returncode.TIMEOUT ∧
      ∃ sf evs, sample_client.flush sample_hyperdex 100 [([sample_env_timeout], 150)] =
          some (sf, evs, returncode.TIMEOUT) ∧
        sf.requests = [] ∧
        ∃ s1 evs0, flush_calls sample_hyperdex sample_client evs0 s1 ∧
          sf = { s1 with requests := [] } ∧
          evs = evs0 ++ s1.live.map (fun op => op.result_rc returncode.TIMEOUT) :=
  ⟨by decide,
   (flush_timeout sample_hyperdex sample_client 100 [([sample_env_timeout], 150)]
     (by decide)).1⟩


/-! ## The search handler -/

theorem deliver_skip (hx : hyperdex) (chan : Nat) (h : header) (msg : buffer) (send_ok : Bool)
    (s : client) :
    ∀ (d fuel j0 : Nat),
      (∀ (k : Nat) (op : pending), j0 ≤ k → k < j0 + d → s.requests[k]? = some (some op) →
        ¬ s.matches chan h op) →
      j0 + d ≤ s.requests.length →
      client.deliver hx chan h msg send_ok (fuel + d) j0 s =
        client.deliver hx chan h msg send_ok fuel (j0 + d) s := by
  intro d
  induction d with
  | zero => intro fuel j0 _ _; rfl
  | succ d ih =>
    intro fuel j0 hno hlen
    have e : fuel + (d + 1) = (fuel + d) + 1 := by omega
    rw [e]
    have hnext := ih fuel (j0 + 1) (fun k op h1 h2 => hno k op (by omega) (by omega))
      (by omega)
    have e2 : j0 + 1 + d = j0 + (d + 1) := by omega
    rw [e2] at hnext
    rw [← hnext]
    rw [client.deliver]
    cases hj : s.requests.get? j0 with
    | none =>
      exfalso
      rw [List.get?_eq_none] at hj
      omega
    | some r =>
      cases r with
      | none => rfl
      | some op =>
        simp only
        have hj1 : s.requests[j0]? = some (some op) := by simpa using hj
        rw [if_neg (hno j0 op (le_refl _) (by omega) hj1)]

theorem deliver_first_match (hx : hyperdex) (chan : Nat) (h : header) (msg : buffer)
    (send_ok : Bool) (s : client) (j : Nat) (op : pending)
    (hj : s.requests[j]? = some (some op)) (hm : s.matches chan h op)
    (hfirst : ∀ (k : Nat) (op1 : pending), k < j → s.requests[k]? = some (some op1) →
      ¬ s.matches chan h op1) :
    client.deliver hx chan h msg send_ok s.requests.length 0 s =
      if (pending.result hx s op h.type msg send_ok).2.2.1 then
        ((pending.result hx s op h.type msg send_ok).1.set_request j
            (pending.result hx s op h.type msg send_ok).2.1,
          (pending.result hx s op h.type msg send_ok).2.2.2, true, [j])
      else
        ((client.deliver hx chan h msg send_ok (s.requests.length - (j + 1)) (j + 1)
            ((pending.result hx s op h.type msg send_ok).1.set_request j
              (pending.result hx s op h.type msg send_ok).2.1)).1,
          (pending.result hx s op h.type msg send_ok).2.2.2 ++
            (client.deliver hx chan h msg send_ok (s.requests.length - (j + 1)) (j + 1)
              ((pending.result hx s op h.type msg send_ok).1.set_request j
                (pending.result hx s op h.type msg send_ok).2.1)).2.1,
          (client.deliver hx chan h msg send_ok (s.requests.length - (j + 1)) (j + 1)
            ((pending.result hx s op h.type msg send_ok).1.set_request j
              (pending.result hx s op h.type msg send_ok).2.1)).2.2.1,
          j :: (client.deliver hx chan h msg send_ok (s.requests.length - (j + 1)) (j + 1)
            ((pending.result hx s op h.type msg send_ok).1.set_request j
              (pending.result hx s op h.type msg send_ok).2.1)).2.2.2) := by
  have hlt : j < s.requests.length := by
    by_contra hge
    rw [List.getElem?_eq_none (by omega)] at hj
    exact absurd hj (by simp)
  have e : s.requests.length = (s.requests.length - (j + 1) + 1) + j := by omega
  have hskip := deliver_skip hx chan h msg send_ok s j (s.requests.length - (j + 1) + 1) 0
    (fun k op1 _ h2 hk => hfirst k op1 (by omega) hk) (by omega)
  rw [← e, Nat.zero_add] at hskip
  rw [hskip, client.deliver]
  have hg : s.requests.get? j = some (some op) := by simpa using hj
  rw [hg]
  simp only
  rw [if_pos hm]

theorem pumping_learn_unique (hx : hyperdex) (s : client) (hp : Pumping hx s)
    (hw : s.no_wrap) (chan : Nat) (to_ : entityid) (j : Nat) (op : pending)
    (h : header)
    (hj : (s.learn_id hx chan to_).requests[j]? = some (some op))
    (hm : (s.learn_id hx chan to_).matches chan h op) :
    ∀ (k : Nat) (op1 : pending), k ≠ j →
      (s.learn_id hx chan to_).requests[k]? = some (some op1) →
      ¬ (s.learn_id hx chan to_).matches chan h op1 := by
  have hinv := inv_learn_id hx s chan to_ (pumping_inv hx s hp)
  have hn := hinv.2 (no_wrap_learn_id hx s chan to_ hw)
  intro k op1 hk hk1 hm1
  exact (nonce_inv_index _ hn).2 k j op1 op hk hk1 hj (hm1.1.symm.trans hm.1)
    (hm1.2.2.2.2.2.symm.trans hm.2.2.2.2.2)

theorem search_result_item (hx : hyperdex) (s : client) (op : pending)
    (searchid callback : Nat) (hk : op.kind = pending_kind.search searchid callback)
    (msg : buffer) (key up : buffer) (value : List buffer) (rest : buffer)
    (hkey : hx.unpack_buffer msg = some (key, up))
    (hval : hx.unpack_vector up = some (value, rest)) (send_ok : Bool) :
    pending.result hx s op hx.RESP_SEARCH_ITEM msg send_ok =
      if send_ok then
        ((s.take_nonce op.chan).1, some { op with nonce := (s.take_nonce op.chan).2 }, true,
          [event.xsend op.chan
              (pack_frame hx ⟨hx.REQ_SEARCH_NEXT, 0, op.inst.inbound_version,
                (s.chans op.chan).id, op.ent, (s.take_nonce op.chan).2⟩ (pack_be 8 searchid))
              true,
            event.search_callback callback returncode.SUCCESS key value])
      else
        ((s.take_nonce op.chan).1.erase op.inst, none, true,
          [event.xsend op.chan
              (pack_frame hx ⟨hx.REQ_SEARCH_NEXT, 0, op.inst.inbound_version,
                (s.chans op.chan).id, op.ent, (s.take_nonce op.chan).2⟩ (pack_be 8 searchid))
              false,
            event.search_callback callback returncode.DISCONNECT [] []]) := by
  unfold pending.result
  rw [hk]
  simp only
  unfold pending_search.result
  rw [if_pos rfl, hkey]
  simp only
  rw [hval]
  cases send_ok
  · simp [client.send, client.take_nonce, pending.result_rc, hk]
  · simp [client.send, client.take_nonce, hk]

theorem search_result_done (hx : hyperdex) (hne : hx.RESP_SEARCH_DONE ≠ hx.RESP_SEARCH_ITEM)
    (s : client) (op : pending) (searchid callback : Nat)
    (hk : op.kind = pending_kind.search searchid callback) (msg : buffer) (send_ok : Bool) :
    pending.result hx s op hx.RESP_SEARCH_DONE msg send_ok = (s, none, false, []) := by
  unfold pending.result
  rw [hk]
  simp only
  unfold pending_search.result
  rw [if_neg hne, if_pos rfl]

theorem outstanding_loop_set_none (l : List (Option pending)) :
    ∀ (j : Nat) (op : pending), l[j]? = some (some op) →
      (outstanding_loop (l.set j none)).2 + 1 = (outstanding_loop l).2 := by
  induction l with
  | nil => intro j op h; simp at h
  | cons x rest ih =>
    intro j op h
    cases j with
    | zero =>
      simp only [List.getElem?_cons_zero, Option.some.injEq] at h
      subst h
      simp [outstanding_loop]
    | succ j =>
      simp only [List.getElem?_cons_succ] at h
      have := ih j op h
      cases x with
      | none => simpa [outstanding_loop] using this
      | some op1 =>
        simp only [List.set_cons_succ, outstanding_loop]
        omega

/-- Claim C15. While `flush_one` runs from a reachable state without counter
wrap-around: when the frame it has read is a `RESP_SEARCH_ITEM` whose payload
decodes to `(key, value)`, the op that matches it is a search op in slot `j`, and
the continuation send succeeds, then the scan ends with the handler having called
back on slot `j` alone; the op stays in slot `j` with its nonce set to the
counter the channel had, the counter is one higher, and the events are the send
of `REQ_SEARCH_NEXT` with payload `search_id` on the same channel to the same
entity with that nonce, followed by one callback `(SUCCESS, key, value)`. -/
theorem search_item_continues (hx : hyperdex) (s0 s : client) (hp : Pumping hx s0)
    (hw : s0.no_wrap) (chan : Nat) (h : header) (msg : buffer)
    (hs : s = s0.learn_id hx chan h.to_) (j : Nat) (op : pending)
    (searchid callback : Nat) (key up : buffer) (value : List buffer) (rest : buffer)
    (hj : s.requests[j]? = some (some op))
    (hk : op.kind = pending_kind.search searchid callback)
    (hm : s.matches chan h op) (ht : h.type = hx.RESP_SEARCH_ITEM)
    (hkey : hx.unpack_buffer msg = some (key, up))
    (hval : hx.unpack_vector up = some (value, rest)) :
    client.deliver hx chan h msg true s.requests.length 0 s =
      ((s.take_nonce chan).1.set_request j (some { op with nonce := (s.chans chan).nonce }),
        [event.xsend chan
            (pack_frame hx ⟨hx.REQ_SEARCH_NEXT, 0, op.inst.inbound_version,
              (s.chans chan).id, op.ent, (s.chans chan).nonce⟩ (pack_be 8 searchid)) true,
          event.search_callback callback returncode.SUCCESS key value],
        true, [j]) ∧
    (((s.take_nonce chan).1.set_request j
        (some { op with nonce := (s.chans chan).nonce })).chans chan).nonce =
      (s.chans chan).nonce + 1 ∧
    ((s.take_nonce chan).1.set_request j
        (some { op with nonce := (s.chans chan).nonce })).requests[j]? =
      some (some { op with nonce := (s.chans chan).nonce }) := by
  subst hs
  have huniq := pumping_learn_unique hx s0 hp hw chan h.to_ j op h hj hm
  have hc : chan = op.chan := hm.1
  have hlt : j < (s0.learn_id hx chan h.to_).requests.length := by
    by_contra hge
    rw [List.getElem?_eq_none (by omega)] at hj
    exact absurd hj (by simp)
  have hinv := inv_learn_id hx s0 chan h.to_ (pumping_inv hx s0 hp)
  have hwl := no_wrap_learn_id hx s0 chan h.to_ hw
  have hlive : op ∈ (s0.learn_id hx chan h.to_).live := by
    rw [mem_live_iff]
    exact List.getElem?_mem hj
  have hcv := hinv.1.2.1 op hlive
  have hnonce : ((s0.learn_id hx chan h.to_).take_nonce op.chan).2 =
      ((s0.learn_id hx chan h.to_).chans op.chan).nonce := by
    simp only [client.take_nonce]
    exact Nat.mod_eq_of_lt (hwl op.chan hcv.1 hcv.2)
  refine ⟨?_, ?_, ?_⟩
  · rw [deliver_first_match hx chan h msg true _ j op hj hm
      (fun k op1 hk1 hk2 => huniq k op1 (by omega) hk2), ht,
      search_result_item hx _ op searchid callback hk msg key up value rest hkey hval true]
    simp only [if_true]
    rw [hnonce, ← hc]
  · simp [client.set_request, client.take_nonce]
  · simp only [client.set_request, client.take_nonce]
    rw [List.getElem?_set_self hlt]

/-- Counterexample for C16: the search op of `sample_search` receives
`sample_item_frame` and the continuation send fails; `flush_one` empties the slot
and, after the failed `xsend`, the callback of the op is invoked with
`DISCONNECT`. -/
theorem search_continuation_failure_calls_back :
    (sample_search.flush_one sample_hyperdex 100 [sample_env_item false]).map
        (fun r => (r.1.requests, r.2.1.drop 1, r.2.2)) =
      some ([none], [event.search_callback 8 returncode.DISCONNECT [] []],
        returncode.SUCCESS) := by
  decide

/-- Claim C16, amended. While `flush_one` runs from a reachable state: when the
frame it has read is a `RESP_SEARCH_ITEM` whose payload decodes, the op that
matches it is a search op in slot `j`, and the continuation send fails, then the
slot `j` is emptied, the channel table loses the entry of the op's instance, the
item is not handed to the callback, and the events are the failed send followed
by exactly one invocation of the callback, made by `send`, with `DISCONNECT` and
empty key and value. -/
theorem search_item_send_failure (hx : hyperdex) (s0 s : client) (hp : Pumping hx s0)
    (hw : s0.no_wrap) (chan : Nat) (h : header) (msg : buffer)
    (hs : s = s0.learn_id hx chan h.to_) (j : Nat) (op : pending)
    (searchid callback : Nat) (key up : buffer) (value : List buffer) (rest : buffer)
    (hj : s.requests[j]? = some (some op))
    (hk : op.kind = pending_kind.search searchid callback)
    (hm : s.matches chan h op) (ht : h.type = hx.RESP_SEARCH_ITEM)
    (hkey : hx.unpack_buffer msg = some (key, up))
    (hval : hx.unpack_vector up = some (value, rest)) :
    client.deliver hx chan h msg false s.requests.length 0 s =
      (((s.take_nonce chan).1.erase op.inst).set_request j none,
        [event.xsend chan
            (pack_frame hx ⟨hx.REQ_SEARCH_NEXT, 0, op.inst.inbound_version,
              (s.chans chan).id, op.ent, (s.chans chan).nonce⟩ (pack_be 8 searchid)) false,
          event.search_callback callback returncode.DISCONNECT [] []],
        true, [j]) ∧
    (((s.take_nonce chan).1.erase op.inst).set_request j none).requests[j]? = some none ∧
    (((s.take_nonce chan).1.erase op.inst).set_request j none).channels op.inst = none := by
  subst hs
  have huniq := pumping_learn_unique hx s0 hp hw chan h.to_ j op h hj hm
  have hc : chan = op.chan := hm.1
  have hlt : j < (s0.learn_id hx chan h.to_).requests.length := by
    by_contra hge
    rw [List.getElem?_eq_none (by omega)] at hj
    exact absurd hj (by simp)
  have hinv := inv_learn_id hx s0 chan h.to_ (pumping_inv hx s0 hp)
  have hwl := no_wrap_learn_id hx s0 chan h.to_ hw
  have hlive : op ∈ (s0.learn_id hx chan h.to_).live := by
    rw [mem_live_iff]
    exact List.getElem?_mem hj
  have hcv := hinv.1.2.1 op hlive
  have hnonce : ((s0.learn_id hx chan h.to_).take_nonce op.chan).2 =
      ((s0.learn_id hx chan h.to_).chans op.chan).nonce := by
    simp only [client.take_nonce]
    exact Nat.mod_eq_of_lt (hwl op.chan hcv.1 hcv.2)
  refine ⟨?_, ?_, ?_⟩
  · rw [deliver_first_match hx chan h msg false _ j op hj hm
      (fun k op1 hk1 hk2 => huniq k op1 (by omega) hk2), ht,
      search_result_item hx _ op searchid callback hk msg key up value rest hkey hval false]
    simp only [Bool.false_eq_true, if_false, if_true]
    rw [hnonce, ← hc]
  · simp only [client.set_request, client.take_nonce, client.erase]
    rw [List.getElem?_set_self hlt]
  · simp [client.set_request, client.take_nonce, client.erase]

/-- Claim C17. While `flush_one` runs from a reachable state without counter
wrap-around: when the frame it has read is a `RESP_SEARCH_DONE` and the op that
matches it is a search op in slot `j`, the handler changes nothing, returns no
replacement and reports that it did not call back; the scan ends with slot `j`
emptied and nothing else changed (no counter moved, nothing sent, no callback
invoked: the event list is empty), and `outstanding()` counts one op less. -/
theorem search_done (hx : hyperdex) (hne : hx.RESP_SEARCH_DONE ≠ hx.RESP_SEARCH_ITEM)
    (s0 s : client) (hp : Pumping hx s0) (hw : s0.no_wrap) (chan : Nat) (h : header)
    (msg : buffer) (send_ok : Bool) (hs : s = s0.learn_id hx chan h.to_) (j : Nat)
    (op : pending) (searchid callback : Nat)
    (hj : s.requests[j]? = some (some op))
    (hk : op.kind = pending_kind.search searchid callback)
    (hm : s.matches chan h op) (ht : h.type = hx.RESP_SEARCH_DONE) :
    pending.result hx s op h.type msg send_ok = (s, none, false, []) ∧
    client.deliver hx chan h msg send_ok s.requests.length 0 s =
      ({ s with requests := s.requests.set j none }, [], false, [j]) ∧
    (s.requests.set j none)[j]? = some none ∧
    ({ s with requests := s.requests.set j none } : client).outstanding.2 + 1 =
      s.outstanding.2 := by
  subst hs
  have huniq := pumping_learn_unique hx s0 hp hw chan h.to_ j op h hj hm
  have hlt : j < (s0.learn_id hx chan h.to_).requests.length := by
    by_contra hge
    rw [List.getElem?_eq_none (by omega)] at hj
    exact absurd hj (by simp)
  have hres := search_result_done hx hne (s0.learn_id hx chan h.to_) op searchid callback hk
    msg send_ok
  refine ⟨by rw [ht]; exact hres, ?_, List.getElem?_set_self hlt, ?_⟩
  · rw [deliver_first_match hx chan h msg send_ok _ j op hj hm
      (fun k op1 hk1 hk2 => huniq k op1 (by omega) hk2), ht, hres]
    simp only [Bool.false_eq_true, if_false]
    rw [deliver_no_match hx chan h msg send_ok _ (j + 1)
      ((s0.learn_id hx chan h.to_).set_request j none) (by
        intro k op2 hk1 hk2 hm2
        have hk3 : (s0.learn_id hx chan h.to_).requests[k]? = some (some op2) := by
          simp only [client.set_request] at hk2
          rw [List.getElem?_set_ne (by omega)] at hk2
          exact hk2
        exact huniq k op2 (by omega) hk3 hm2)]
    rfl
  · exact outstanding_loop_set_none _ j op hj

theorem sample_search_reachable : Reachable sample_hyperdex sample_search :=
  @Reachable.search sample_hyperdex (client.init sample_config) sample_search
    (((client.init sample_config).search sample_hyperdex "users" [] [] 8 0
      (fun _ => true) (fun _ => true)).elim [] (fun r => r.2))
    "users" [] [] 8 0 (fun _ => true) (fun _ => true) (Reachable.init sample_config) rfl

theorem sample_search_pump_no_wrap : sample_search_pump.no_wrap := by
  intro c h1 h2
  have hn : sample_search_pump.next_chan = 2 := by decide
  rw [hn] at h2
  have hc : c = 1 := by omega
  subst hc
  decide

/-- Witness for C15: the search op of `sample_search` receives `sample_item_frame`
and the continuation send succeeds. -/
theorem search_item_continues_witness :
    Pumping sample_hyperdex sample_search_pump ∧ sample_search_pump.no_wrap ∧
      (client.deliver sample_hyperdex 1 ⟨35, 3, 0, 5, 99, 1⟩ [1, 42, 2, 10, 11] true
        (sample_search_pump.learn_id sample_hyperdex 1 99).requests.length 0
        (sample_search_pump.learn_id sample_hyperdex 1 99)).2.2 = (true, [0]) :=
  ⟨Pumping.enter sample_search_reachable, sample_search_pump_no_wrap,
   congrArg (fun r => r.2.2)
     (search_item_continues sample_hyperdex sample_search_pump _
       (Pumping.enter sample_search_reachable) sample_search_pump_no_wrap 1
       ⟨35, 3, 0, 5, 99, 1⟩ [1, 42, 2, 10, 11] rfl 0
       ⟨1, 5, ⟨100, 3⟩, 1, false, pending_kind.search 1 8⟩ 1 8 [42] [2, 10, 11]
       [[10], [11]] [] (by decide) rfl (by decide) rfl (by decide) (by decide)).1⟩

/-- Witness for C16 as amended: the same frame when the continuation send fails. -/
theorem search_item_send_failure_witness :
    Pumping sample_hyperdex sample_search_pump ∧ sample_search_pump.no_wrap ∧
      (client.deliver sample_hyperdex 1 ⟨35, 3, 0, 5, 99, 1⟩ [1, 42, 2, 10, 11] false
        (sample_search_pump.learn_id sample_hyperdex 1 99).requests.length 0
        (sample_search_pump.learn_id sample_hyperdex 1 99)).2.2 = (true, [0]) :=
  ⟨Pumping.enter sample_search_reachable, sample_search_pump_no_wrap,
   congrArg (fun r => r.2.2)
     (search_item_send_failure sample_hyperdex sample_search_pump _
       (Pumping.enter sample_search_reachable) sample_search_pump_no_wrap 1
       ⟨35, 3, 0, 5, 99, 1⟩ [1, 42, 2, 10, 11] rfl 0
       ⟨1, 5, ⟨100, 3⟩, 1, false, pending_kind.search 1 8⟩ 1 8 [42] [2, 10, 11]
       [[10], [11]] [] (by decide) rfl (by decide) rfl (by decide) (by decide)).1⟩

/-- Witness for C17: the search op of `sample_search` receives a `RESP_SEARCH_DONE`
frame (type 36) with its nonce. -/
theorem search_done_witness :
    sample_hyperdex.RESP_SEARCH_DONE ≠ sample_hyperdex.RESP_SEARCH_ITEM ∧
      Pumping sample_hyperdex sample_search_pump ∧ sample_search_pump.no_wrap ∧
      (client.deliver sample_hyperdex 1 ⟨36, 3, 0, 5, 99, 1⟩ [] true
        (sample_search_pump.learn_id sample_hyperdex 1 99).requests.length 0
        (sample_search_pump.learn_id sample_hyperdex 1 99)).2 = ([], false, [0]) :=
  ⟨by decide, Pumping.enter sample_search_reachable, sample_search_pump_no_wrap,
   congrArg (fun r => r.2)
     (search_done sample_hyperdex (by decide) sample_search_pump _
       (Pumping.enter sample_search_reachable) sample_search_pump_no_wrap 1
       ⟨36, 3, 0, 5, 99, 1⟩ [] true rfl 0
       ⟨1, 5, ⟨100, 3⟩, 1, false, pending_kind.search 1 8⟩ 1 8 (by decide) rfl
       (by decide) rfl).2.1⟩


/-! ## Reconfiguration -/

theorem tinv_of (s s1 : client) (hC : s.chan_inv) (hT : s.table_inv)
    (hl : ∀ op1 ∈ s1.live, ∃ op ∈ s.live, op.chan = op1.chan ∧ op.inst = op1.inst)
    (ht : ∀ inst c, s1.channels inst = some c → c ≠ 0 → s.channels inst = some c)
    (hc : ∀ inst c, s1.channels inst = some c → c ≠ 0 →
      (s1.chans c).soc_closed = (s.chans c).soc_closed) : s1.table_inv := by
  obtain ⟨t1, t2, t3⟩ := hT
  refine ⟨?_, ?_, ?_⟩
  · intro op1 hm inst hi
    obtain ⟨op, hop, e1, e2⟩ := hl op1 hm
    have h0 : op1.chan ≠ 0 := by
      have := (hC.2.1 op hop).1
      omega
    rw [← e2]
    apply t1 op hop inst
    rw [e1]
    exact ht inst _ hi h0
  · intro inst c hi h0
    rw [hc inst c hi h0]
    exact t2 inst c (ht inst c hi h0) h0
  · intro i1 i2 c h1 h2 h0
    exact t3 i1 i2 c (ht i1 c h1 h0) (ht i2 c h2 h0) h0

theorem tinv_sub (s s1 : client) (hC : s.chan_inv) (hT : s.table_inv)
    (hch : s1.channels = s.channels)
    (hcl : ∀ c, (s1.chans c).soc_closed = (s.chans c).soc_closed)
    (hl : s1.live.Sublist s.live) : s1.table_inv :=
  tinv_of s s1 hC hT (fun op1 hm => ⟨op1, hl.subset hm, rfl, rfl⟩)
    (fun inst c h _ => by rw [← hch]; exact h) (fun _ c _ _ => hcl c)

theorem tinv_requests (s : client) (reqs : List (Option pending)) (hC : s.chan_inv)
    (hT : s.table_inv) (hl : reqs.reduceOption.Sublist s.live) :
    ({ s with requests := reqs } : client).table_inv :=
  tinv_sub s _ hC hT rfl (fun _ => rfl) hl

theorem tinv_set_none (s : client) (i : Nat) (hC : s.chan_inv) (hT : s.table_inv) :
    (s.set_request i none).table_inv :=
  tinv_sub s _ hC hT rfl (fun _ => rfl) (reduceOption_set_none_sublist s.requests i)

theorem tinv_erase (s : client) (inst : hinstance) (hC : s.chan_inv) (hT : s.table_inv) :
    (s.erase inst).table_inv := by
  refine tinv_of s _ hC hT (fun op1 hm => ⟨op1, hm, rfl, rfl⟩) ?_ (fun _ _ _ _ => rfl)
  intro i c hi _
  simp only [client.erase, Function.update_apply] at hi
  split at hi
  · exact absurd hi (by simp)
  · exact hi

theorem tinv_take_nonce (s : client) (chan : Nat) (hC : s.chan_inv) (hT : s.table_inv) :
    (s.take_nonce chan).1.table_inv := by
  refine tinv_sub s _ hC hT rfl ?_ (List.Sublist.refl _)
  intro c
  simp only [client.take_nonce, Function.update_apply]
  split
  · subst_vars; rfl
  · rfl

theorem tinv_learn_id (hx : hyperdex) (s : client) (chan : Nat) (to_ : entityid)
    (hC : s.chan_inv) (hT : s.table_inv) : (s.learn_id hx chan to_).table_inv := by
  refine tinv_sub s _ hC hT ?_ ?_ ?_
  · unfold client.learn_id; split <;> rfl
  · intro c
    unfold client.learn_id
    split
    · simp only [Function.update_apply]
      split
      · subst_vars; rfl
      · rfl
    · rfl
  · have : (s.learn_id hx chan to_).live = s.live := by
      unfold client.learn_id client.live; split <;> rfl
    rw [this]

theorem tinv_channels_index (s : client) (inst : hinstance) (hC : s.chan_inv)
    (hT : s.table_inv) : (s.channels_index inst).1.table_inv := by
  unfold client.channels_index
  cases h : s.channels inst with
  | some p => exact hT
  | none =>
    refine tinv_of s _ hC hT (fun op1 hm => ⟨op1, hm, rfl, rfl⟩) ?_ (fun _ _ _ _ => rfl)
    intro i c hi h0
    simp only [Function.update_apply] at hi
    split at hi
    · have : 0 = c := by simpa using hi
      exact absurd this.symm h0
    · exact hi

theorem tinv_new_channel (hx : hyperdex) (s : client) (inst : hinstance) (hC : s.chan_inv)
    (hT : s.table_inv) : (s.new_channel hx inst).1.table_inv := by
  obtain ⟨c1, c2, c3⟩ := hC
  obtain ⟨t1, t2, t3⟩ := hT
  refine ⟨?_, ?_, ?_⟩
  · intro op hm i hi
    have hb := c2 op hm
    simp only [client.new_channel, Function.update_apply] at hi
    split at hi
    · have : s.next_chan = op.chan := by simpa using hi
      omega
    · exact t1 op hm i hi
  · intro i c hi h0
    simp only [client.new_channel, Function.update_apply] at hi ⊢
    split at hi
    · have : s.next_chan = c := by simpa using hi
      rw [if_pos this.symm]
    · have := c3 i c hi
      rw [if_neg (by omega)]
      exact t2 i c hi h0
  · intro i1 i2 c h1 h2 h0
    simp only [client.new_channel, Function.update_apply] at h1 h2
    by_cases e1 : i1 = inst
    · by_cases e2 : i2 = inst
      · rw [e1, e2]
      · rw [if_pos e1] at h1
        rw [if_neg e2] at h2
        have : s.next_chan = c := by simpa using h1
        have := c3 i2 c h2
        omega
    · by_cases e2 : i2 = inst
      · rw [if_neg e1] at h1
        rw [if_pos e2] at h2
        have : s.next_chan = c := by simpa using h2
        have := c3 i1 c h1
        omega
      · rw [if_neg e1] at h1
        rw [if_neg e2] at h2
        exact t3 i1 i2 c h1 h2 h0

theorem tinv_enqueue (s : client) (chan : Nat) (op1 : pending) (inst0 : hinstance)
    (hT : s.table_inv) (h1 : 1 ≤ chan) (ht : s.channels inst0 = some chan)
    (hc : op1.chan = chan) (hi : op1.inst = inst0) :
    ({ (s.take_nonce chan).1 with requests := (s.take_nonce chan).1.requests ++ [some op1] }
      : client).table_inv := by
  obtain ⟨t1, t2, t3⟩ := hT
  have hlive : ({ (s.take_nonce chan).1 with
      requests := (s.take_nonce chan).1.requests ++ [some op1] } : client).live =
      s.live ++ [op1] := by
    simp [client.live, client.take_nonce, List.reduceOption_append]
  refine ⟨?_, ?_, t3⟩
  · intro op hm i hi1
    rw [hlive] at hm
    rcases List.mem_append.mp hm with hm | hm
    · exact t1 op hm i hi1
    · have : op = op1 := by simpa using hm
      subst this
      rw [hi]
      have hi2 : s.channels i = some chan := by rw [← hc]; exact hi1
      exact t3 i inst0 chan hi2 ht (by omega)
  · intro i c hi1 h0
    have := t2 i c hi1 h0
    simp only [client.take_nonce, Function.update_apply]
    split
    · subst_vars; exact this
    · exact this

theorem live_set_some (l : List (Option pending)) (j : Nat) (op op1 : pending)
    (hj : l[j]? = some (some op)) :
    op ∈ l.reduceOption ∧ ∀ a ∈ (l.set j (some op1)).reduceOption, a = op1 ∨ a ∈ l.reduceOption := by
  obtain ⟨l1, l2, e1, e2, _⟩ := set_decompose l j (some op) (some op1) hj
  refine ⟨?_, ?_⟩
  · rw [e1, List.reduceOption_append, List.reduceOption_cons_of_some]
    simp
  · intro a ha
    rw [e2, List.reduceOption_append, List.reduceOption_cons_of_some] at ha
    rw [e1, List.reduceOption_append, List.reduceOption_cons_of_some]
    rcases List.mem_append.mp ha with ha | ha
    · exact Or.inr (List.mem_append_left _ ha)
    · rcases List.mem_cons.mp ha with ha | ha
      · exact Or.inl ha
      · exact Or.inr (List.mem_append_right _ (List.mem_cons_of_mem _ ha))

theorem tinv_replace (s : client) (j : Nat) (op : pending) (hC : s.chan_inv)
    (hT : s.table_inv) (hj : s.requests[j]? = some (some op)) :
    ((s.take_nonce op.chan).1.set_request j
      (some { op with nonce := (s.take_nonce op.chan).2 })).table_inv := by
  obtain ⟨hop, hmem⟩ := live_set_some s.requests j op
    { op with nonce := (s.take_nonce op.chan).2 } hj
  refine tinv_of s _ hC hT ?_ (fun _ _ h _ => h) ?_
  · intro a ha
    rcases hmem a ha with e | hm
    · exact ⟨op, hop, by rw [e], by rw [e]⟩
    · exact ⟨a, hm, rfl, rfl⟩
  · intro _ c _ _
    simp only [client.take_nonce, client.set_request, Function.update_apply]
    split
    · subst_vars; rfl
    · rfl

theorem getD_live (s : client) (i : Nat) (op : pending)
    (h : s.requests.getD i none = some op) :
    s.requests[i]? = some (some op) ∧ op ∈ s.live := by
  have h1 : s.requests[i]? = some (some op) := by
    rw [List.getD_eq_getElem?_getD] at h
    cases hg : s.requests[i]? with
    | none => rw [hg] at h; simp at h
    | some x =>
      rw [hg] at h
      simp only [Option.getD_some] at h
      rw [h]
  exact ⟨h1, (mem_live_iff s op).mpr (List.getElem?_mem h1)⟩

theorem absent_disconnect (s : client) (i : Nat) (op : pending) (hT : s.table_inv)
    (hop : op ∈ s.live) : ((s.close op.chan).erase op.inst).absent op.chan := by
  intro inst hi
  simp only [client.erase, client.close, Function.update_apply] at hi
  split at hi
  · exact absurd hi (by simp)
  · rename_i hne
    exact hne (hT.1 op hop inst hi)

theorem tinv_disconnect (s : client) (i : Nat) (op : pending) (b : Bool) (hC : s.chan_inv)
    (hT : s.table_inv) (hop : op ∈ s.live) : (s.disconnect i op b).1.table_inv := by
  unfold client.disconnect
  cases b
  · exact tinv_set_none s i hC hT
  · simp only [if_true]
    refine tinv_of s _ hC hT ?_ ?_ ?_
    · intro a ha
      exact ⟨a, (reduceOption_set_none_sublist s.requests i).subset ha, rfl, rfl⟩
    · intro inst c hi _
      simp only [client.set_request, client.erase, client.close, Function.update_apply] at hi
      split at hi
      · exact absurd hi (by simp)
      · exact hi
    · intro inst c hi _
      simp only [client.set_request, client.erase, client.close, Function.update_apply] at hi ⊢
      split at hi
      · exact absurd hi (by simp)
      · rename_i hne
        by_cases hcc : c = op.chan
        · rw [hcc] at hi
          exact absurd (hT.1 op hop inst hi) hne
        · rw [if_neg hcc]

theorem tinv_result (hx : hyperdex) (s : client) (op : pending) (j : Nat) (msg_type : Nat)
    (msg : buffer) (send_ok : Bool) (hP : s.inv) (hT : s.table_inv)
    (hj : s.requests[j]? = some (some op)) :
    ((pending.result hx s op msg_type msg send_ok).1.set_request j
      (pending.result hx s op msg_type msg send_ok).2.1).table_inv := by
  unfold pending.result
  cases hk : op.kind with
  | get callback =>
    simp only
    have : (pending_get.result hx callback msg_type msg).1 = none := by
      unfold pending_get.result
      repeat' split
      all_goals rfl
    rw [this]
    exact tinv_set_none s j hP.1 hT
  | mutate expected callback =>
    simp only
    have : (pending_mutate.result hx expected callback msg_type msg).1 = none := by
      unfold pending_mutate.result
      repeat' split
      all_goals rfl
    rw [this]
    exact tinv_set_none s j hP.1 hT
  | search searchid callback =>
    simp only
    unfold pending_search.result
    by_cases h1 : msg_type = hx.RESP_SEARCH_ITEM
    · rw [if_pos h1]
      cases hx.unpack_buffer msg with
      | none => exact tinv_set_none s j hP.1 hT
      | some r =>
        obtain ⟨key, up⟩ := r
        simp only
        cases hx.unpack_vector up with
        | none => exact tinv_set_none s j hP.1 hT
        | some r2 =>
          obtain ⟨value, rest⟩ := r2
          simp only
          rcases send_cases hx (s.take_nonce op.chan).1 op.chan
            { op with nonce := (s.take_nonce op.chan).2 } op.ent op.inst
            (s.take_nonce op.chan).2 hx.REQ_SEARCH_NEXT (pack_be 8 searchid) send_ok
            with ⟨e1, e2⟩ | ⟨e1, e2⟩
          · rw [e1, e2]
            simp only [if_true]
            exact tinv_replace s j op hP.1 hT hj
          · rw [e1, e2]
            simp only [Bool.false_eq_true, if_false]
            exact tinv_set_none _ j (inv_erase _ _ (inv_take_nonce s op.chan hP)).1
              (tinv_erase _ _ (inv_take_nonce s op.chan hP).1 (tinv_take_nonce s op.chan hP.1 hT))
    · rw [if_neg h1]
      split
      · exact tinv_set_none s j hP.1 hT
      · exact tinv_set_none s j hP.1 hT

theorem deliver_tinv (hx : hyperdex) (chan : Nat) (h : header) (msg : buffer) (send_ok : Bool) :
    ∀ (fuel j : Nat) (s : client), s.inv → s.table_inv →
      (client.deliver hx chan h msg send_ok fuel j s).1.table_inv := by
  intro fuel
  induction fuel with
  | zero => intro j s hP hT; exact hT
  | succ fuel ih =>
    intro j s hP hT
    unfold client.deliver
    cases hj : s.requests.get? j with
    | none => exact hT
    | some r =>
      cases r with
      | none => exact ih (j + 1) s hP hT
      | some op =>
        simp only
        have hj1 : s.requests[j]? = some (some op) := by simpa using hj
        have hr := inv_result hx s op j h.type msg send_ok hP hj1
        have hr2 := tinv_result hx s op j h.type msg send_ok hP hT hj1
        split
        · split
          · exact hr2
          · exact ih (j + 1) _ hr hr2
        · exact ih (j + 1) s hP hT

theorem flush_scan_tinv (hx : hyperdex) (env : flush_env) :
    ∀ (fuel i : Nat) (s : client), s.inv → s.table_inv →
      (client.flush_scan hx env fuel i s).1.table_inv := by
  intro fuel
  induction fuel with
  | zero => intro i s hP hT; exact hT
  | succ fuel ih =>
    intro i s hP hT
    unfold client.flush_scan
    cases hi : s.requests.getD i none with
    | none => exact ih (i + 1) s hP hT
    | some op =>
      simp only
      have hop := (getD_live s i op hi).2
      split
      · exact tinv_disconnect s i op true hP.1 hT hop
      · split
        · exact tinv_set_none s i hP.1 hT
        · split
          · exact ih (i + 1) s hP hT
          · split
            · exact tinv_disconnect s i op false hP.1 hT hop
            · split
              · exact ih (i + 1) s hP hT
              · exact tinv_disconnect s i op true hP.1 hT hop
              · split
                · exact ih (i + 1) s hP hT
                · split
                  · exact tinv_disconnect s i op true hP.1 hT hop
                  · split
                    · exact tinv_disconnect s i op true hP.1 hT hop
                    · rename_i hdr msg heq
                      have hd := deliver_inv hx op.chan hdr msg env.send_ok
                        (s.learn_id hx op.chan hdr.to_).requests.length 0 _
                        (inv_learn_id hx s op.chan hdr.to_ hP)
                      have hd2 := deliver_tinv hx op.chan hdr msg env.send_ok
                        (s.learn_id hx op.chan hdr.to_).requests.length 0 _
                        (inv_learn_id hx s op.chan hdr.to_ hP)
                        (tinv_learn_id hx s op.chan hdr.to_ hP.1 hT)
                      split
                      · exact hd2
                      · exact ih (i + 1) _ hd hd2

theorem tinv_pop_null_front (s : client) (hP : s.inv) (hT : s.table_inv) :
    ({ s with requests := pop_null_front s.requests } : client).table_inv := by
  refine tinv_requests s _ hP.1 hT ?_
  rw [pop_null_front_live]
  exact List.Sublist.refl _

theorem tinv_mark_reconfigured (s : client) (config : configuration) (hP : s.inv)
    (hT : s.table_inv) :
    ({ s with config := config, requests := mark_reconfigured config s.requests }
      : client).table_inv := by
  have hlive :
      ({ s with config := config, requests := mark_reconfigured config s.requests } : client).live =
      s.live.map (fun op =>
        if config.instancefor op.ent ≠ op.inst then { op with reconfigured := true } else op) :=
    mark_reconfigured_live config s.requests
  refine tinv_of s _ hP.1 hT ?_ (fun _ _ h _ => h) (fun _ _ _ _ => rfl)
  intro op1 hm
  rw [hlive] at hm
  obtain ⟨a, ha, rfl⟩ := List.mem_map.mp hm
  refine ⟨a, ha, ?_, ?_⟩
  · split <;> rfl
  · split <;> rfl

theorem flush_iteration_tinv (hx : hyperdex) (s : client) (timeout : Int) (env : flush_env)
    (hP : s.inv) (hT : s.table_inv) : (s.flush_iteration hx timeout env).1.table_inv := by
  unfold client.flush_iteration
  split
  · exact hT
  · simp only
    split
    · exact hT
    · split
      · exact tinv_requests s _ hP.1 hT (timeout_front_sublist s.requests)
      · split
        · exact hT
        · split
          · exact hT
          · split
            · exact tinv_mark_reconfigured s _ hP hT
            · exact flush_scan_tinv hx env _ 0 s hP hT

theorem flush_one_tinv (hx : hyperdex) (timeout : Int) :
    ∀ (envs : List flush_env) (s s1 : client) (evs : List event) (ret : returncode),
      s.inv → s.table_inv → s.flush_one hx timeout envs = some (s1, evs, ret) →
      s1.table_inv := by
  intro envs
  induction envs with
  | nil =>
    intro s s1 evs ret hP hT h
    unfold client.flush_one at h
    split at h
    · simp only [Option.some.injEq, Prod.mk.injEq] at h
      rw [← h.1]
      exact tinv_pop_null_front s hP hT
    · exact absurd h (by simp)
  | cons env envs ih =>
    intro s s1 evs ret hP hT h
    unfold client.flush_one at h
    split at h
    · simp only [Option.some.injEq, Prod.mk.injEq] at h
      rw [← h.1]
      exact tinv_pop_null_front s hP hT
    · have hi := flush_iteration_inv hx _ timeout env (inv_pop_null_front s hP)
      have hi2 := flush_iteration_tinv hx _ timeout env (inv_pop_null_front s hP)
        (tinv_pop_null_front s hP hT)
      simp only at h
      split at h
      · simp only [Option.some.injEq, Prod.mk.injEq] at h
        rw [← h.1]
        exact hi2
      · split at h
        · exact absurd h (by simp)
        · rename_i s2 evs2 ret2 h2
          simp only [Option.some.injEq, Prod.mk.injEq] at h
          rw [← h.1]
          exact ih _ s2 evs2 ret2 hi hi2 h2

theorem flush_loop_tinv (hx : hyperdex) (original_timeout : Int) :
    ∀ (script : List (List flush_env × Int)) (timeout : Int) (s s1 : client)
      (evs : List event) (ret : returncode),
      s.inv → s.table_inv →
      client.flush_loop hx original_timeout script timeout s = some (s1, evs, ret) →
      s1.table_inv := by
  intro script
  induction script with
  | nil =>
    intro timeout s s1 evs ret hP hT h
    unfold client.flush_loop at h
    split at h
    · simp only [Option.some.injEq, Prod.mk.injEq] at h
      rw [← h.1]
      exact hT
    · exact absurd h (by simp)
  | cons x script ih =>
    intro timeout s s1 evs ret hP hT h
    obtain ⟨envs, peek_ms⟩ := x
    unfold client.flush_loop at h
    split at h
    · simp only [Option.some.injEq, Prod.mk.injEq] at h
      rw [← h.1]
      exact hT
    · split at h
      · exact absurd h (by simp)
      · rename_i s2 evs2 ret2 h2
        have hP2 := flush_one_inv hx timeout envs s s2 evs2 ret2 hP h2
        have hT2 := flush_one_tinv hx timeout envs s s2 evs2 ret2 hP hT h2
        by_cases hc : ret2 ≠ returncode.SUCCESS ∧ ret2 ≠ returncode.TIMEOUT
        · rw [if_pos hc] at h
          simp only [Option.some.injEq, Prod.mk.injEq] at h
          rw [← h.1]
          exact hT2
        · rw [if_neg hc] at h
          simp only at h
          by_cases hr : (if timeout ≥ 0 ∧
              (if timeout ≥ 0 then original_timeout - peek_ms else timeout) < 0
              then returncode.TIMEOUT else ret2) = returncode.TIMEOUT
          · rw [if_pos hr] at h
            simp only [Option.some.injEq, Prod.mk.injEq] at h
            rw [← h.1]
            exact tinv_requests s2 [] hP2.1 hT2 (by simp)
          · rw [if_neg hr] at h
            split at h
            · exact absurd h (by simp)
            · rename_i s3 evs3 ret3 h3
              simp only [Option.some.injEq, Prod.mk.injEq] at h
              rw [← h.1]
              exact ih _ s2 s3 evs3 ret3 hP2 hT2 h3

theorem result_rc_ne_xsend (op : pending) (ret : returncode) (chan : Nat) (packed : buffer)
    (ok : Bool) : op.result_rc ret ≠ event.xsend chan packed ok := by
  unfold pending.result_rc
  split <;> simp

theorem stays_absent_refl (s : client) : s.stays_absent s :=
  ⟨le_refl _, fun _ _ _ h => h⟩

theorem stays_absent_trans (s s1 s2 : client) (h1 : s.stays_absent s1)
    (h2 : s1.stays_absent s2) : s.stays_absent s2 :=
  ⟨le_trans h1.1 h2.1, fun c k1 k2 h =>
    h2.2 c k1 (lt_of_lt_of_le k2 h1.1) (h1.2 c k1 k2 h)⟩

theorem obtain_props (hx : hyperdex) (s : client) (inst : hinstance) (hP : s.inv)
    (hT : s.table_inv) :
    (s.obtain hx inst).1.inv ∧ (s.obtain hx inst).1.table_inv ∧
    1 ≤ (s.obtain hx inst).2 ∧ (s.obtain hx inst).2 < (s.obtain hx inst).1.next_chan ∧
    (s.obtain hx inst).1.channels inst = some (s.obtain hx inst).2 ∧
    (s.obtain hx inst).1.requests = s.requests ∧
    s.stays_absent (s.obtain hx inst).1 := by
  obtain ⟨i1, i2, i3, i4⟩ := inv_channels_index s inst hP
  have j1 := tinv_channels_index s inst hP.1 hT
  have hidx : (s.channels_index inst).1.channels inst = some (s.channels_index inst).2 := by
    unfold client.channels_index
    cases h : s.channels inst with
    | some p => simp only; exact h
    | none => simp
  have hmono : s.stays_absent (s.channels_index inst).1 := by
    refine ⟨le_of_eq i3.symm, ?_⟩
    intro c k1 k2 ha i hi
    unfold client.channels_index at hi
    cases h : s.channels inst with
    | some p =>
      rw [h] at hi
      exact ha i hi
    | none =>
      rw [h] at hi
      simp only [Function.update_apply] at hi
      split at hi
      · have : 0 = c := by simpa using hi
        omega
      · exact ha i hi
  unfold client.obtain
  by_cases h0 : (s.channels_index inst).2 = 0
  · rw [if_pos h0]
    refine ⟨inv_new_channel hx _ inst i1, tinv_new_channel hx _ inst i1.1 j1, ?_, ?_, ?_, ?_, ?_⟩
    · exact i1.1.1
    · simp [client.new_channel]
    · simp [client.new_channel]
    · exact i4
    · refine stays_absent_trans _ _ _ hmono ⟨?_, ?_⟩
      · simp [client.new_channel]
      · intro c k1 k2 ha i hi
        simp only [client.new_channel, Function.update_apply] at hi
        split at hi
        · have : (s.channels_index inst).1.next_chan = c := by simpa using hi
          omega
        · exact ha i hi
  · rw [if_neg h0]
    exact ⟨i1, j1, by omega, by omega, hidx, i4, hmono⟩

theorem absent_erase (s : client) (inst : hinstance) (chan : Nat) (hT : s.table_inv)
    (h1 : 1 ≤ chan) (ht : s.channels inst = some chan) : (s.erase inst).absent chan := by
  intro i hi
  simp only [client.erase, Function.update_apply] at hi
  split at hi
  · exact absurd hi (by simp)
  · rename_i hne
    exact hne (hT.2.2 i inst chan hi ht (by omega))

theorem stays_absent_erase (s : client) (inst : hinstance) : s.stays_absent (s.erase inst) := by
  refine ⟨le_refl _, ?_⟩
  intro c _ _ ha i hi
  simp only [client.erase, Function.update_apply] at hi
  split at hi
  · exact absurd hi (by simp)
  · exact ha i hi

theorem add_reqrep_tinv (hx : hyperdex) (s : client) (space : String) (key : buffer)
    (send_type : Nat) (send_msg : buffer) (op : pending) (connect_ok send_ok : Bool)
    (hP : s.inv) (hT : s.table_inv) :
    (s.add_reqrep hx space key send_type send_msg op connect_ok send_ok).1.table_inv ∧
    ∀ chan packed, event.xsend chan packed false ∈
        (s.add_reqrep hx space key send_type send_msg op connect_ok send_ok).2 →
      (s.add_reqrep hx space key send_type send_msg op connect_ok send_ok).1.absent chan := by
  rcases add_reqrep_cases hx s space key send_type send_msg op connect_ok send_ok with
    h | h | ⟨dst_ent, dst_inst, h | ⟨p, h⟩ | ⟨p, h⟩⟩
  · rw [h]
    refine ⟨hT, ?_⟩
    intro chan packed hm
    simp only [List.mem_singleton] at hm
    exact absurd hm.symm (result_rc_ne_xsend _ _ _ _ _)
  · rw [h]
    refine ⟨hT, ?_⟩
    intro chan packed hm
    simp only [List.mem_singleton] at hm
    exact absurd hm.symm (result_rc_ne_xsend _ _ _ _ _)
  · rw [h]
    refine ⟨tinv_channels_index s dst_inst hP.1 hT, ?_⟩
    intro chan packed hm
    simp only [List.mem_singleton] at hm
    exact absurd hm.symm (result_rc_ne_xsend _ _ _ _ _)
  · obtain ⟨o1, o2, o3, o4, o5, o6, o7⟩ := obtain_props hx s dst_inst hP hT
    rw [h]
    refine ⟨?_, ?_⟩
    · exact tinv_enqueue (s.obtain hx dst_inst).1 (s.obtain hx dst_inst).2 _ dst_inst o2 o3 o5
        rfl rfl
    · intro chan packed hm
      simp at hm
  · obtain ⟨o1, o2, o3, o4, o5, o6, o7⟩ := obtain_props hx s dst_inst hP hT
    rw [h]
    refine ⟨?_, ?_⟩
    · exact tinv_erase _ _ (inv_take_nonce _ _ o1).1 (tinv_take_nonce _ _ o1.1 o2)
    · intro chan packed hm
      simp only [List.mem_cons, event.xsend.injEq, List.mem_singleton, List.not_mem_nil,
        or_false] at hm
      rcases hm with hm | hm
      · rw [hm.1]
        exact absent_erase _ dst_inst _ (tinv_take_nonce _ _ o1.1 o2) o3 o5
      · exact absurd hm.symm (result_rc_ne_xsend _ _ _ _ _)


theorem search_tail (s s7 r : client) (evs0 evs1 : List event) (hm : s.stays_absent s7)
    (h0 : ∀ chan packed, event.xsend chan packed false ∈ evs0 →
      s7.absent chan ∧ 1 ≤ chan ∧ chan < s7.next_chan)
    (ih : r.table_inv ∧ s7.stays_absent r ∧
      ∀ chan packed, event.xsend chan packed false ∈ evs1 → r.absent chan) :
    r.table_inv ∧ s.stays_absent r ∧
      ∀ chan packed, event.xsend chan packed false ∈ evs0 ++ evs1 → r.absent chan := by
  refine ⟨ih.1, stays_absent_trans s s7 r hm ih.2.1, ?_⟩
  intro chan packed hmem
  rcases List.mem_append.mp hmem with h | h
  · obtain ⟨a1, a2, a3⟩ := h0 chan packed h
    exact ih.2.1.2 chan a2 a3 a1
  · exact ih.2.2 chan packed h

theorem search_loop_tinv (hx : hyperdex) (searchid callback : Nat) (req : buffer)
    (connect_ok send_ok : Nat → Bool) :
    ∀ (ents : List (entityid × hinstance)) (k : Nat) (s : client), s.inv → s.table_inv →
      (client.search_loop hx searchid callback req connect_ok send_ok ents k s).1.table_inv ∧
      s.stays_absent (client.search_loop hx searchid callback req connect_ok send_ok ents k s).1 ∧
      ∀ chan packed, event.xsend chan packed false ∈
          (client.search_loop hx searchid callback req connect_ok send_ok ents k s).2 →
        (client.search_loop hx searchid callback req connect_ok send_ok ents k s).1.absent chan := by
  intro ents
  induction ents with
  | nil =>
    intro k s hP hT
    refine ⟨hT, stays_absent_refl s, ?_⟩
    intro chan packed hm
    simp [client.search_loop] at hm
  | cons e rest ih =>
    intro k s hP hT
    obtain ⟨ent, inst⟩ := e
    obtain ⟨o1, o2, o3, o4, o5, o6, o7⟩ := obtain_props hx s inst hP hT
    obtain ⟨i1, i2, i3, i4⟩ := inv_channels_index s inst hP
    have j1 := tinv_channels_index s inst hP.1 hT
    have hob : s.obtain hx inst =
        (if (s.channels_index inst).2 = 0 then
          (s.channels_index inst).1.new_channel hx inst
        else ((s.channels_index inst).1, (s.channels_index inst).2)) := rfl
    have hidx : s.stays_absent (s.channels_index inst).1 := by
      refine ⟨le_of_eq i3.symm, ?_⟩
      intro c k1 k2 ha i hi
      unfold client.channels_index at hi
      cases h : s.channels inst with
      | some p =>
        rw [h] at hi
        exact ha i hi
      | none =>
        rw [h] at hi
        simp only [Function.update_apply] at hi
        split at hi
        · have : 0 = c := by simpa using hi
          omega
        · exact ha i hi
    unfold client.search_loop
    rcases hci : s.channels_index inst with ⟨s1, chan0⟩
    rw [hci] at i1 i2 i3 i4 j1 hob hidx
    simp only at i1 i2 i3 i4 j1 hob hidx ⊢
    split
    · have hs3 : ({ s1 with requests := (s1.requests ++
          [some (pending.new (pending_kind.search searchid callback))]).dropLast } : client).inv := by
        refine inv_requests s1 _ i1 ?_
        rw [List.dropLast_concat]
        exact List.Sublist.refl _
      have ht3 : ({ s1 with requests := (s1.requests ++
          [some (pending.new (pending_kind.search searchid callback))]).dropLast }
            : client).table_inv := by
        refine tinv_requests s1 _ i1.1 j1 ?_
        rw [List.dropLast_concat]
        exact List.Sublist.refl _
      exact search_tail s _ _
        [(pending.new (pending_kind.search searchid callback)).result_rc returncode.CONNECTFAIL]
        _ hidx (by
          intro chan packed hm
          simp only [List.mem_singleton] at hm
          exact absurd hm.symm (result_rc_ne_xsend _ _ _ _ _)) (ih (k + 1) _ hs3 ht3)
    · have hX : (if chan0 = 0 then
            client.new_channel hx { s1 with requests := s1.requests ++
              [some (pending.new (pending_kind.search searchid callback))] } inst
          else ({ s1 with requests := s1.requests ++
              [some (pending.new (pending_kind.search searchid callback))] }, chan0)) =
            ({ (s.obtain hx inst).1 with requests := (s.obtain hx inst).1.requests ++
              [some (pending.new (pending_kind.search searchid callback))] },
              (s.obtain hx inst).2) := by
        rw [hob]
        by_cases h0 : chan0 = 0
        · rw [if_pos h0, if_pos h0]; rfl
        · rw [if_neg h0, if_neg h0]
      rw [hX]
      generalize s.obtain hx inst = X at o1 o2 o3 o4 o5 o6 o7
      obtain ⟨s2, chan⟩ := X
      simp only at o1 o2 o3 o4 o5 o6 o7 ⊢
      cases send_ok k
      · simp only [client.send, Bool.false_eq_true, if_false, client.erase, client.take_nonce,
          List.dropLast_concat]
        have hs7 : ((s2.take_nonce chan).1.erase inst).inv :=
          inv_erase _ _ (inv_take_nonce s2 chan o1)
        have ht7 : ((s2.take_nonce chan).1.erase inst).table_inv :=
          tinv_erase _ _ (inv_take_nonce s2 chan o1).1 (tinv_take_nonce s2 chan o1.1 o2)
        have hab : ((s2.take_nonce chan).1.erase inst).absent chan :=
          absent_erase _ inst chan (tinv_take_nonce s2 chan o1.1 o2) o3 o5
        have hm7 : s.stays_absent ((s2.take_nonce chan).1.erase inst) :=
          stays_absent_trans _ _ _ o7 (stays_absent_erase (s2.take_nonce chan).1 inst)
        exact search_tail s ((s2.take_nonce chan).1.erase inst) _ _ _ hm7 (by
          intro c packed hm
          simp only [List.mem_cons, event.xsend.injEq, List.mem_singleton, List.not_mem_nil,
            or_false] at hm
          rcases hm with hm | hm
          · rw [hm.1]
            exact ⟨hab, o3, o4⟩
          · exact absurd hm.symm (result_rc_ne_xsend _ _ _ _ _)) (ih (k + 1) _ hs7 ht7)
      · simp only [client.send, if_true, client.take_nonce, List.dropLast_concat]
        have hs7 := inv_enqueue s2 chan
          { pending.new (pending_kind.search searchid callback) with
              chan := chan, ent := ent, inst := inst, nonce := (s2.take_nonce chan).2 }
          o1 o3 o4 rfl rfl
        have ht7 := tinv_enqueue s2 chan
          { pending.new (pending_kind.search searchid callback) with
              chan := chan, ent := ent, inst := inst, nonce := (s2.take_nonce chan).2 }
          inst o2 o3 o5 rfl rfl
        exact search_tail s _ _ _ _ o7 (by
          intro c packed hm
          simp at hm) (ih (k + 1) _ hs7 ht7)

theorem connect_loop_tinv (s : client) :
    ∀ (loops : List (coordinatorlink.returncode × Option configuration)) (s1 : client)
      (ret : returncode), s.table_inv → client.connect_loop s loops = some (s1, ret) →
      s1.table_inv := by
  intro loops
  induction loops with
  | nil => intro s1 ret _ h; simp [client.connect_loop] at h
  | cons x rest ih =>
    intro s1 ret hT h
    obtain ⟨rc, cfg⟩ := x
    cases rc <;> cases cfg <;> simp only [client.connect_loop, Option.some.injEq,
      Prod.mk.injEq] at h
    all_goals first
      | exact ih s1 ret hT h
      | (rw [← h.1]; exact hT)

theorem update_tinv (hx : hyperdex) (s s1 : client) (evs : List event) (space : String)
    (key : buffer) (value : List (String × buffer)) (callback : Nat) (c1 c2 : Bool)
    (hP : s.inv) (hT : s.table_inv)
    (h : s.update hx space key value callback c1 c2 = some (s1, evs)) :
    s1.table_inv ∧ ∀ chan packed, event.xsend chan packed false ∈ evs → s1.absent chan := by
  unfold client.update at h
  simp only at h
  split at h
  · simp only [Option.some.injEq, Prod.mk.injEq] at h
    rw [← h.1, ← h.2]
    exact ⟨hT, by intro chan packed hm; simp at hm⟩
  · split at h
    · exact absurd h (by simp)
    · split at h
      · simp only [Option.some.injEq, Prod.mk.injEq] at h
        rw [← h.1, ← h.2]
        exact ⟨hT, by intro chan packed hm; simp at hm⟩
      · simp only [Option.some.injEq] at h
        have := add_reqrep_tinv hx s space key hx.REQ_UPDATE
          (update_msg hx key (update_encode
            (s.config.lookup_space_dimensions (s.config.lookup_spaceid space)) value))
          (pending.new (pending_kind.mutate hx.RESP_UPDATE callback)) c1 c2 hP hT
        rw [h] at this
        exact this

theorem search_tinv (hx : hyperdex) (s s1 : client) (evs : List event) (space : String)
    (equality : List (String × buffer)) (range : List (String × Nat × Nat)) (callback : Nat)
    (hint : Nat) (c1 c2 : Nat → Bool) (hP : s.inv) (hT : s.table_inv)
    (h : s.search hx space equality range callback hint c1 c2 = some (s1, evs)) :
    s1.table_inv ∧ ∀ chan packed, event.xsend chan packed false ∈ evs → s1.absent chan := by
  unfold client.search at h
  simp only at h
  split at h
  · simp only [Option.some.injEq, Prod.mk.injEq] at h
    rw [← h.1, ← h.2]
    exact ⟨hT, by intro chan packed hm; simp at hm⟩
  · split at h
    · exact absurd h (by simp)
    · split at h
      · simp only [Option.some.injEq, Prod.mk.injEq] at h
        rw [← h.1, ← h.2]
        exact ⟨hT, by intro chan packed hm; simp at hm⟩
      · split at h
        · simp only [Option.some.injEq, Prod.mk.injEq] at h
          rw [← h.1, ← h.2]
          exact ⟨hT, by intro chan packed hm; simp at hm⟩
        · simp only [Option.some.injEq] at h
          rename_i srch _
          have := search_loop_tinv hx s.searchid callback
            (pack_be 8 s.searchid ++ hx.pack_search srch) c1 c2
            (if hint = 65535 then s.config.search_entities (s.config.lookup_spaceid space) srch
             else s.config.search_entities_subspace (s.config.lookup_spaceid space) hint srch)
            0 { s with searchid := (s.searchid + 1) % 2 ^ 64 }
            (inv_of_sublist s _ hP rfl (fun _ => le_refl _) hP.1.2.2 (List.Sublist.refl _))
            (tinv_sub s _ hP.1 hT rfl (fun _ => rfl) (List.Sublist.refl _))
          rw [h] at this
          exact ⟨this.1, this.2.2⟩

theorem reachable_tinv (hx : hyperdex) (s : client) (hr : Reachable hx s) : s.table_inv := by
  induction hr with
  | init config =>
    refine ⟨?_, ?_, ?_⟩
    · intro op hm; simp [client.live, client.init] at hm
    · intro i c hi; simp [client.init] at hi
    · intro i1 i2 c hi; simp [client.init] at hi
  | connect env hr h ih =>
    unfold client.connect at h
    split at h
    · exact connect_loop_tinv _ _ _ _ ih h
    · simp only [Option.some.injEq, Prod.mk.injEq] at h
      rw [← h.1]; exact ih
    · simp only [Option.some.injEq, Prod.mk.injEq] at h
      rw [← h.1]; exact ih
  | get space key callback c1 c2 hr ih =>
    exact (add_reqrep_tinv hx _ _ _ _ _ _ _ _ (reachable_inv hx _ hr) ih).1
  | put space key value callback c1 c2 hr ih =>
    exact (add_reqrep_tinv hx _ _ _ _ _ _ _ _ (reachable_inv hx _ hr) ih).1
  | del space key callback c1 c2 hr ih =>
    exact (add_reqrep_tinv hx _ _ _ _ _ _ _ _ (reachable_inv hx _ hr) ih).1
  | update space key value callback c1 c2 hr h ih =>
    exact (update_tinv hx _ _ _ space key value callback c1 c2 (reachable_inv hx _ hr) ih h).1
  | search space equality range callback hint c1 c2 hr h ih =>
    exact (search_tinv hx _ _ _ space equality range callback hint c1 c2
      (reachable_inv hx _ hr) ih h).1
  | outstanding hr ih =>
    refine tinv_requests _ _ (reachable_inv hx _ hr).1 ih ?_
    rw [outstanding_loop_live]
    exact List.Sublist.refl _
  | flush_one timeout envs hr h ih =>
    exact flush_one_tinv hx timeout envs _ _ _ _ (reachable_inv hx _ hr) ih h
  | flush timeout script hr h ih =>
    exact flush_loop_tinv hx timeout script timeout _ _ _ _ (reachable_inv hx _ hr) ih h

theorem pumping_tinv (hx : hyperdex) (s : client) (hp : Pumping hx s) : s.table_inv := by
  induction hp with
  | enter hr => exact tinv_pop_null_front _ (reachable_inv hx _ hr) (reachable_tinv hx _ hr)
  | again hp ih => exact tinv_pop_null_front _ (pumping_inv hx _ hp) ih
  | reconfigured config hp ih => exact tinv_mark_reconfigured _ config (pumping_inv hx _ hp) ih
  | scanned env fuel i hp ih => exact flush_scan_tinv hx env fuel i _ (pumping_inv hx _ hp) ih

theorem get_result_no_xsend (hx : hyperdex) (callback msg_type : Nat) (msg : buffer)
    (chan : Nat) (packed : buffer) (ok : Bool) :
    event.xsend chan packed ok ∉ (pending_get.result hx callback msg_type msg).2.2 := by
  unfold pending_get.result
  repeat' split
  all_goals simp

theorem mutate_result_no_xsend (hx : hyperdex) (expected callback msg_type : Nat)
    (msg : buffer) (chan : Nat) (packed : buffer) (ok : Bool) :
    event.xsend chan packed ok ∉
      (pending_mutate.result hx expected callback msg_type msg).2.2 := by
  unfold pending_mutate.result
  repeat' split
  all_goals simp

theorem result_send_failure (hx : hyperdex) (s : client) (op : pending) (msg_type : Nat)
    (msg : buffer) (send_ok : Bool) (hT : s.table_inv) (hop : op ∈ s.live)
    (chan : Nat) (packed : buffer)
    (hm : event.xsend chan packed false ∈ (pending.result hx s op msg_type msg send_ok).2.2.2) :
    chan = op.chan ∧
    op.result_rc returncode.DISCONNECT ∈ (pending.result hx s op msg_type msg send_ok).2.2.2 ∧
    (pending.result hx s op msg_type msg send_ok).1.absent op.chan := by
  unfold pending.result at hm ⊢
  cases hk : op.kind with
  | get callback =>
    rw [hk] at hm
    exact absurd hm (get_result_no_xsend hx callback msg_type msg chan packed false)
  | mutate expected callback =>
    rw [hk] at hm
    exact absurd hm (mutate_result_no_xsend hx expected callback msg_type msg chan packed false)
  | search searchid callback =>
    rw [hk] at hm
    simp only at hm ⊢
    unfold pending_search.result at hm ⊢
    by_cases h1 : msg_type = hx.RESP_SEARCH_ITEM
    · rw [if_pos h1] at hm ⊢
      cases hb : hx.unpack_buffer msg with
      | none =>
        rw [hb] at hm
        simp at hm
      | some r =>
        obtain ⟨key, up⟩ := r
        rw [hb] at hm
        simp only at hm ⊢
        cases hv : hx.unpack_vector up with
        | none =>
          rw [hv] at hm
          simp at hm
        | some r2 =>
          obtain ⟨value, rest⟩ := r2
          rw [hv] at hm
          simp only at hm ⊢
          cases send_ok
          · simp only [client.send, Bool.false_eq_true, if_false, List.mem_cons,
              event.xsend.injEq, List.mem_singleton, List.not_mem_nil, or_false] at hm ⊢
            rcases hm with hm | hm
            · refine ⟨hm.1, Or.inr ?_, ?_⟩
              · simp [pending.result_rc, hk]
              · intro inst hi
                simp only [client.erase, client.take_nonce, Function.update_apply] at hi
                split at hi
                · exact absurd hi (by simp)
                · rename_i hne
                  exact hne (hT.1 op hop inst hi)
            · exact absurd hm.symm (result_rc_ne_xsend _ _ _ _ _)
          · simp [client.send] at hm
    · rw [if_neg h1] at hm
      split at hm
      · simp at hm
      · simp at hm

theorem deliver_send_failure (hx : hyperdex) (chan : Nat) (h : header) (msg : buffer)
    (send_ok : Bool) (c : Nat) (packed : buffer) :
    ∀ (fuel j : Nat) (s : client), s.inv → s.table_inv →
      ((client.deliver hx chan h msg send_ok fuel j s).2.2.1 = false →
        (client.deliver hx chan h msg send_ok fuel j s).2.1 = []) ∧
      (event.xsend c packed false ∈ (client.deliver hx chan h msg send_ok fuel j s).2.1 →
        (client.deliver hx chan h msg send_ok fuel j s).1.absent c) := by
  intro fuel
  induction fuel with
  | zero =>
    intro j s _ _
    exact ⟨fun _ => rfl, fun hm => by simp [client.deliver] at hm⟩
  | succ fuel ih =>
    intro j s hP hT
    unfold client.deliver
    cases hj : s.requests.get? j with
    | none => exact ⟨fun _ => rfl, fun hm => by simp at hm⟩
    | some r =>
      cases r with
      | none => exact ih (j + 1) s hP hT
      | some op =>
        simp only
        have hj1 : s.requests[j]? = some (some op) := by simpa using hj
        have hop : op ∈ s.live := (mem_live_iff s op).mpr (List.getElem?_mem hj1)
        by_cases hm : s.matches chan h op
        · rw [if_pos hm]
          cases hc : (pending.result hx s op h.type msg send_ok).2.2.1 with
          | true =>
            simp only [if_true]
            refine ⟨fun hf => absurd hf (by simp), ?_⟩
            intro hmem
            exact (result_send_failure hx s op h.type msg send_ok hT hop c packed hmem).1 ▸
              (result_send_failure hx s op h.type msg send_ok hT hop c packed hmem).2.2
          | false =>
            have hr := result_not_called_back hx s op h.type msg send_ok hc
            have hr1 := inv_result hx s op j h.type msg send_ok hP hj1
            have hr2 := tinv_result hx s op j h.type msg send_ok hP hT hj1
            rw [hr] at hr1 hr2 ⊢
            simp only [Bool.false_eq_true, if_false, List.nil_append] at hr1 hr2 ⊢
            exact ih (j + 1) _ hr1 hr2
        · rw [if_neg hm]
          exact ih (j + 1) s hP hT

theorem flush_scan_send_failure (hx : hyperdex) (env : flush_env) (c : Nat) (packed : buffer) :
    ∀ (fuel i : Nat) (s : client), s.inv → s.table_inv →
      event.xsend c packed false ∈ (client.flush_scan hx env fuel i s).2.1 →
      (client.flush_scan hx env fuel i s).1.absent c := by
  intro fuel
  induction fuel with
  | zero => intro i s _ _ hm; simp [client.flush_scan] at hm
  | succ fuel ih =>
    intro i s hP hT
    unfold client.flush_scan
    cases hi : s.requests.getD i none with
    | none => exact ih (i + 1) s hP hT
    | some op =>
      simp only
      have hdis : ∀ b, event.xsend c packed false ∉ (s.disconnect i op b).2 := by
        intro b hm
        simp only [client.disconnect, List.mem_singleton] at hm
        exact absurd hm.symm (result_rc_ne_xsend _ _ _ _ _)
      split
      · intro hm; exact absurd hm (hdis true)
      · split
        · intro hm
          simp only [List.mem_singleton] at hm
          exact absurd hm.symm (result_rc_ne_xsend _ _ _ _ _)
        · split
          · exact ih (i + 1) s hP hT
          · split
            · intro hm; exact absurd hm (hdis false)
            · split
              · exact ih (i + 1) s hP hT
              · intro hm; exact absurd hm (hdis true)
              · split
                · exact ih (i + 1) s hP hT
                · split
                  · intro hm; exact absurd hm (hdis true)
                  · split
                    · intro hm; exact absurd hm (hdis true)
                    · rename_i hdr msg heq
                      have hd := deliver_inv hx op.chan hdr msg env.send_ok
                        (s.learn_id hx op.chan hdr.to_).requests.length 0 _
                        (inv_learn_id hx s op.chan hdr.to_ hP)
                      have hd2 := deliver_tinv hx op.chan hdr msg env.send_ok
                        (s.learn_id hx op.chan hdr.to_).requests.length 0 _
                        (inv_learn_id hx s op.chan hdr.to_ hP)
                        (tinv_learn_id hx s op.chan hdr.to_ hP.1 hT)
                      have hd3 := deliver_send_failure hx op.chan hdr msg env.send_ok c packed
                        (s.learn_id hx op.chan hdr.to_).requests.length 0 _
                        (inv_learn_id hx s op.chan hdr.to_ hP)
                        (tinv_learn_id hx s op.chan hdr.to_ hP.1 hT)
                      split
                      · exact hd3.2
                      · rename_i hcb
                        have hnil := hd3.1 (by simpa using hcb)
                        intro hm
                        simp only at hm
                        rw [hnil, List.nil_append] at hm
                        exact ih (i + 1) _ hd hd2 hm

/-- Counterexample for C18: `sample_evicted` is reached by a `get` whose `xsend`
succeeds followed by a `get` to the same instance whose `xsend` fails. The op of
the first `get` is still live in the queue, bound to channel 1, while the failed
send has erased the entry of its instance: no entry of the channel table holds
channel 1. -/
theorem live_op_channel_evicted :
    Reachable sample_hyperdex sample_evicted ∧
    sample_evicted.requests = [some sample_one_op] ∧ sample_one_op.chan = 1 ∧
    sample_evicted.absent 1 := by
  refine ⟨?_, by decide, rfl, ?_⟩
  · exact Reachable.get "users" [43] 8 true false
      (Reachable.get "users" [42] 7 true true (Reachable.init sample_config))
  · have e : sample_evicted.channels =
        Function.update (Function.update (Function.update (fun _ => none) ⟨100, 3⟩ (some 0))
          ⟨100, 3⟩ (some 1)) ⟨100, 3⟩ none := rfl
    intro inst hi
    rw [e] at hi
    simp only [Function.update_apply] at hi
    split at hi <;> simp at hi

/-- Claim C18, amended. In every client state reachable through the public
operations, each live pending op holds a channel that exists: its pointer is not
null and names an allocated channel object. The channel need not be in the channel
table; but an entry of the table that holds it is the entry of the instance of the
op, and then the socket of the channel is open. Moreover the table holds the
channel at the moment the dispatcher has sent a request on it. -/
theorem live_op_channel_valid (hx : hyperdex) (s : client) (hr : Reachable hx s) :
    (∀ (i : Nat) (op : pending), s.requests[i]? = some (some op) →
      1 ≤ op.chan ∧ op.chan < s.next_chan ∧
      ∀ inst, s.channels inst = some op.chan →
        inst = op.inst ∧ (s.chans op.chan).soc_closed = false) ∧
    (∀ (space : String) (key : buffer) (send_type : Nat) (send_msg : buffer) (op : pending)
        (connect_ok send_ok : Bool) (chan : Nat) (packed : buffer),
      event.xsend chan packed true ∈
          (s.add_reqrep hx space key send_type send_msg op connect_ok send_ok).2 →
        ∃ inst, (s.add_reqrep hx space key send_type send_msg op connect_ok send_ok).1.channels
          inst = some chan) := by
  have hP := reachable_inv hx s hr
  have hT := reachable_tinv hx s hr
  refine ⟨?_, ?_⟩
  · intro i op hi
    have hop : op ∈ s.live := (mem_live_iff s op).mpr (List.getElem?_mem hi)
    have hb := hP.1.2.1 op hop
    refine ⟨hb.1, hb.2, ?_⟩
    intro inst hc
    exact ⟨hT.1 op hop inst hc, hT.2.1 inst op.chan hc (by omega)⟩
  · intro space key send_type send_msg op connect_ok send_ok chan packed hm
    rcases add_reqrep_cases hx s space key send_type send_msg op connect_ok send_ok with
      h | h | ⟨dst_ent, dst_inst, h | ⟨p, h⟩ | ⟨p, h⟩⟩
    · rw [h] at hm
      simp only [List.mem_singleton] at hm
      exact absurd hm.symm (result_rc_ne_xsend _ _ _ _ _)
    · rw [h] at hm
      simp only [List.mem_singleton] at hm
      exact absurd hm.symm (result_rc_ne_xsend _ _ _ _ _)
    · rw [h] at hm
      simp only [List.mem_singleton] at hm
      exact absurd hm.symm (result_rc_ne_xsend _ _ _ _ _)
    · obtain ⟨o1, o2, o3, o4, o5, o6, o7⟩ := obtain_props hx s dst_inst hP hT
      rw [h] at hm ⊢
      simp only [List.mem_singleton, event.xsend.injEq] at hm
      rw [hm.1]
      exact ⟨dst_inst, o5⟩
    · rw [h] at hm
      simp only [List.mem_cons, event.xsend.injEq, List.mem_singleton, List.not_mem_nil,
        or_false] at hm
      rcases hm with hm | hm
      · exact absurd hm.2.2 (by simp)
      · exact absurd hm.symm (result_rc_ne_xsend _ _ _ _ _)

/-- Witness for `live_op_channel_valid`: the state `sample_evicted`, whose live op
holds channel 1 although the table does not. -/
theorem live_op_channel_valid_witness :
    Reachable sample_hyperdex sample_evicted ∧
    (1 ≤ sample_one_op.chan ∧ sample_one_op.chan < sample_evicted.next_chan ∧
      ∀ inst, sample_evicted.channels inst = some sample_one_op.chan →
        inst = sample_one_op.inst ∧
          (sample_evicted.chans sample_one_op.chan).soc_closed = false) :=
  have hr : Reachable sample_hyperdex sample_evicted :=
    Reachable.get "users" [43] 8 true false
      (Reachable.get "users" [42] 7 true true (Reachable.init sample_config))
  ⟨hr, (live_op_channel_valid sample_hyperdex sample_evicted hr).1 0 sample_one_op (by decide)⟩


/-! ## Callbacks of get and mutate ops: conservation -/

theorem calls_nil (k : Bool × Nat) : calls k [] = 0 := rfl

theorem calls_append (k : Bool × Nat) (a b : List event) :
    calls k (a ++ b) = calls k a + calls k b := by
  unfold calls
  exact List.countP_append _ a b

theorem calls_cons (k : Bool × Nat) (e : event) (l : List event) :
    calls k (e :: l) = calls k l + (if e.callback_key = some k then 1 else 0) := by
  unfold calls
  rw [List.countP_cons]
  simp

theorem waiting_append (k : Bool × Nat) (a b : List (Option pending)) :
    waiting k (a ++ b) = waiting k a + waiting k b := by
  unfold waiting
  exact List.countP_append _ a b

theorem waiting_cons (k : Bool × Nat) (x : Option pending) (l : List (Option pending)) :
    waiting k (x :: l) =
      waiting k l + (if x.bind pending.callback_key = some k then 1 else 0) := by
  unfold waiting
  rw [List.countP_cons]
  simp

theorem waiting_none_cons (k : Bool × Nat) (l : List (Option pending)) :
    waiting k (none :: l) = waiting k l := by
  rw [waiting_cons]
  simp

theorem result_rc_key (op : pending) (ret : returncode) :
    (op.result_rc ret).callback_key = op.callback_key := by
  cases hk : op.kind <;> simp [pending.result_rc, pending.callback_key, event.callback_key, hk]

theorem calls_result_rc (k : Bool × Nat) (op : pending) (ret : returncode) :
    calls k [op.result_rc ret] = if op.callback_key = some k then 1 else 0 := by
  rw [calls_cons, calls_nil, result_rc_key]
  simp

theorem waiting_set (k : Bool × Nat) (l : List (Option pending)) (j : Nat)
    (x y : Option pending) (hj : l[j]? = some x) :
    waiting k (l.set j y) + (if x.bind pending.callback_key = some k then 1 else 0) =
      waiting k l + (if y.bind pending.callback_key = some k then 1 else 0) := by
  obtain ⟨l1, l2, e1, e2, _⟩ := set_decompose l j x y hj
  rw [e2, e1, waiting_append, waiting_append, waiting_cons, waiting_cons]
  omega

theorem waiting_set_none (k : Bool × Nat) (l : List (Option pending)) (j : Nat) (op : pending)
    (hj : l[j]? = some (some op)) :
    waiting k (l.set j none) + (if op.callback_key = some k then 1 else 0) = waiting k l := by
  have := waiting_set k l j (some op) none hj
  simpa using this

theorem waiting_pop_null_front (k : Bool × Nat) (l : List (Option pending)) :
    waiting k (pop_null_front l) = waiting k l := by
  induction l with
  | nil => rfl
  | cons x rest ih =>
    cases x with
    | none => rw [pop_null_front, waiting_none_cons]; exact ih
    | some op => rfl

theorem waiting_timeout_front (k : Bool × Nat) (l : List (Option pending)) :
    calls k (timeout_front l).2 + waiting k (timeout_front l).1 = waiting k l := by
  induction l with
  | nil => rfl
  | cons x rest ih =>
    cases x with
    | none => rw [timeout_front, waiting_none_cons]; exact ih
    | some op =>
      rw [timeout_front, waiting_cons, calls_result_rc]
      simp only [Option.some_bind]
      omega

theorem waiting_timeout_all (k : Bool × Nat) (l : List (Option pending)) :
    calls k (timeout_all l) = waiting k l := by
  induction l with
  | nil => rfl
  | cons x rest ih =>
    cases x with
    | none => rw [timeout_all, waiting_none_cons]; exact ih
    | some op =>
      rw [timeout_all, waiting_cons, calls_cons, result_rc_key, ih]
      simp only [Option.some_bind]

theorem waiting_mark_reconfigured (k : Bool × Nat) (config : configuration)
    (l : List (Option pending)) : waiting k (mark_reconfigured config l) = waiting k l := by
  induction l with
  | nil => rfl
  | cons x rest ih =>
    have e : mark_reconfigured config (x :: rest) =
        x.map (fun op => if config.instancefor op.ent ≠ op.inst then
          { op with reconfigured := true } else op) :: mark_reconfigured config rest := rfl
    have hkey : ∀ op : pending, (if config.instancefor op.ent ≠ op.inst then
        { op with reconfigured := true } else op).callback_key = op.callback_key := by
      intro op
      split <;> rfl
    rw [e, waiting_cons, waiting_cons, ih]
    cases x with
    | none => rfl
    | some op => simp only [Option.map_some', Option.some_bind, hkey]

theorem waiting_outstanding_loop (k : Bool × Nat) (l : List (Option pending)) :
    waiting k (outstanding_loop l).1 = waiting k l := by
  induction l with
  | nil => rfl
  | cons x rest ih =>
    cases x with
    | none => rw [outstanding_loop, waiting_none_cons]; exact ih
    | some op =>
      rw [outstanding_loop]
      simp only
      rw [waiting_cons, waiting_cons, ih]

theorem get_result_shape (hx : hyperdex) (callback msg_type : Nat) (msg : buffer) :
    ∃ ret value, pending_get.result hx callback msg_type msg =
      (none, true, [event.get_callback callback ret value]) := by
  unfold pending_get.result
  repeat' split
  all_goals exact ⟨_, _, rfl⟩

theorem mutate_result_shape (hx : hyperdex) (expected callback msg_type : Nat)
    (msg : buffer) :
    ∃ ret, pending_mutate.result hx expected callback msg_type msg =
      (none, true, [event.mutate_callback callback ret]) := by
  unfold pending_mutate.result
  repeat' split
  all_goals exact ⟨_, rfl⟩

theorem get_result_calls (hx : hyperdex) (callback msg_type : Nat) (msg : buffer)
    (k : Bool × Nat) :
    (pending_get.result hx callback msg_type msg).1 = none ∧
    calls k (pending_get.result hx callback msg_type msg).2.2 =
      if some (true, callback) = some k then 1 else 0 := by
  obtain ⟨ret, value, e⟩ := get_result_shape hx callback msg_type msg
  rw [e]
  refine ⟨rfl, ?_⟩
  simp only [calls_cons, calls_nil, event.callback_key, Nat.zero_add]

theorem mutate_result_calls (hx : hyperdex) (expected callback msg_type : Nat) (msg : buffer)
    (k : Bool × Nat) :
    (pending_mutate.result hx expected callback msg_type msg).1 = none ∧
    calls k (pending_mutate.result hx expected callback msg_type msg).2.2 =
      if some (false, callback) = some k then 1 else 0 := by
  obtain ⟨ret, e⟩ := mutate_result_shape hx expected callback msg_type msg
  rw [e]
  refine ⟨rfl, ?_⟩
  simp only [calls_cons, calls_nil, event.callback_key, Nat.zero_add]

theorem search_result_calls (hx : hyperdex) (s : client) (op : pending)
    (searchid callback msg_type : Nat) (msg : buffer) (send_ok : Bool) (k : Bool × Nat)
    (hk : op.kind = pending_kind.search searchid callback) :
    (pending_search.result hx s op searchid callback msg_type msg send_ok).1.requests =
      s.requests ∧
    calls k (pending_search.result hx s op searchid callback msg_type msg send_ok).2.2.2 = 0 ∧
    (pending_search.result hx s op searchid callback msg_type msg send_ok).2.1.bind
      pending.callback_key = none := by
  unfold pending_search.result
  by_cases h1 : msg_type = hx.RESP_SEARCH_ITEM
  · rw [if_pos h1]
    cases hx.unpack_buffer msg with
    | none => simp [calls, event.callback_key]
    | some r =>
      obtain ⟨key, up⟩ := r
      simp only
      cases hx.unpack_vector up with
      | none => simp [calls, event.callback_key]
      | some r2 =>
        obtain ⟨value, rest⟩ := r2
        simp only
        cases send_ok
        · simp [client.send, client.erase, client.take_nonce, calls, event.callback_key,
            pending.result_rc, hk]
        · simp [client.send, client.take_nonce, calls, event.callback_key,
            pending.callback_key, hk]
  · rw [if_neg h1]
    split
    · simp [calls]
    · simp [calls, event.callback_key]

theorem result_calls (hx : hyperdex) (s : client) (op : pending) (msg_type : Nat)
    (msg : buffer) (send_ok : Bool) (k : Bool × Nat) :
    (pending.result hx s op msg_type msg send_ok).1.requests = s.requests ∧
    calls k (pending.result hx s op msg_type msg send_ok).2.2.2 +
        (if (pending.result hx s op msg_type msg send_ok).2.1.bind pending.callback_key = some k
          then 1 else 0) =
      if op.callback_key = some k then 1 else 0 := by
  unfold pending.result
  cases hk : op.kind with
  | get callback =>
    simp only
    obtain ⟨e1, e2⟩ := get_result_calls hx callback msg_type msg k
    rw [e1, e2]
    simp [pending.callback_key, hk]
  | mutate expected callback =>
    simp only
    obtain ⟨e1, e2⟩ := mutate_result_calls hx expected callback msg_type msg k
    rw [e1, e2]
    simp [pending.callback_key, hk]
  | search searchid callback =>
    simp only
    obtain ⟨e1, e2, e3⟩ := search_result_calls hx s op searchid callback msg_type msg send_ok k hk
    rw [e2, e3]
    refine ⟨e1, ?_⟩
    simp [pending.callback_key, hk]

theorem result_conserves (hx : hyperdex) (s : client) (op : pending) (j : Nat)
    (msg_type : Nat) (msg : buffer) (send_ok : Bool) (k : Bool × Nat)
    (hj : s.requests[j]? = some (some op)) :
    calls k (pending.result hx s op msg_type msg send_ok).2.2.2 +
      waiting k ((pending.result hx s op msg_type msg send_ok).1.set_request j
        (pending.result hx s op msg_type msg send_ok).2.1).requests = waiting k s.requests := by
  obtain ⟨e1, e2⟩ := result_calls hx s op msg_type msg send_ok k
  have h := waiting_set k s.requests j (some op)
    (pending.result hx s op msg_type msg send_ok).2.1 hj
  simp only [client.set_request, e1, Option.some_bind] at h ⊢
  omega

theorem deliver_conserves (hx : hyperdex) (chan : Nat) (h : header) (msg : buffer)
    (send_ok : Bool) (k : Bool × Nat) :
    ∀ (fuel j : Nat) (s : client),
      calls k (client.deliver hx chan h msg send_ok fuel j s).2.1 +
        waiting k (client.deliver hx chan h msg send_ok fuel j s).1.requests =
      waiting k s.requests := by
  intro fuel
  induction fuel with
  | zero => intro j s; simp [client.deliver, calls]
  | succ fuel ih =>
    intro j s
    unfold client.deliver
    cases hj : s.requests.get? j with
    | none => simp [calls]
    | some r =>
      cases r with
      | none => exact ih (j + 1) s
      | some op =>
        simp only
        have hj1 : s.requests[j]? = some (some op) := by simpa using hj
        have hr := result_conserves hx s op j h.type msg send_ok k hj1
        split
        · split
          · exact hr
          · simp only
            rw [calls_append]
            have := ih (j + 1) ((pending.result hx s op h.type msg send_ok).1.set_request j
              (pending.result hx s op h.type msg send_ok).2.1)
            omega
        · exact ih (j + 1) s

theorem disconnect_conserves (s : client) (i : Nat) (op : pending) (b : Bool) (k : Bool × Nat)
    (hi : s.requests[i]? = some (some op)) :
    calls k (s.disconnect i op b).2 + waiting k (s.disconnect i op b).1.requests =
      waiting k s.requests := by
  have h := waiting_set_none k s.requests i op hi
  unfold client.disconnect
  rw [calls_result_rc]
  cases b
  · simp only [client.set_request, Bool.false_eq_true, if_false]
    omega
  · simp only [client.set_request, client.erase, client.close, if_true]
    omega

theorem learn_id_requests (hx : hyperdex) (s : client) (chan : Nat) (to_ : entityid) :
    (s.learn_id hx chan to_).requests = s.requests := by
  unfold client.learn_id
  split <;> rfl

theorem flush_scan_conserves (hx : hyperdex) (env : flush_env) (k : Bool × Nat) :
    ∀ (fuel i : Nat) (s : client),
      calls k (client.flush_scan hx env fuel i s).2.1 +
        waiting k (client.flush_scan hx env fuel i s).1.requests = waiting k s.requests := by
  intro fuel
  induction fuel with
  | zero => intro i s; simp [client.flush_scan, calls]
  | succ fuel ih =>
    intro i s
    unfold client.flush_scan
    cases hi : s.requests.getD i none with
    | none => exact ih (i + 1) s
    | some op =>
      simp only
      have hi1 := (getD_live s i op hi).1
      split
      · exact disconnect_conserves s i op true k hi1
      · split
        · have h := waiting_set_none k s.requests i op hi1
          simp only [client.set_request]
          rw [calls_result_rc]
          omega
        · split
          · exact ih (i + 1) s
          · split
            · exact disconnect_conserves s i op false k hi1
            · split
              · exact ih (i + 1) s
              · exact disconnect_conserves s i op true k hi1
              · split
                · exact ih (i + 1) s
                · split
                  · exact disconnect_conserves s i op true k hi1
                  · split
                    · exact disconnect_conserves s i op true k hi1
                    · rename_i hdr msg heq
                      have hd := (deliver_conserves hx op.chan hdr msg env.send_ok k
                        (s.learn_id hx op.chan hdr.to_).requests.length 0
                        (s.learn_id hx op.chan hdr.to_)).trans
                        (by rw [learn_id_requests])
                      split
                      · exact hd
                      · simp only
                        rw [calls_append]
                        have := ih (i + 1) (client.deliver hx op.chan hdr msg env.send_ok
                          (s.learn_id hx op.chan hdr.to_).requests.length 0
                          (s.learn_id hx op.chan hdr.to_)).1
                        omega

theorem flush_iteration_conserves (hx : hyperdex) (s : client) (timeout : Int)
    (env : flush_env) (k : Bool × Nat) :
    calls k (s.flush_iteration hx timeout env).2.1 +
      waiting k (s.flush_iteration hx timeout env).1.requests = waiting k s.requests := by
  unfold client.flush_iteration
  split
  · simp [calls]
  · simp only
    split
    · simp [calls]
    · split
      · exact waiting_timeout_front k s.requests
      · split
        · simp [calls]
        · split
          · simp [calls]
          · split
            · simp only [calls_nil, Nat.zero_add]
              exact waiting_mark_reconfigured k _ s.requests
            · exact flush_scan_conserves hx env k _ 0 s

theorem flush_one_conserves (hx : hyperdex) (timeout : Int) (k : Bool × Nat) :
    ∀ (envs : List flush_env) (s s1 : client) (evs : List event) (ret : returncode),
      s.flush_one hx timeout envs = some (s1, evs, ret) →
      calls k evs + waiting k s1.requests = waiting k s.requests := by
  intro envs
  induction envs with
  | nil =>
    intro s s1 evs ret h
    unfold client.flush_one at h
    split at h
    · simp only [Option.some.injEq, Prod.mk.injEq] at h
      rw [← h.1, ← h.2.1, calls_nil, Nat.zero_add]
      exact waiting_pop_null_front k s.requests
    · exact absurd h (by simp)
  | cons env envs ih =>
    intro s s1 evs ret h
    unfold client.flush_one at h
    split at h
    · simp only [Option.some.injEq, Prod.mk.injEq] at h
      rw [← h.1, ← h.2.1, calls_nil, Nat.zero_add]
      exact waiting_pop_null_front k s.requests
    · have hi := flush_iteration_conserves hx { s with requests := pop_null_front s.requests }
        timeout env k
      have hp := waiting_pop_null_front k s.requests
      simp only at h hi
      split at h
      · simp only [Option.some.injEq, Prod.mk.injEq] at h
        rw [← h.1, ← h.2.1]
        omega
      · split at h
        · exact absurd h (by simp)
        · rename_i s2 evs2 ret2 h2
          simp only [Option.some.injEq, Prod.mk.injEq] at h
          have := ih _ s2 evs2 ret2 h2
          rw [← h.1, ← h.2.1, calls_append]
          omega

theorem flush_loop_conserves (hx : hyperdex) (original_timeout : Int) (k : Bool × Nat) :
    ∀ (script : List (List flush_env × Int)) (timeout : Int) (s s1 : client)
      (evs : List event) (ret : returncode),
      client.flush_loop hx original_timeout script timeout s = some (s1, evs, ret) →
      calls k evs + waiting k s1.requests = waiting k s.requests := by
  intro script
  induction script with
  | nil =>
    intro timeout s s1 evs ret h
    unfold client.flush_loop at h
    split at h
    · simp only [Option.some.injEq, Prod.mk.injEq] at h
      rw [← h.1, ← h.2.1, calls_nil, Nat.zero_add]
    · exact absurd h (by simp)
  | cons x script ih =>
    intro timeout s s1 evs ret h
    obtain ⟨envs, peek_ms⟩ := x
    unfold client.flush_loop at h
    split at h
    · simp only [Option.some.injEq, Prod.mk.injEq] at h
      rw [← h.1, ← h.2.1, calls_nil, Nat.zero_add]
    · split at h
      · exact absurd h (by simp)
      · rename_i s2 evs2 ret2 h2
        have h1 := flush_one_conserves hx timeout k envs s s2 evs2 ret2 h2
        by_cases hc : ret2 ≠ returncode.SUCCESS ∧ ret2 ≠ returncode.TIMEOUT
        · rw [if_pos hc] at h
          simp only [Option.some.injEq, Prod.mk.injEq] at h
          rw [← h.1, ← h.2.1]
          exact h1
        · rw [if_neg hc] at h
          simp only at h
          by_cases hr : (if timeout ≥ 0 ∧
              (if timeout ≥ 0 then original_timeout - peek_ms else timeout) < 0
              then returncode.TIMEOUT else ret2) = returncode.TIMEOUT
          · rw [if_pos hr] at h
            simp only [Option.some.injEq, Prod.mk.injEq] at h
            rw [← h.1, ← h.2.1, calls_append, waiting_timeout_all]
            have : waiting k ([] : List (Option pending)) = 0 := rfl
            simp only [this]
            omega
          · rw [if_neg hr] at h
            split at h
            · exact absurd h (by simp)
            · rename_i s3 evs3 ret3 h3
              simp only [Option.some.injEq, Prod.mk.injEq] at h
              have := ih _ s2 s3 evs3 ret3 h3
              rw [← h.1, ← h.2.1, calls_append]
              omega

theorem channels_index_requests (s : client) (inst : hinstance) :
    (s.channels_index inst).1.requests = s.requests := by
  unfold client.channels_index
  split <;> rfl

theorem obtain_requests (hx : hyperdex) (s : client) (inst : hinstance) :
    (s.obtain hx inst).1.requests = s.requests := by
  unfold client.obtain
  split
  · exact channels_index_requests s inst
  · exact channels_index_requests s inst

theorem callback_key_bound (op : pending) (chan : Nat) (ent : entityid) (inst : hinstance)
    (nonce : Nat) :
    pending.callback_key ⟨chan, ent, inst, nonce, op.reconfigured, op.kind⟩ =
      op.callback_key := rfl

theorem add_reqrep_conserves (hx : hyperdex) (s : client) (space : String) (key : buffer)
    (send_type : Nat) (send_msg : buffer) (op : pending) (connect_ok send_ok : Bool)
    (k : Bool × Nat) :
    calls k (s.add_reqrep hx space key send_type send_msg op connect_ok send_ok).2 +
      waiting k (s.add_reqrep hx space key send_type send_msg op connect_ok send_ok).1.requests =
    waiting k s.requests + (if op.callback_key = some k then 1 else 0) := by
  rcases add_reqrep_cases hx s space key send_type send_msg op connect_ok send_ok with
    h | h | ⟨dst_ent, dst_inst, h | ⟨p, h⟩ | ⟨p, h⟩⟩
  · rw [h, calls_result_rc]
    simp only
    omega
  · rw [h, calls_result_rc]
    simp only
    omega
  · rw [h, calls_result_rc]
    simp only [channels_index_requests]
    omega
  · rw [h]
    simp only [calls_cons, calls_nil, event.callback_key, waiting_append, waiting_cons,
      obtain_requests, Option.some_bind]
    have : waiting k ([] : List (Option pending)) = 0 := rfl
    simp only [callback_key_bound, this]
    simp
  · rw [h]
    have e : (((s.obtain hx dst_inst).1.take_nonce (s.obtain hx dst_inst).2).1.erase
        dst_inst).requests = s.requests := obtain_requests hx s dst_inst
    rw [calls_cons, calls_result_rc]
    simp only [e, event.callback_key]
    simp
    omega

theorem update_conserves (hx : hyperdex) (s s1 : client) (evs : List event) (space : String)
    (key : buffer) (value : List (String × buffer)) (callback : Nat) (c1 c2 : Bool)
    (k : Bool × Nat) (h : s.update hx space key value callback c1 c2 = some (s1, evs)) :
    calls k evs + waiting k s1.requests =
      waiting k s.requests + (if some (false, callback) = some k then 1 else 0) := by
  unfold client.update at h
  simp only at h
  split at h
  · simp only [Option.some.injEq, Prod.mk.injEq] at h
    rw [← h.1, ← h.2]
    simp only [calls_cons, calls_nil, event.callback_key]
    omega
  · split at h
    · exact absurd h (by simp)
    · split at h
      · simp only [Option.some.injEq, Prod.mk.injEq] at h
        rw [← h.1, ← h.2]
        simp only [calls_cons, calls_nil, event.callback_key]
        omega
      · simp only [Option.some.injEq] at h
        have := add_reqrep_conserves hx s space key hx.REQ_UPDATE
          (update_msg hx key (update_encode
            (s.config.lookup_space_dimensions (s.config.lookup_spaceid space)) value))
          (pending.new (pending_kind.mutate hx.RESP_UPDATE callback)) c1 c2 k
        rw [h] at this
        exact this

theorem conserve_tail (k : Bool × Nat) (w0 : Nat) (evs0 evs1 : List event)
    (r s7 : List (Option pending)) (h0 : calls k evs0 = 0) (h7 : waiting k s7 = w0)
    (ih : calls k evs1 + waiting k r = waiting k s7) :
    calls k (evs0 ++ evs1) + waiting k r = w0 := by
  rw [calls_append]
  omega

theorem search_op_key (searchid callback : Nat) (chan : Nat) (ent : entityid)
    (inst : hinstance) (nonce : Nat) (reconfigured : Bool) :
    pending.callback_key
      ⟨chan, ent, inst, nonce, reconfigured, pending_kind.search searchid callback⟩ = none := rfl

theorem search_loop_conserves (hx : hyperdex) (searchid callback : Nat) (req : buffer)
    (connect_ok send_ok : Nat → Bool) (k : Bool × Nat) :
    ∀ (ents : List (entityid × hinstance)) (n : Nat) (s : client),
      calls k (client.search_loop hx searchid callback req connect_ok send_ok ents n s).2 +
        waiting k
          (client.search_loop hx searchid callback req connect_ok send_ok ents n s).1.requests =
      waiting k s.requests := by
  intro ents
  induction ents with
  | nil => intro n s; simp [client.search_loop, calls]
  | cons e rest ih =>
    intro n s
    obtain ⟨ent, inst⟩ := e
    have o6 := obtain_requests hx s inst
    have i4 := channels_index_requests s inst
    have hob : s.obtain hx inst =
        (if (s.channels_index inst).2 = 0 then
          (s.channels_index inst).1.new_channel hx inst
        else ((s.channels_index inst).1, (s.channels_index inst).2)) := rfl
    unfold client.search_loop
    rcases hci : s.channels_index inst with ⟨s1, chan0⟩
    rw [hci] at i4 hob
    simp only at i4 hob ⊢
    split
    · refine conserve_tail k _
        [(pending.new (pending_kind.search searchid callback)).result_rc returncode.CONNECTFAIL]
        _ _ _ ?_ ?_ (ih (n + 1) _)
      · rw [calls_result_rc]
        simp [pending.new, pending.callback_key]
      · simp only [List.dropLast_concat, i4]
    · have hX : (if chan0 = 0 then
            client.new_channel hx { s1 with requests := s1.requests ++
              [some (pending.new (pending_kind.search searchid callback))] } inst
          else ({ s1 with requests := s1.requests ++
              [some (pending.new (pending_kind.search searchid callback))] }, chan0)) =
            ({ (s.obtain hx inst).1 with requests := (s.obtain hx inst).1.requests ++
              [some (pending.new (pending_kind.search searchid callback))] },
              (s.obtain hx inst).2) := by
        rw [hob]
        by_cases h0 : chan0 = 0
        · rw [if_pos h0, if_pos h0]; rfl
        · rw [if_neg h0, if_neg h0]
      rw [hX]
      generalize s.obtain hx inst = X at o6
      obtain ⟨s2, chan⟩ := X
      simp only at o6 ⊢
      cases send_ok n
      · simp only [client.send, Bool.false_eq_true, if_false, client.erase, client.take_nonce,
          List.dropLast_concat]
        refine conserve_tail k _ _ _ _ _ ?_ ?_ (ih (n + 1) _)
        · rw [calls_cons, calls_result_rc]
          simp [pending.new, pending.callback_key, event.callback_key]
        · simp only [o6]
      · simp only [client.send, if_true, client.take_nonce, List.dropLast_concat]
        refine conserve_tail k _ _ _ _ _ ?_ ?_ (ih (n + 1) _)
        · simp [calls_cons, calls_nil, event.callback_key]
        · simp only [waiting_append, waiting_cons, o6, Option.some_bind]
          have : waiting k ([] : List (Option pending)) = 0 := rfl
          simp [this, pending.new, pending.callback_key]

theorem search_conserves (hx : hyperdex) (s s1 : client) (evs : List event) (space : String)
    (equality : List (String × buffer)) (range : List (String × Nat × Nat)) (callback : Nat)
    (hint : Nat) (c1 c2 : Nat → Bool) (k : Bool × Nat)
    (h : s.search hx space equality range callback hint c1 c2 = some (s1, evs)) :
    calls k evs + waiting k s1.requests = waiting k s.requests := by
  unfold client.search at h
  simp only at h
  split at h
  · simp only [Option.some.injEq, Prod.mk.injEq] at h
    rw [← h.1, ← h.2]
    simp [calls_cons, calls_nil, event.callback_key]
  · split at h
    · exact absurd h (by simp)
    · split at h
      · simp only [Option.some.injEq, Prod.mk.injEq] at h
        rw [← h.1, ← h.2]
        simp [calls_cons, calls_nil, event.callback_key]
      · split at h
        · simp only [Option.some.injEq, Prod.mk.injEq] at h
          rw [← h.1, ← h.2]
          simp [calls_cons, calls_nil, event.callback_key]
        · simp only [Option.some.injEq] at h
          rename_i srch _
          have := search_loop_conserves hx s.searchid callback
            (pack_be 8 s.searchid ++ hx.pack_search srch) c1 c2 k
            (if hint = 65535 then s.config.search_entities (s.config.lookup_spaceid space) srch
             else s.config.search_entities_subspace (s.config.lookup_spaceid space) hint srch)
            0 { s with searchid := (s.searchid + 1) % 2 ^ 64 }
          rw [h] at this
          exact this

theorem connect_requests (s s1 : client) (env : connect_env) (ret : returncode)
    (h : s.connect env = some (s1, ret)) : s1.requests = s.requests := by
  have hloop : ∀ (loops : List (coordinatorlink.returncode × Option configuration)),
      client.connect_loop s loops = some (s1, ret) → s1.requests = s.requests := by
    intro loops
    induction loops with
    | nil => intro h; simp [client.connect_loop] at h
    | cons x rest ih =>
      intro h
      obtain ⟨rc, cfg⟩ := x
      cases rc <;> cases cfg <;> simp only [client.connect_loop, Option.some.injEq,
        Prod.mk.injEq] at h
      all_goals first
        | exact ih h
        | (rw [← h.1])
  unfold client.connect at h
  split at h
  · exact hloop _ h
  · simp only [Option.some.injEq, Prod.mk.injEq] at h
    rw [← h.1]
  · simp only [Option.some.injEq, Prod.mk.injEq] at h
    rw [← h.1]

theorem dispatched_snoc (k d : Bool × Nat) (ds : List (Bool × Nat)) :
    dispatched k (ds ++ [d]) = dispatched k ds + (if d = k then 1 else 0) := by
  unfold dispatched
  rw [List.countP_append, List.countP_cons]
  simp

theorem trace_conserves (hx : hyperdex) (s : client) (evs : List event)
    (ds : List (Bool × Nat)) (ht : Trace hx s evs ds) (k : Bool × Nat) :
    calls k evs + waiting k s.requests = dispatched k ds := by
  induction ht with
  | init config => rfl
  | connect env _ h ih =>
    rw [connect_requests _ _ env _ h]
    exact ih
  | @get s0 evs0 ds0 space key callback c1 c2 _ ih =>
    have h := add_reqrep_conserves hx s0 space key hx.REQ_GET key
      (pending.new (pending_kind.get callback)) c1 c2 k
    rw [calls_append, dispatched_snoc]
    unfold client.get
    have hk : (pending.new (pending_kind.get callback)).callback_key = some (true, callback) :=
      rfl
    rw [hk] at h
    simp only [Option.some.injEq] at h
    omega
  | @put s0 evs0 ds0 space key value callback c1 c2 _ ih =>
    have h := add_reqrep_conserves hx s0 space key hx.REQ_PUT
      (hx.pack_buffer key ++ hx.pack_vector value)
      (pending.new (pending_kind.mutate hx.RESP_PUT callback)) c1 c2 k
    rw [calls_append, dispatched_snoc]
    unfold client.put
    have hk : (pending.new (pending_kind.mutate hx.RESP_PUT callback)).callback_key =
        some (false, callback) := rfl
    rw [hk] at h
    simp only [Option.some.injEq] at h
    omega
  | @del s0 evs0 ds0 space key callback c1 c2 _ ih =>
    have h := add_reqrep_conserves hx s0 space key hx.REQ_DEL key
      (pending.new (pending_kind.mutate hx.RESP_DEL callback)) c1 c2 k
    rw [calls_append, dispatched_snoc]
    unfold client.del
    have hk : (pending.new (pending_kind.mutate hx.RESP_DEL callback)).callback_key =
        some (false, callback) := rfl
    rw [hk] at h
    simp only [Option.some.injEq] at h
    omega
  | update space key value callback c1 c2 _ h ih =>
    have h1 := update_conserves hx _ _ _ space key value callback c1 c2 k h
    rw [calls_append, dispatched_snoc]
    simp only [Option.some.injEq] at h1
    omega
  | search space equality range callback hint c1 c2 _ h ih =>
    have h1 := search_conserves hx _ _ _ space equality range callback hint c1 c2 k h
    rw [calls_append]
    omega
  | outstanding _ ih =>
    have := waiting_outstanding_loop k
    simp only [client.outstanding, this]
    exact ih
  | flush_one timeout envs _ h ih =>
    have h1 := flush_one_conserves hx timeout k envs _ _ _ _ h
    rw [calls_append]
    omega
  | flush timeout script _ h ih =>
    have h1 := flush_loop_conserves hx timeout k script timeout _ _ _ _ h
    rw [calls_append]
    omega

theorem dispatched_nodup (k : Bool × Nat) (ds : List (Bool × Nat)) (hn : ds.Nodup) :
    dispatched k ds ≤ 1 := by
  induction ds with
  | nil => simp [dispatched]
  | cons d rest ih =>
    rw [List.nodup_cons] at hn
    have h1 := ih hn.2
    unfold dispatched at h1 ⊢
    rw [List.countP_cons]
    by_cases hd : d = k
    · subst hd
      have : List.countP (fun x => decide (x = d)) rest = 0 := by
        rw [List.countP_eq_zero]
        intro a ha
        simp only [decide_eq_true_eq]
        intro e
        exact hn.1 (e ▸ ha)
      rw [this]
      simp
    · simp only [hd, decide_False, Bool.false_eq_true, if_false, Nat.add_zero]
      exact h1

/-- Claim C11. Over every run of the public operations from a freshly constructed
client, and for every get or mutate callback `k`: the number of invocations of `k`
so far plus the number of live ops in the queue that hold `k` equals the number of
ops dispatched with `k`. So every invocation takes one op holding the callback out
of the queue, and an op that is no longer in the queue is not called again. When
every dispatch names its own callback, each callback is invoked at most once, and
once it has been invoked no live op holds it. -/
theorem callback_at_most_once (hx : hyperdex) (s : client) (evs : List event)
    (ds : List (Bool × Nat)) (ht : Trace hx s evs ds) (k : Bool × Nat) :
    calls k evs + waiting k s.requests = dispatched k ds ∧
    (ds.Nodup → calls k evs ≤ 1 ∧ (calls k evs = 1 → waiting k s.requests = 0)) := by
  have h := trace_conserves hx s evs ds ht k
  refine ⟨h, ?_⟩
  intro hn
  have := dispatched_nodup k ds hn
  omega

theorem sample_trace :
    Trace sample_hyperdex sample_timed_out sample_run_events [(true, 7), (true, 8)] :=
  Trace.flush_one 100 [sample_env_timeout]
    (Trace.get "users" [43] 8 true true
      (Trace.get "users" [42] 7 true true (Trace.init sample_config)))
    (flush_one_poll_timeout sample_hyperdex sample_client 100 sample_env_timeout [] []
      [some ⟨1, 5, ⟨100, 3⟩, 2, false, pending_kind.get 8⟩]
      ⟨1, 5, ⟨100, 3⟩, 1, false, pending_kind.get 7⟩ (by decide) (by simp) (by decide)
      (by decide))

/-- Witness for C11: two `get` requests with callbacks 7 and 8 are sent and the
first is timed out by `flush_one`; callback 7 has been invoked once and no live op
holds it. -/
theorem callback_at_most_once_witness :
    Trace sample_hyperdex sample_timed_out sample_run_events [(true, 7), (true, 8)] ∧
    calls (true, 7) sample_run_events = 1 ∧
    (calls (true, 7) sample_run_events + waiting (true, 7) sample_timed_out.requests =
        dispatched (true, 7) [(true, 7), (true, 8)] ∧
      (List.Nodup [(true, 7), (true, 8)] →
        calls (true, 7) sample_run_events ≤ 1 ∧
          (calls (true, 7) sample_run_events = 1 →
            waiting (true, 7) sample_timed_out.requests = 0))) :=
  ⟨sample_trace, by decide,
    callback_at_most_once sample_hyperdex sample_timed_out sample_run_events
      [(true, 7), (true, 8)] sample_trace (true, 7)⟩


/-! ## Eviction by the loop of `flush_one` -/

theorem result_rc_ret_inj (a b : pending) (r1 r2 : returncode)
    (h : a.result_rc r1 = b.result_rc r2) : r1 = r2 := by
  unfold pending.result_rc at h
  cases ha : a.kind <;> cases hb : b.kind <;> rw [ha, hb] at h <;> simp at h
  · exact h.2
  · exact h.2
  · exact h.2

theorem result_rc_kind (a b : pending) (r : returncode) (h : a.kind = b.kind) :
    a.result_rc r = b.result_rc r := by
  unfold pending.result_rc
  rw [h]

theorem get_result_no_disconnect (hx : hyperdex) (callback msg_type : Nat) (msg : buffer)
    (x : pending) :
    x.result_rc returncode.DISCONNECT ∉ (pending_get.result hx callback msg_type msg).2.2 := by
  intro hm
  cases hk : x.kind <;> simp only [pending.result_rc, hk] at hm <;>
    (revert hm; unfold pending_get.result; repeat' split) <;> simp

theorem mutate_result_no_disconnect (hx : hyperdex) (expected callback msg_type : Nat)
    (msg : buffer) (x : pending) :
    x.result_rc returncode.DISCONNECT ∉
      (pending_mutate.result hx expected callback msg_type msg).2.2 := by
  intro hm
  cases hk : x.kind <;> simp only [pending.result_rc, hk] at hm <;>
    (revert hm; unfold pending_mutate.result; repeat' split) <;> simp

theorem result_disconnect (hx : hyperdex) (s : client) (op : pending) (msg_type : Nat)
    (msg : buffer) (send_ok : Bool) (hT : s.table_inv) (hop : op ∈ s.live) (x : pending)
    (hm : x.result_rc returncode.DISCONNECT ∈
      (pending.result hx s op msg_type msg send_ok).2.2.2) :
    x.result_rc returncode.DISCONNECT = op.result_rc returncode.DISCONNECT ∧
    (pending.result hx s op msg_type msg send_ok).1.absent op.chan := by
  unfold pending.result at hm ⊢
  cases hk : op.kind with
  | get callback =>
    rw [hk] at hm
    exact absurd hm (get_result_no_disconnect hx callback msg_type msg x)
  | mutate expected callback =>
    rw [hk] at hm
    exact absurd hm (mutate_result_no_disconnect hx expected callback msg_type msg x)
  | search searchid callback =>
    rw [hk] at hm
    simp only at hm ⊢
    have hse : ∀ ret, event.search_callback callback ret [] [] = op.result_rc ret := by
      intro ret
      simp [pending.result_rc, hk]
    unfold pending_search.result at hm ⊢
    by_cases h1 : msg_type = hx.RESP_SEARCH_ITEM
    · rw [if_pos h1] at hm ⊢
      cases hb : hx.unpack_buffer msg with
      | none =>
        rw [hb] at hm
        simp only [List.mem_singleton] at hm
        rw [hse] at hm
        exact absurd (result_rc_ret_inj _ _ _ _ hm) (by decide)
      | some r =>
        obtain ⟨key, up⟩ := r
        rw [hb] at hm
        simp only at hm ⊢
        cases hv : hx.unpack_vector up with
        | none =>
          rw [hv] at hm
          exfalso
          cases hkx : x.kind <;> simp [pending.result_rc, hkx] at hm
        | some r2 =>
          obtain ⟨value, rest⟩ := r2
          rw [hv] at hm
          simp only at hm ⊢
          cases send_ok
          · simp only [client.send, Bool.false_eq_true, if_false, List.mem_cons,
              List.mem_singleton, List.not_mem_nil, or_false] at hm ⊢
            rcases hm with hm | hm
            · exact absurd hm (result_rc_ne_xsend _ _ _ _ _)
            · refine ⟨hm.trans (result_rc_kind _ _ _ rfl), ?_⟩
              intro inst hi
              simp only [client.erase, client.take_nonce, Function.update_apply] at hi
              split at hi
              · exact absurd hi (by simp)
              · rename_i hne
                exact hne (hT.1 op hop inst hi)
          · exfalso
            cases hkx : x.kind <;> simp [client.send, pending.result_rc, hkx] at hm
    · rw [if_neg h1] at hm
      split at hm
      · simp at hm
      · simp only [List.mem_singleton] at hm
        rw [hse] at hm
        exact absurd (result_rc_ret_inj _ _ _ _ hm) (by decide)

theorem live_from_refl (s : client) : s.live_from s :=
  fun op1 hm => ⟨op1, hm, rfl, rfl⟩

theorem live_from_trans (s s1 s2 : client) (h1 : s.live_from s1) (h2 : s1.live_from s2) :
    s.live_from s2 := by
  intro op2 hm
  obtain ⟨op1, m1, c1, k1⟩ := h2 op2 hm
  obtain ⟨op, m, c, k⟩ := h1 op1 m1
  exact ⟨op, m, c.trans c1, k.trans k1⟩

theorem live_from_sublist (s s1 : client) (h : s1.live.Sublist s.live) : s.live_from s1 :=
  fun op1 hm => ⟨op1, h.subset hm, rfl, rfl⟩

theorem live_from_label (s s1 : client) (h : s.live_from s1) (x : pending) (c : Nat)
    (hl : ∀ op ∈ s.live,
      op.result_rc returncode.DISCONNECT = x.result_rc returncode.DISCONNECT → op.chan = c) :
    ∀ op ∈ s1.live,
      op.result_rc returncode.DISCONNECT = x.result_rc returncode.DISCONNECT → op.chan = c := by
  intro op1 hm he
  obtain ⟨op, m, hc, hk⟩ := h op1 hm
  rw [← hc]
  exact hl op m ((result_rc_kind op op1 _ hk).trans he)

theorem result_live (hx : hyperdex) (s : client) (op : pending) (j : Nat) (msg_type : Nat)
    (msg : buffer) (send_ok : Bool) (hj : s.requests[j]? = some (some op)) :
    s.live_from ((pending.result hx s op msg_type msg send_ok).1.set_request j
      (pending.result hx s op msg_type msg send_ok).2.1) := by
  have hnone : s.live_from (s.set_request j none) :=
    live_from_sublist s _ (reduceOption_set_none_sublist s.requests j)
  unfold pending.result
  cases hk : op.kind with
  | get callback =>
    simp only
    have : (pending_get.result hx callback msg_type msg).1 = none :=
      (get_result_calls hx callback msg_type msg (true, 0)).1
    rw [this]
    exact hnone
  | mutate expected callback =>
    simp only
    have : (pending_mutate.result hx expected callback msg_type msg).1 = none :=
      (mutate_result_calls hx expected callback msg_type msg (true, 0)).1
    rw [this]
    exact hnone
  | search searchid callback =>
    simp only
    unfold pending_search.result
    by_cases h1 : msg_type = hx.RESP_SEARCH_ITEM
    · rw [if_pos h1]
      cases hx.unpack_buffer msg with
      | none => exact hnone
      | some r =>
        obtain ⟨key, up⟩ := r
        simp only
        cases hx.unpack_vector up with
        | none => exact hnone
        | some r2 =>
          obtain ⟨value, rest⟩ := r2
          simp only
          rcases send_cases hx (s.take_nonce op.chan).1 op.chan
            { op with nonce := (s.take_nonce op.chan).2 } op.ent op.inst
            (s.take_nonce op.chan).2 hx.REQ_SEARCH_NEXT (pack_be 8 searchid) send_ok
            with ⟨e1, e2⟩ | ⟨e1, e2⟩
          · rw [e1, e2]
            simp only [if_true]
            obtain ⟨hop, hmem⟩ := live_set_some s.requests j op
              { op with nonce := (s.take_nonce op.chan).2 } hj
            intro a ha
            rcases hmem a ha with e | hm
            · exact ⟨op, hop, by rw [e], by rw [e]⟩
            · exact ⟨a, hm, rfl, rfl⟩
          · rw [e1, e2]
            simp only [Bool.false_eq_true, if_false]
            exact hnone
    · rw [if_neg h1]
      split
      · exact hnone
      · exact hnone

theorem deliver_live (hx : hyperdex) (chan : Nat) (h : header) (msg : buffer) (send_ok : Bool) :
    ∀ (fuel j : Nat) (s : client),
      s.live_from (client.deliver hx chan h msg send_ok fuel j s).1 := by
  intro fuel
  induction fuel with
  | zero => intro j s; exact live_from_refl s
  | succ fuel ih =>
    intro j s
    unfold client.deliver
    cases hj : s.requests.get? j with
    | none => exact live_from_refl s
    | some r =>
      cases r with
      | none => exact ih (j + 1) s
      | some op =>
        simp only
        have hj1 : s.requests[j]? = some (some op) := by simpa using hj
        have hr := result_live hx s op j h.type msg send_ok hj1
        split
        · split
          · exact hr
          · exact live_from_trans _ _ _ hr (ih (j + 1) _)
        · exact ih (j + 1) s

theorem learn_id_live (hx : hyperdex) (s : client) (chan : Nat) (to_ : entityid) :
    (s.learn_id hx chan to_).live = s.live := by
  unfold client.learn_id client.live
  split <;> rfl

theorem disconnect_live (s : client) (i : Nat) (op : pending) (b : Bool) :
    s.live_from (s.disconnect i op b).1 := by
  refine live_from_sublist s _ ?_
  unfold client.disconnect
  cases b
  · exact reduceOption_set_none_sublist s.requests i
  · exact reduceOption_set_none_sublist s.requests i

theorem flush_scan_live (hx : hyperdex) (env : flush_env) :
    ∀ (fuel i : Nat) (s : client), s.live_from (client.flush_scan hx env fuel i s).1 := by
  intro fuel
  induction fuel with
  | zero => intro i s; exact live_from_refl s
  | succ fuel ih =>
    intro i s
    unfold client.flush_scan
    cases hi : s.requests.getD i none with
    | none => exact ih (i + 1) s
    | some op =>
      simp only
      split
      · exact disconnect_live s i op true
      · split
        · exact live_from_sublist s _ (reduceOption_set_none_sublist s.requests i)
        · split
          · exact ih (i + 1) s
          · split
            · exact disconnect_live s i op false
            · split
              · exact ih (i + 1) s
              · exact disconnect_live s i op true
              · split
                · exact ih (i + 1) s
                · split
                  · exact disconnect_live s i op true
                  · split
                    · exact disconnect_live s i op true
                    · rename_i hdr msg heq
                      have hd : s.live_from (client.deliver hx op.chan hdr msg env.send_ok
                          (s.learn_id hx op.chan hdr.to_).requests.length 0
                          (s.learn_id hx op.chan hdr.to_)).1 := by
                        intro op1 hm
                        obtain ⟨o, mo, c, k⟩ := deliver_live hx op.chan hdr msg env.send_ok
                          (s.learn_id hx op.chan hdr.to_).requests.length 0
                          (s.learn_id hx op.chan hdr.to_) op1 hm
                        rw [learn_id_live] at mo
                        exact ⟨o, mo, c, k⟩
                      split
                      · exact hd
                      · exact live_from_trans _ _ _ hd (ih (i + 1) _)

theorem deliver_disconnect (hx : hyperdex) (chan : Nat) (h : header) (msg : buffer)
    (send_ok : Bool) (x : pending) (c : Nat) :
    ∀ (fuel j : Nat) (s : client), s.inv → s.table_inv →
      (∀ op ∈ s.live,
        op.result_rc returncode.DISCONNECT = x.result_rc returncode.DISCONNECT → op.chan = c) →
      x.result_rc returncode.DISCONNECT ∈ (client.deliver hx chan h msg send_ok fuel j s).2.1 →
      (client.deliver hx chan h msg send_ok fuel j s).1.absent c := by
  intro fuel
  induction fuel with
  | zero => intro j s _ _ _ hm; simp [client.deliver] at hm
  | succ fuel ih =>
    intro j s hP hT hl
    unfold client.deliver
    cases hj : s.requests.get? j with
    | none => intro hm; simp at hm
    | some r =>
      cases r with
      | none => exact ih (j + 1) s hP hT hl
      | some op =>
        simp only
        have hj1 : s.requests[j]? = some (some op) := by simpa using hj
        have hop : op ∈ s.live := (mem_live_iff s op).mpr (List.getElem?_mem hj1)
        by_cases hm : s.matches chan h op
        · rw [if_pos hm]
          cases hc : (pending.result hx s op h.type msg send_ok).2.2.1 with
          | true =>
            simp only [if_true]
            intro hmem
            obtain ⟨e1, e2⟩ := result_disconnect hx s op h.type msg send_ok hT hop x hmem
            rw [← hl op hop e1.symm]
            exact e2
          | false =>
            have hr := result_not_called_back hx s op h.type msg send_ok hc
            have hr1 := inv_result hx s op j h.type msg send_ok hP hj1
            have hr2 := tinv_result hx s op j h.type msg send_ok hP hT hj1
            have hr3 := live_from_label _ _ (result_live hx s op j h.type msg send_ok hj1) x c hl
            rw [hr] at hr1 hr2 hr3 ⊢
            simp only [Bool.false_eq_true, if_false, List.nil_append] at hr1 hr2 hr3 ⊢
            exact ih (j + 1) _ hr1 hr2 hr3
        · rw [if_neg hm]
          exact ih (j + 1) s hP hT hl

theorem absent_of_closed (s : client) (op : pending) (hP : s.inv) (hT : s.table_inv)
    (hop : op ∈ s.live) (hc : (s.chans op.chan).soc_closed = true) : s.absent op.chan := by
  intro inst hi
  have h0 : op.chan ≠ 0 := by
    have := (hP.1.2.1 op hop).1
    omega
  have h1 := hT.2.1 inst op.chan hi h0
  rw [hc] at h1
  exact absurd h1 (by simp)

theorem disconnect_absent (s : client) (i : Nat) (op : pending) (b : Bool) (hP : s.inv)
    (hT : s.table_inv) (hop : op ∈ s.live)
    (hb : b = false → (s.chans op.chan).soc_closed = true) :
    (s.disconnect i op b).1.absent op.chan := by
  cases b
  · exact absent_of_closed s op hP hT hop (hb rfl)
  · exact absent_disconnect s i op hT hop

theorem flush_scan_disconnect (hx : hyperdex) (env : flush_env) (x : pending) (c : Nat) :
    ∀ (fuel i : Nat) (s : client), s.inv → s.table_inv →
      (∀ op ∈ s.live,
        op.result_rc returncode.DISCONNECT = x.result_rc returncode.DISCONNECT → op.chan = c) →
      ((client.flush_scan hx env fuel i s).2.2 = none →
        (client.flush_scan hx env fuel i s).2.1 = []) ∧
      (x.result_rc returncode.DISCONNECT ∈ (client.flush_scan hx env fuel i s).2.1 →
        (client.flush_scan hx env fuel i s).1.absent c) := by
  intro fuel
  induction fuel with
  | zero =>
    intro i s _ _ _
    exact ⟨fun _ => rfl, fun hm => by simp [client.flush_scan] at hm⟩
  | succ fuel ih =>
    intro i s hP hT hl
    unfold client.flush_scan
    cases hi : s.requests.getD i none with
    | none => exact ih (i + 1) s hP hT hl
    | some op =>
      simp only
      have hop := (getD_live s i op hi).2
      have hdis : ∀ b, (b = false → (s.chans op.chan).soc_closed = true) →
          (((s.disconnect i op b).1, (s.disconnect i op b).2, some returncode.SUCCESS).2.2 = none →
            ((s.disconnect i op b).1, (s.disconnect i op b).2,
              some returncode.SUCCESS).2.1 = []) ∧
          (x.result_rc returncode.DISCONNECT ∈
              ((s.disconnect i op b).1, (s.disconnect i op b).2, some returncode.SUCCESS).2.1 →
            ((s.disconnect i op b).1, (s.disconnect i op b).2,
              some returncode.SUCCESS).1.absent c) := by
        intro b hb
        refine ⟨fun h => absurd h (by simp), ?_⟩
        intro hm
        simp only [client.disconnect, List.mem_singleton] at hm
        rw [← hl op hop hm.symm]
        exact disconnect_absent s i op b hP hT hop hb
      split
      · exact hdis true (fun h => absurd h (by simp))
      · split
        · refine ⟨fun h => absurd h (by simp), ?_⟩
          intro hm
          simp only [List.mem_singleton] at hm
          exact absurd (result_rc_ret_inj _ _ _ _ hm) (by decide)
        · split
          · exact ih (i + 1) s hP hT hl
          · split
            · rename_i hclosed
              exact hdis false (fun _ => hclosed)
            · split
              · exact ih (i + 1) s hP hT hl
              · exact hdis true (fun h => absurd h (by simp))
              · split
                · exact ih (i + 1) s hP hT hl
                · split
                  · exact hdis true (fun h => absurd h (by simp))
                  · split
                    · exact hdis true (fun h => absurd h (by simp))
                    · rename_i hdr msg heq
                      have hP1 := inv_learn_id hx s op.chan hdr.to_ hP
                      have hT1 := tinv_learn_id hx s op.chan hdr.to_ hP.1 hT
                      have hl1 : ∀ o ∈ (s.learn_id hx op.chan hdr.to_).live,
                          o.result_rc returncode.DISCONNECT = x.result_rc returncode.DISCONNECT →
                          o.chan = c := by
                        rw [learn_id_live]
                        exact hl
                      have hd := deliver_inv hx op.chan hdr msg env.send_ok
                        (s.learn_id hx op.chan hdr.to_).requests.length 0 _ hP1
                      have hd2 := deliver_tinv hx op.chan hdr msg env.send_ok
                        (s.learn_id hx op.chan hdr.to_).requests.length 0 _ hP1 hT1
                      have hd3 := (deliver_send_failure hx op.chan hdr msg env.send_ok 0 []
                        (s.learn_id hx op.chan hdr.to_).requests.length 0 _ hP1 hT1).1
                      have hd4 := deliver_disconnect hx op.chan hdr msg env.send_ok x c
                        (s.learn_id hx op.chan hdr.to_).requests.length 0 _ hP1 hT1 hl1
                      have hd5 := live_from_label _ _ (deliver_live hx op.chan hdr msg env.send_ok
                        (s.learn_id hx op.chan hdr.to_).requests.length 0
                        (s.learn_id hx op.chan hdr.to_)) x c hl1
                      split
                      · exact ⟨fun h => absurd h (by simp), hd4⟩
                      · rename_i hcb
                        have hnil := hd3 (by simpa using hcb)
                        have hrec := ih (i + 1) _ hd hd2 hd5
                        simp only
                        rw [hnil, List.nil_append]
                        exact hrec

theorem flush_scan_path (hx : hyperdex) (env : flush_env) (s : client) (fuel i : Nat)
    (op : pending) (hP : s.inv) (hT : s.table_inv)
    (hi : s.requests[i]? = some (some op)) (hd : s.disconnects hx env i op = true) :
    (client.flush_scan hx env (fuel + 1) i s).2 =
      ([op.result_rc returncode.DISCONNECT], some returncode.SUCCESS) ∧
    (client.flush_scan hx env (fuel + 1) i s).1.requests = s.requests.set i none ∧
    (client.flush_scan hx env (fuel + 1) i s).1.absent op.chan := by
  have hop : op ∈ s.live := (mem_live_iff s op).mpr (List.getElem?_mem hi)
  have hg : s.requests.getD i none = some op := by
    rw [List.getD_eq_getElem?_getD, hi]
    rfl
  have hdis : ∀ b, (b = false → (s.chans op.chan).soc_closed = true) →
      ((s.disconnect i op b).1, (s.disconnect i op b).2, some returncode.SUCCESS).2 =
        ([op.result_rc returncode.DISCONNECT], some returncode.SUCCESS) ∧
      ((s.disconnect i op b).1, (s.disconnect i op b).2,
        some returncode.SUCCESS).1.requests = s.requests.set i none ∧
      ((s.disconnect i op b).1, (s.disconnect i op b).2,
        some returncode.SUCCESS).1.absent op.chan := by
    intro b hb
    refine ⟨rfl, ?_, disconnect_absent s i op b hP hT hop hb⟩
    cases b <;> rfl
  unfold client.disconnects at hd
  rw [client.flush_scan]
  simp only [hg]
  by_cases h1 : (env.revents i).POLLHUP = true ∨ (env.revents i).POLLERR = true
  · rw [if_pos h1]
    exact hdis true (fun h => absurd h (by simp))
  · rw [if_neg h1]
    have h1a : (env.revents i).POLLHUP = false := by
      cases hh : (env.revents i).POLLHUP
      · rfl
      · exact absurd (Or.inl hh) h1
    have h1b : (env.revents i).POLLERR = false := by
      cases hh : (env.revents i).POLLERR
      · rfl
      · exact absurd (Or.inr hh) h1
    simp only [h1a, h1b, Bool.or_self, Bool.false_or, Bool.and_eq_true, Bool.not_eq_true',
      Bool.or_eq_true] at hd
    obtain ⟨⟨hrec, hin⟩, hrest⟩ := hd
    rw [if_neg (by simp [hrec]), if_neg (by simp [hin])]
    by_cases h2 : (s.chans op.chan).soc_closed = true
    · rw [if_pos h2]
      exact hdis false (fun _ => h2)
    · rw [if_neg h2]
      rcases hrest with hrest | hrest
      · exact absurd hrest h2
      · cases hr : env.recv i with
        | would_block =>
          rw [hr] at hrest
          simp at hrest
        | error => exact hdis true (fun h => absurd h (by simp))
        | data bytes =>
          rw [hr] at hrest
          simp only [Bool.and_eq_true, decide_eq_true_eq, Bool.or_eq_true,
            Option.isNone_iff_eq_none] at hrest
          obtain ⟨hlen, hcase⟩ := hrest
          simp only
          rw [if_neg (by omega)]
          by_cases h3 : bytes.length < (be_value (List.take 4 bytes) + 4) % 2 ^ 32
          · rw [if_pos h3]
            exact hdis true (fun h => absurd h (by simp))
          · rw [if_neg h3]
            rcases hcase with hcase | hcase
            · exact absurd hcase h3
            · rw [hcase]
              exact hdis true (fun h => absurd h (by simp))

theorem timeout_front_events (reqs : List (Option pending)) :
    ∀ e ∈ (timeout_front reqs).2, ∃ op : pending, e = op.result_rc returncode.TIMEOUT := by
  induction reqs with
  | nil => intro e he; simp [timeout_front] at he
  | cons r rest ih =>
    cases r with
    | none => exact ih
    | some op =>
      intro e he
      simp only [timeout_front, List.mem_singleton] at he
      exact ⟨op, he⟩

theorem pop_null_front_live_from (s : client) :
    s.live_from { s with requests := pop_null_front s.requests } := by
  refine live_from_sublist s _ ?_
  show (pop_null_front s.requests).reduceOption.Sublist s.requests.reduceOption
  rw [pop_null_front_live]

theorem mark_reconfigured_live_from (s : client) (config : configuration) :
    s.live_from { s with config := config, requests := mark_reconfigured config s.requests } := by
  intro op1 hm
  have hlive :
      ({ s with config := config, requests := mark_reconfigured config s.requests } : client).live =
      s.live.map (fun op =>
        if config.instancefor op.ent ≠ op.inst then { op with reconfigured := true } else op) :=
    mark_reconfigured_live config s.requests
  rw [hlive] at hm
  obtain ⟨a, ha, rfl⟩ := List.mem_map.mp hm
  refine ⟨a, ha, ?_, ?_⟩
  · split <;> rfl
  · split <;> rfl

theorem flush_iteration_live (hx : hyperdex) (s : client) (timeout : Int) (env : flush_env) :
    s.live_from (s.flush_iteration hx timeout env).1 := by
  unfold client.flush_iteration
  split
  · exact live_from_refl s
  · simp only
    split
    · exact live_from_refl s
    · split
      · exact live_from_sublist s _ (timeout_front_sublist s.requests)
      · split
        · exact live_from_refl s
        · split
          · exact live_from_refl s
          · split
            · exact mark_reconfigured_live_from s _
            · exact flush_scan_live hx env _ 0 s

theorem flush_iteration_disconnect (hx : hyperdex) (s : client) (timeout : Int)
    (env : flush_env) (x : pending) (c : Nat) (hP : s.inv) (hT : s.table_inv)
    (hl : ∀ op ∈ s.live,
      op.result_rc returncode.DISCONNECT = x.result_rc returncode.DISCONNECT → op.chan = c) :
    ((s.flush_iteration hx timeout env).2.2 = none →
      (s.flush_iteration hx timeout env).2.1 = []) ∧
    (x.result_rc returncode.DISCONNECT ∈ (s.flush_iteration hx timeout env).2.1 →
      (s.flush_iteration hx timeout env).1.absent c) := by
  unfold client.flush_iteration
  split
  · exact ⟨fun _ => rfl, fun hm => by simp at hm⟩
  · simp only
    split
    · exact ⟨fun _ => rfl, fun hm => by simp at hm⟩
    · split
      · refine ⟨fun h => absurd h (by simp), ?_⟩
        intro hm
        obtain ⟨op, he⟩ := timeout_front_events s.requests _ hm
        exact absurd (result_rc_ret_inj _ _ _ _ he) (by decide)
      · split
        · exact ⟨fun _ => rfl, fun hm => by simp at hm⟩
        · split
          · exact ⟨fun _ => rfl, fun hm => by simp at hm⟩
          · split
            · exact ⟨fun _ => rfl, fun hm => by simp at hm⟩
            · exact flush_scan_disconnect hx env x c _ 0 s hP hT hl

theorem flush_one_disconnect (hx : hyperdex) (timeout : Int) (x : pending) (c : Nat) :
    ∀ (envs : List flush_env) (s s1 : client) (evs : List event) (ret : returncode),
      s.inv → s.table_inv →
      (∀ op ∈ s.live,
        op.result_rc returncode.DISCONNECT = x.result_rc returncode.DISCONNECT → op.chan = c) →
      s.flush_one hx timeout envs = some (s1, evs, ret) →
      x.result_rc returncode.DISCONNECT ∈ evs → s1.absent c := by
  intro envs
  induction envs with
  | nil =>
    intro s s1 evs ret hP hT hl h hm
    unfold client.flush_one at h
    split at h
    · simp only [Option.some.injEq, Prod.mk.injEq] at h
      rw [← h.2.1] at hm
      simp at hm
    · exact absurd h (by simp)
  | cons env envs ih =>
    intro s s1 evs ret hP hT hl h hm
    unfold client.flush_one at h
    split at h
    · simp only [Option.some.injEq, Prod.mk.injEq] at h
      rw [← h.2.1] at hm
      simp at hm
    · have hP0 := inv_pop_null_front s hP
      have hT0 := tinv_pop_null_front s hP hT
      have hl0 := live_from_label _ _ (pop_null_front_live_from s) x c hl
      have hi := flush_iteration_inv hx _ timeout env hP0
      have hi2 := flush_iteration_tinv hx _ timeout env hP0 hT0
      have hi3 := flush_iteration_disconnect hx _ timeout env x c hP0 hT0 hl0
      have hi4 := live_from_label _ _
        (flush_iteration_live hx { s with requests := pop_null_front s.requests } timeout env)
        x c hl0
      simp only at h
      split at h
      · simp only [Option.some.injEq, Prod.mk.injEq] at h
        rw [← h.1]
        rw [← h.2.1] at hm
        exact hi3.2 hm
      · rename_i hnone
        split at h
        · exact absurd h (by simp)
        · rename_i s2 evs2 ret2 h2
          simp only [Option.some.injEq, Prod.mk.injEq] at h
          rw [← h.1]
          rw [← h.2.1, hi3.1 hnone, List.nil_append] at hm
          exact ih _ s2 evs2 ret2 hi hi2 hi4 h2 hm

/-- Claim C14. In every state that the public operations can produce, and in every
state in which the request loop of `flush_one` stands, each way of telling an op
`DISCONNECT` leaves the channel of that op absent from the channel table.
Dispatch: a failed `xsend` in `add_reqrep` (used by `get`, `put`, `del` and
`update`), whose events are then the failed `xsend` and the `DISCONNECT` callback,
and a failed `xsend` in `search`. Search continuation: a failed `xsend` of the
continuation of a live search op, at the call of its handler and at the end of
the loop over the requests that contains the call. The loop over the requests of
`flush_one`: standing at a live request whose descriptor reports `POLLHUP` or
`POLLERR`, or whose socket is closed, or whose read throws, is short or cannot be
parsed, the loop returns `SUCCESS` with the `DISCONNECT` callback of that op as its
only event, empties the slot and leaves the channel of the op absent. Whole runs
of that loop and of `flush_one`: when the events contain the `DISCONNECT` callback
of a live op, the live ops that share the callback being on the channel of that
op, the channel is absent from the table of the state returned. -/
theorem channel_eviction (hx : hyperdex) (s : client) (hs : Reachable hx s ∨ Pumping hx s) :
    (∀ (space : String) (key : buffer) (send_type : Nat) (send_msg : buffer) (op : pending)
        (connect_ok send_ok : Bool) (chan : Nat) (packed : buffer),
      event.xsend chan packed false ∈
          (s.add_reqrep hx space key send_type send_msg op connect_ok send_ok).2 →
        (s.add_reqrep hx space key send_type send_msg op connect_ok send_ok).2 =
            [event.xsend chan packed false, op.result_rc returncode.DISCONNECT] ∧
          (s.add_reqrep hx space key send_type send_msg op connect_ok send_ok).1.absent chan) ∧
    (∀ (space : String) (equality : List (String × buffer)) (range : List (String × Nat × Nat))
        (callback hint : Nat) (connect_ok send_ok : Nat → Bool) (s1 : client)
        (evs : List event) (chan : Nat) (packed : buffer),
      s.search hx space equality range callback hint connect_ok send_ok = some (s1, evs) →
        event.xsend chan packed false ∈ evs → s1.absent chan) ∧
    (∀ (j : Nat) (op : pending) (msg_type : Nat) (msg : buffer) (send_ok : Bool) (chan : Nat)
        (packed : buffer),
      s.requests[j]? = some (some op) →
        event.xsend chan packed false ∈ (pending.result hx s op msg_type msg send_ok).2.2.2 →
        chan = op.chan ∧
          op.result_rc returncode.DISCONNECT ∈
            (pending.result hx s op msg_type msg send_ok).2.2.2 ∧
          (pending.result hx s op msg_type msg send_ok).1.absent op.chan) ∧
    (∀ (env : flush_env) (fuel i chan : Nat) (packed : buffer),
      event.xsend chan packed false ∈ (client.flush_scan hx env fuel i s).2.1 →
        (client.flush_scan hx env fuel i s).1.absent chan) ∧
    (∀ (i : Nat) (op : pending) (close_and_erase : Bool),
      s.requests[i]? = some (some op) →
        (close_and_erase = false → (s.chans op.chan).soc_closed = true) →
        (s.disconnect i op close_and_erase).2 = [op.result_rc returncode.DISCONNECT] ∧
          (s.disconnect i op close_and_erase).1.absent op.chan) ∧
    (∀ (env : flush_env) (fuel i : Nat) (op : pending),
      s.requests[i]? = some (some op) → s.disconnects hx env i op = true →
        (client.flush_scan hx env (fuel + 1) i s).2 =
            ([op.result_rc returncode.DISCONNECT], some returncode.SUCCESS) ∧
          (client.flush_scan hx env (fuel + 1) i s).1.requests = s.requests.set i none ∧
          (client.flush_scan hx env (fuel + 1) i s).1.absent op.chan) ∧
    (∀ (env : flush_env) (fuel i j : Nat) (op : pending),
      s.requests[j]? = some (some op) →
        (∀ op1 ∈ s.live, op1.result_rc returncode.DISCONNECT =
          op.result_rc returncode.DISCONNECT → op1.chan = op.chan) →
        op.result_rc returncode.DISCONNECT ∈ (client.flush_scan hx env fuel i s).2.1 →
        (client.flush_scan hx env fuel i s).1.absent op.chan) ∧
    (∀ (timeout : Int) (envs : List flush_env) (s1 : client) (evs : List event)
        (ret : returncode) (j : Nat) (op : pending),
      s.requests[j]? = some (some op) →
        (∀ op1 ∈ s.live, op1.result_rc returncode.DISCONNECT =
          op.result_rc returncode.DISCONNECT → op1.chan = op.chan) →
        s.flush_one hx timeout envs = some (s1, evs, ret) →
        op.result_rc returncode.DISCONNECT ∈ evs → s1.absent op.chan) := by
  have hP : s.inv := by
    rcases hs with h | h
    · exact reachable_inv hx s h
    · exact pumping_inv hx s h
  have hT : s.table_inv := by
    rcases hs with h | h
    · exact reachable_tinv hx s h
    · exact pumping_tinv hx s h
  refine ⟨?_, ?_, ?_, ?_, ?_, ?_, ?_, ?_⟩
  · intro space key send_type send_msg op connect_ok send_ok chan packed hm
    refine ⟨?_, (add_reqrep_tinv hx s space key send_type send_msg op connect_ok send_ok
      hP hT).2 chan packed hm⟩
    rcases add_reqrep_cases hx s space key send_type send_msg op connect_ok send_ok with
      h | h | ⟨dst_ent, dst_inst, h | ⟨p, h⟩ | ⟨p, h⟩⟩
    · rw [h] at hm
      simp only [List.mem_singleton] at hm
      exact absurd hm.symm (result_rc_ne_xsend _ _ _ _ _)
    · rw [h] at hm
      simp only [List.mem_singleton] at hm
      exact absurd hm.symm (result_rc_ne_xsend _ _ _ _ _)
    · rw [h] at hm
      simp only [List.mem_singleton] at hm
      exact absurd hm.symm (result_rc_ne_xsend _ _ _ _ _)
    · rw [h] at hm
      simp at hm
    · rw [h] at hm ⊢
      simp only [List.mem_cons, event.xsend.injEq, List.mem_singleton, List.not_mem_nil,
        or_false] at hm
      rcases hm with hm | hm
      · rw [hm.1, hm.2.1]
      · exact absurd hm.symm (result_rc_ne_xsend _ _ _ _ _)
  · intro space equality range callback hint connect_ok send_ok s1 evs chan packed h hm
    exact (search_tinv hx s s1 evs space equality range callback hint connect_ok send_ok
      hP hT h).2 chan packed hm
  · intro j op msg_type msg send_ok chan packed hj hm
    exact result_send_failure hx s op msg_type msg send_ok hT
      ((mem_live_iff s op).mpr (List.getElem?_mem hj)) chan packed hm
  · intro env fuel i chan packed hm
    exact flush_scan_send_failure hx env chan packed fuel i s hP hT hm
  · intro i op b hi hb
    have hop : op ∈ s.live := (mem_live_iff s op).mpr (List.getElem?_mem hi)
    refine ⟨rfl, ?_⟩
    cases b
    · intro inst hc
      have h0 : op.chan ≠ 0 := by
        have := (hP.1.2.1 op hop).1
        omega
      have h1 := hT.2.1 inst op.chan hc h0
      rw [hb rfl] at h1
      exact absurd h1 (by simp)
    · exact absent_disconnect s i op hT hop
  · intro env fuel i op hi hd
    exact flush_scan_path hx env s fuel i op hP hT hi hd
  · intro env fuel i j op hj hl hm
    exact (flush_scan_disconnect hx env op op.chan fuel i s hP hT hl).2 hm
  · intro timeout envs s1 evs ret j op hj hl h hm
    exact flush_one_disconnect hx timeout op op.chan envs s s1 evs ret hP hT hl h hm

/-- Witness for C14: the descriptor of the first request of `sample_client`
reports `POLLHUP`; the loop of `flush_one` tells the op `DISCONNECT`, empties its
slot, and channel 1 is absent from the table. -/
theorem channel_eviction_witness :
    (Reachable sample_hyperdex sample_client ∨ Pumping sample_hyperdex sample_client) ∧
    (client.flush_scan sample_hyperdex (sample_env_ready none ⟨false, true, false⟩) 2 0
        sample_client).2 =
      ([event.get_callback 7 returncode.DISCONNECT []], some returncode.SUCCESS) ∧
    (client.flush_scan sample_hyperdex (sample_env_ready none ⟨false, true, false⟩) 2 0
        sample_client).1.requests = sample_client.requests.set 0 none ∧
    (client.flush_scan sample_hyperdex (sample_env_ready none ⟨false, true, false⟩) 2 0
        sample_client).1.absent 1 :=
  have hr : Reachable sample_hyperdex sample_client ∨ Pumping sample_hyperdex sample_client :=
    Or.inl (Reachable.get "users" [43] 8 true true
      (Reachable.get "users" [42] 7 true true (Reachable.init sample_config)))
  ⟨hr, (channel_eviction sample_hyperdex sample_client hr).2.2.2.2.2.1
    (sample_env_ready none ⟨false, true, false⟩) 1 0
    ⟨1, 5, ⟨100, 3⟩, 1, false, pending_kind.get 7⟩ (by decide) (by decide)⟩

end hyperclient
